import Mathlib

/-!
# Message storage layout of the Ruby protobuf extension

A shallow embedding of `ruby/ext/protobuf_c/storage.c`: the slot codec
(`native_slot_*`), the layout builder (`create_layout`) and the message
storage operations (`layout_*`), followed by theorems about them.

Conventions of the embedding.

* C unsigned arithmetic on `size_t` is arithmetic on `Nat` reduced modulo
  `2 ^ SIZE_WIDTH`.
* A function that may `rb_raise` returns an `Outcome`: the exception together
  with the storage as it is at the point of the raise, or the storage on
  normal return.
* Memory is byte addressed. A cell holds a byte, a fragment of a Ruby `VALUE`
  (the `i`-th byte of a reference), or is uninitialised.
* The operations on two buffers (`layout_dup`, `layout_clone`, `layout_eq`)
  take each buffer with a memory of its own: two buffers are two allocations.
* The functions of the extension and of Ruby that `storage.c` calls for
  equality, copies and hashes are the fields of `Collaborators`; what a theorem
  needs of them is a hypothesis of that theorem.
-/

set_option autoImplicit false

namespace ProtobufC

/-! ## Target data model -/

/-- The C data models Ruby is built for: 32-bit and 64-bit pointers. -/
inductive DataModel where
  | ILP32
  | LP64
  deriving DecidableEq, Repr

/-- The C constant `sizeof(VALUE)`; a `VALUE` is a pointer-sized word. -/
def sizeof_VALUE : DataModel → Nat
  | .ILP32 => 4
  | .LP64 => 8

/-- Number of bits of `size_t`. -/
def SIZE_WIDTH : DataModel → Nat
  | .ILP32 => 32
  | .LP64 => 64

/-- Addition on `size_t`. -/
def size_add (T : DataModel) (a b : Nat) : Nat :=
  (a + b) % 2 ^ SIZE_WIDTH T

/-- Subtraction on `size_t` (wraps below zero). -/
def size_sub (T : DataModel) (a b : Nat) : Nat :=
  (a % 2 ^ SIZE_WIDTH T + 2 ^ SIZE_WIDTH T - b % 2 ^ SIZE_WIDTH T) % 2 ^ SIZE_WIDTH T

/-- Bitwise complement `~a` on `size_t`. -/
def size_not (T : DataModel) (a : Nat) : Nat :=
  2 ^ SIZE_WIDTH T - 1 - a % 2 ^ SIZE_WIDTH T

/-- Bitwise conjunction `a & b` on `size_t`. -/
def size_and (a b : Nat) : Nat :=
  a &&& b

/-! ## Field descriptors (upb) -/

/-- Modelled from the spec: the enum `upb_fieldtype_t` of upb (`upb/def.h`, not part of
the sources), the eleven declared element types, in the order of upb. -/
inductive upb_fieldtype_t where
  | UPB_TYPE_FLOAT
  | UPB_TYPE_DOUBLE
  | UPB_TYPE_BOOL
  | UPB_TYPE_STRING
  | UPB_TYPE_BYTES
  | UPB_TYPE_MESSAGE
  | UPB_TYPE_ENUM
  | UPB_TYPE_INT32
  | UPB_TYPE_UINT32
  | UPB_TYPE_INT64
  | UPB_TYPE_UINT64
  deriving DecidableEq, Repr

/-- Modelled from the spec: the enum `upb_label_t` of upb (not part of the sources), the
cardinality of a field; only `UPB_LABEL_REPEATED` is tested by the code. -/
inductive upb_label_t where
  | UPB_LABEL_OPTIONAL
  | UPB_LABEL_REQUIRED
  | UPB_LABEL_REPEATED
  deriving DecidableEq, Repr

/-- Modelled from the spec: the field descriptor `upb_fielddef` of upb (not part
of the sources), reduced to what `storage.c` reads of it: `upb_fielddef_name`,
`upb_fielddef_type`, `upb_fielddef_label`, `upb_fielddef_index` and
`upb_fielddef_subdef` (a handle of the message or enum definition the field
refers to; meaningful for message and enum fields only). -/
structure upb_fielddef where
  name : String
  type : upb_fieldtype_t
  label : upb_label_t
  index : Nat
  subdef : Nat
  deriving DecidableEq, Repr

/-- Modelled from the spec: the constant `UPB_MAX_FIELDNUMBER` of upb (not part of the
sources): field numbers have 29 bits. -/
def UPB_MAX_FIELDNUMBER : Nat := 2 ^ 29 - 1

/-- Modelled from the spec: the message definition `upb_msgdef` of upb (not part
of the sources), the schema, reduced to the fields in the order in which
`upb_msg_begin` / `upb_msg_next` visit them. upb keeps three invariants that
the layout code relies on: `upb_fielddef_index` is below
`upb_msgdef_numfields`, no two fields share an index, and since field numbers
are unique and at most `UPB_MAX_FIELDNUMBER` there are no more fields than
that. -/
structure upb_msgdef where
  fields : List upb_fielddef
  index_lt : ∀ f ∈ fields, f.index < fields.length
  index_nodup : (fields.map upb_fielddef.index).Nodup
  numfields_le : fields.length ≤ UPB_MAX_FIELDNUMBER

/-- Modelled from the spec: the upb function `upb_msgdef_numfields` (not part of the
sources). -/
def upb_msgdef_numfields (m : upb_msgdef) : Nat :=
  m.fields.length

/-! ## Slot sizes and the layout builder -/

open upb_fieldtype_t upb_label_t in
/-- The C function `native_slot_size` (storage.c:41). The `default` branch of
the C switch is unreachable for the eleven enumerators. -/
def native_slot_size (T : DataModel) : upb_fieldtype_t → Nat
  | UPB_TYPE_FLOAT => 4
  | UPB_TYPE_DOUBLE => 8
  | UPB_TYPE_BOOL => 1
  | UPB_TYPE_STRING => sizeof_VALUE T
  | UPB_TYPE_BYTES => sizeof_VALUE T
  | UPB_TYPE_MESSAGE => sizeof_VALUE T
  | UPB_TYPE_ENUM => 4
  | UPB_TYPE_INT32 => 4
  | UPB_TYPE_INT64 => 8
  | UPB_TYPE_UINT32 => 4
  | UPB_TYPE_UINT64 => 8

/-- The C struct `MessageLayout`: the offset table (an array of
`upb_msgdef_numfields` entries indexed by `upb_fielddef_index`), the size of
one storage buffer, and the message definition. -/
structure MessageLayout where
  msgdef : upb_msgdef
  offsets : List Nat
  size : Nat

/-- The expression `field_size` of `create_layout` (storage.c:315-317). -/
def field_size (T : DataModel) (field : upb_fielddef) : Nat :=
  if field.label = upb_label_t.UPB_LABEL_REPEATED then sizeof_VALUE T
  else native_slot_size T field.type

/-- The statement `off = (off + field_size - 1) & ~(field_size - 1)`
(storage.c:319), in `size_t` arithmetic. -/
def align_offset (T : DataModel) (off field_size : Nat) : Nat :=
  size_and (size_sub T (size_add T off field_size) 1) (size_not T (size_sub T field_size 1))

/-- The loop of `create_layout` (storage.c:313-322) over the fields that remain
to be visited: `off` is the running offset and `offsets` the array. It returns
the array and the final offset. -/
def create_layout_loop (T : DataModel) :
    List upb_fielddef → Nat → List Nat → List Nat × Nat
  | [], off, offsets => (offsets, off)
  | field :: rest, off, offsets =>
    let off1 := align_offset T off (field_size T field)
    let offsets1 := offsets.set field.index off1
    let off2 := size_add T off1 (field_size T field)
    create_layout_loop T rest off2 offsets1

/-- The C function `create_layout` (storage.c:306). `ALLOC_N` leaves the array
uninitialised; the model fills it with zeros, and every entry is written by
the loop. -/
def create_layout (T : DataModel) (msgdef : upb_msgdef) : MessageLayout :=
  let nfields := upb_msgdef_numfields msgdef
  let r := create_layout_loop T msgdef.fields 0 (List.replicate nfields 0)
  { msgdef := msgdef, offsets := r.1, size := r.2 }

/-- The array access `layout->offsets[upb_fielddef_index(field)]`. -/
def layout_offset (layout : MessageLayout) (field : upb_fielddef) : Nat :=
  layout.offsets.getD field.index 0

/-! ## C doubles -/

/-- The values of the C type `double` (and of `float`): a signed dyadic number
`(-1)^neg * mant * 2^exp`, an infinity, or a NaN. The machine types hold those
of these values that fit their precision and exponent range. A NaN is one
value: the sign and the payload that the bits of a NaN carry are not
represented. -/
inductive double where
  | finite (neg : Bool) (mant : Nat) (exp : Int)
  | infinity (neg : Bool)
  | nan
  deriving DecidableEq, Repr

/-- The numerator of a finite double over the common denominator `2 ^ (-emin)`. -/
def dbl_scaled (neg : Bool) (mant : Nat) (exp emin : Int) : Int :=
  (if neg then -1 else 1) * (mant : Int) * 2 ^ (exp - emin).toNat

/-- The C comparison `a < b` on doubles. -/
def dbl_lt : double → double → Bool
  | .finite n1 m1 e1, .finite n2 m2 e2 =>
    decide (dbl_scaled n1 m1 e1 (min e1 e2) < dbl_scaled n2 m2 e2 (min e1 e2))
  | .finite _ _ _, .infinity neg => !neg
  | .infinity neg, .finite _ _ _ => neg
  | .infinity n1, .infinity n2 => n1 && !n2
  | _, _ => false

/-- The C comparison `a == b` on doubles: by value, `-0.0 == 0.0`, and a NaN
equals nothing. -/
def dbl_eq : double → double → Bool
  | .finite n1 m1 e1, .finite n2 m2 e2 =>
    decide (dbl_scaled n1 m1 e1 (min e1 e2) = dbl_scaled n2 m2 e2 (min e1 e2))
  | .infinity n1, .infinity n2 => n1 == n2
  | _, _ => false

/-- The C comparison `a != b` on doubles. -/
def dbl_ne (a b : double) : Bool :=
  !dbl_eq a b

/-- The libm function `floor`. -/
def floor : double → double
  | .finite neg mant exp =>
    if 0 ≤ exp ∨ mant % 2 ^ (-exp).toNat = 0 then .finite neg mant exp
    else if neg then .finite true (mant / 2 ^ (-exp).toNat + 1) 0
    else .finite false (mant / 2 ^ (-exp).toNat) 0
  | d => d

/-- The C conversion of a finite double to an integer type: truncation towards
zero. Infinities and NaNs have no integer part. -/
def dbl_trunc : double → Option Int
  | .finite neg mant exp =>
    let a : Nat := if 0 ≤ exp then mant * 2 ^ exp.toNat else mant / 2 ^ (-exp).toNat
    some (if neg then -(a : Int) else (a : Int))
  | _ => none

/-- Whether a double is a finite number with a non-zero fractional part. -/
def dbl_has_fraction : double → Bool
  | .finite _ mant exp => decide (exp < 0 ∧ mant % 2 ^ (-exp).toNat ≠ 0)
  | _ => false

/-- Right shift by `sh` bits, rounding to nearest, ties to even. -/
def shift_right_rne (m sh : Nat) : Nat :=
  if sh = 0 then m
  else if 2 ^ (sh - 1) < m % 2 ^ sh ∨ (m % 2 ^ sh = 2 ^ (sh - 1) ∧ (m / 2 ^ sh) % 2 = 1) then
    m / 2 ^ sh + 1
  else m / 2 ^ sh

/-- IEEE 754 binary encoding with `ebits` exponent bits and `mbits` fraction
bits, rounding to nearest (ties to even) and overflowing to infinity: binary32
is `ieee_encode 8 23`, binary64 is `ieee_encode 11 52`. The NaN is encoded as
the positive quiet NaN; the bits of a NaN with a sign or another payload are
not modelled, and no theorem below is about the bytes of a stored NaN. -/
def ieee_encode (ebits mbits : Nat) : double → Nat
  | .nan => (2 ^ ebits - 1) * 2 ^ mbits + 2 ^ (mbits - 1)
  | .infinity neg => (if neg then 2 ^ (ebits + mbits) else 0) + (2 ^ ebits - 1) * 2 ^ mbits
  | .finite neg mant exp =>
    let sign : Nat := if neg then 2 ^ (ebits + mbits) else 0
    if mant = 0 then sign
    else
      let emin : Int := 2 - 2 ^ (ebits - 1)
      let top : Int := max ((Nat.log2 mant : Int) + exp) emin
      let ulp : Int := top - mbits
      let m : Nat :=
        if ulp ≤ exp then mant * 2 ^ (exp - ulp).toNat
        else shift_right_rne mant (ulp - exp).toNat
      sign + min ((top - emin).toNat * 2 ^ mbits + m) ((2 ^ ebits - 1) * 2 ^ mbits)

/-- IEEE 754 binary decoding, the inverse of `ieee_encode` on the values of the
format. -/
def ieee_decode (ebits mbits : Nat) (bits : Nat) : double :=
  let neg : Bool := decide ((bits / 2 ^ (ebits + mbits)) % 2 = 1)
  let field : Nat := (bits / 2 ^ mbits) % 2 ^ ebits
  let frac : Nat := bits % 2 ^ mbits
  if field = 2 ^ ebits - 1 then (if frac = 0 then .infinity neg else .nan)
  else if field = 0 then .finite neg frac (2 - 2 ^ (ebits - 1) - (mbits : Int))
  else .finite neg (2 ^ mbits + frac) ((field : Int) - (2 ^ (ebits - 1) - 1) - (mbits : Int))

/-- The C conversion of an integer to `double`: the nearest binary64 value. -/
def int_to_double (n : Int) : double :=
  ieee_decode 11 52 (ieee_encode 11 52 (.finite (decide (n < 0)) n.natAbs 0))

/-! ## Ruby values and the object space -/

/-- Modelled from the spec: the type `VALUE` of the Ruby C API (`ruby.h`, not part
of the sources), a host value: one of the special constants, an integer (Fixnum or
Bignum), a Float, a Symbol (given by its `ID`), or a reference to an object of
the object space. Two references are the same `VALUE` exactly when they point
to the same object. -/
inductive VALUE where
  | Qfalse
  | Qtrue
  | Qnil
  | integer (n : Int)
  | float (d : double)
  | symbol (id : Nat)
  | object (addr : Nat)
  deriving DecidableEq, Repr

/-- Modelled from the spec: the enum `ruby_value_type` of the Ruby C API (not part of
the sources), as far as this code distinguishes its members. -/
inductive ruby_value_type where
  | T_NONE
  | T_OBJECT
  | T_CLASS
  | T_MODULE
  | T_FLOAT
  | T_STRING
  | T_BIGNUM
  | T_DATA
  | T_NIL
  | T_TRUE
  | T_FALSE
  | T_SYMBOL
  | T_FIXNUM
  deriving DecidableEq, Repr

/-- Modelled from the spec: the payload of an object of the Ruby object space (not
part of the sources): a String, a class or module with its constant table, the
descriptor objects and the repeated field container of the extension, or
anything else. -/
inductive RBody where
  | plain
  | string (bytes : List Nat)
  | module_ (is_class : Bool) (consts : List (Nat × VALUE))
  | descriptor (klass : VALUE)
  | enum_descriptor (enum_module : VALUE)
  | repeated_field (field_type : upb_fieldtype_t) (field_type_class : VALUE)
      (elements : List VALUE)
  | data
  deriving DecidableEq, Repr

/-- Modelled from the spec: an object of the Ruby object space (not part of the
sources): its class pointer (`RBasic.klass`) and its
payload. -/
structure RObject where
  klass : VALUE
  body : RBody
  deriving DecidableEq, Repr

/-- Modelled from the spec: the state of the Ruby process (not part of the
sources) that the storage code reads and extends: the
object space (an object's address is its position; allocation appends) and the
global table `upb_def_to_ruby_obj_map` from upb definitions to their Ruby
descriptor objects. -/
structure RubyVM where
  heap : List RObject
  upb_def_to_ruby_obj_map : Nat → VALUE

/-- Modelled from the spec: the Ruby exception classes (not part of the sources) that
this code raises or lets through. -/
inductive ruby_exception where
  | rb_eTypeError
  | rb_eRangeError
  | rb_eNameError
  | rb_eArgError
  deriving DecidableEq, Repr

/-- The result of a C function that may `rb_raise`: it returns, or it raises an
exception; either way `s` is the state it leaves behind. -/
inductive Outcome (σ : Type) where
  | returned (s : σ)
  | raised (e : ruby_exception) (s : σ)

/-- The state that a C function leaves behind, whether it returned or raised. -/
def Outcome.state {σ : Type} : Outcome σ → σ
  | .returned s => s
  | .raised _ s => s

/-- Modelled from the spec: the Ruby global `rb_cObject` (not part of the sources).
The built-in classes are the first objects of the object space. -/
def rb_cObject : VALUE := .object 0
/-- Modelled from the spec: the Ruby global `rb_cNilClass` (not part of the sources). -/
def rb_cNilClass : VALUE := .object 1
/-- Modelled from the spec: the Ruby global `rb_cTrueClass` (not part of the sources). -/
def rb_cTrueClass : VALUE := .object 2
/-- Modelled from the spec: the Ruby global `rb_cFalseClass` (not part of the sources). -/
def rb_cFalseClass : VALUE := .object 3
/-- Modelled from the spec: the Ruby global `rb_cFixnum` (not part of the sources). -/
def rb_cFixnum : VALUE := .object 4
/-- Modelled from the spec: the Ruby global `rb_cBignum` (not part of the sources). -/
def rb_cBignum : VALUE := .object 5
/-- Modelled from the spec: the Ruby global `rb_cFloat` (not part of the sources). -/
def rb_cFloat : VALUE := .object 6
/-- Modelled from the spec: the Ruby global `rb_cSymbol` (not part of the sources). -/
def rb_cSymbol : VALUE := .object 7
/-- Modelled from the spec: the Ruby global `rb_cString` (not part of the sources). -/
def rb_cString : VALUE := .object 8
/-- Modelled from the spec: the global `cRepeatedField` of the extension
(`repeated_field.c`, not part of the sources), the class of the containers. -/
def cRepeatedField : VALUE := .object 9

/-- Modelled from the spec: the Ruby macro `FIXABLE` (not part of the sources):
whether an integer is a Fixnum, that is fits a C `long` less one bit. -/
def FIXABLE (T : DataModel) (n : Int) : Bool :=
  decide (-(2 : Int) ^ (8 * sizeof_VALUE T - 2) ≤ n ∧ n < (2 : Int) ^ (8 * sizeof_VALUE T - 2))

open ruby_value_type in
/-- Modelled from the spec: the Ruby macro `TYPE` (not part of the sources), the
runtime type of a host value. A reference to no object has no type. -/
def TYPE (T : DataModel) (vm : RubyVM) : VALUE → ruby_value_type
  | .Qfalse => T_FALSE
  | .Qtrue => T_TRUE
  | .Qnil => T_NIL
  | .integer n => if FIXABLE T n then T_FIXNUM else T_BIGNUM
  | .float _ => T_FLOAT
  | .symbol _ => T_SYMBOL
  | .object addr =>
    match vm.heap[addr]? with
    | none => T_NONE
    | some o =>
      match o.body with
      | .plain => T_OBJECT
      | .string _ => T_STRING
      | .module_ is_class _ => if is_class then T_CLASS else T_MODULE
      | .descriptor _ => T_DATA
      | .enum_descriptor _ => T_DATA
      | .repeated_field _ _ _ => T_DATA
      | .data => T_DATA

/-- Modelled from the spec: the Ruby macro `CLASS_OF` (not part of the sources), the
runtime class of a host value. A reference to no object has class `Qfalse`. -/
def CLASS_OF (T : DataModel) (vm : RubyVM) : VALUE → VALUE
  | .Qfalse => rb_cFalseClass
  | .Qtrue => rb_cTrueClass
  | .Qnil => rb_cNilClass
  | .integer n => if FIXABLE T n then rb_cFixnum else rb_cBignum
  | .float _ => rb_cFloat
  | .symbol _ => rb_cSymbol
  | .object addr =>
    match vm.heap[addr]? with
    | none => .Qfalse
    | some o => o.klass

/-- Modelled from the spec: the Ruby macro `SYM2ID` (not part of the sources); only
applied to Symbols. -/
def SYM2ID : VALUE → Nat
  | .symbol id => id
  | _ => 0

/-- Modelled from the spec: the constant table of a class or module object of the
Ruby object space (not part of the sources), the enum symbol table. -/
def const_table (vm : RubyVM) : VALUE → Option (Bool × List (Nat × VALUE))
  | .object addr =>
    match vm.heap[addr]? with
    | some { klass := _, body := .module_ is_class consts } => some (is_class, consts)
    | _ => none
  | _ => none

/-- Modelled from the spec: the Ruby C API function `rb_const_get` (Ruby's
`variable.c`, not part of the sources), the symbol-to-integer lookup of the
enum symbol table. It looks the constant up in the table of `klass`; for a
module it then looks in the table of `Object`; a miss raises `NameError`
(the default `const_missing`), and a receiver that is no class or module
raises `TypeError`. Superclass chains are not followed: an enum module has
none. -/
def rb_const_get (vm : RubyVM) (klass : VALUE) (id : Nat) : Except ruby_exception VALUE :=
  match const_table vm klass with
  | none => .error .rb_eTypeError
  | some (is_class, consts) =>
    match consts.lookup id with
    | some v => .ok v
    | none =>
      if is_class then .error .rb_eNameError
      else
        match const_table vm rb_cObject with
        | some (_, oconsts) =>
          match oconsts.lookup id with
          | some v => .ok v
          | none => .error .rb_eNameError
        | none => .error .rb_eNameError

/-- Modelled from the spec: the function `enum_lookup` of the extension
(`defs.c`, not part of the sources), the integer-to-symbol lookup of the enum
symbol table. It returns the symbol of the first entry of the enum module's
table whose number is `number`, and `Qnil` when there is none. -/
def enum_lookup (vm : RubyVM) (type_class : VALUE) (number : VALUE) : VALUE :=
  match const_table vm type_class with
  | none => .Qnil
  | some (_, consts) =>
    match consts.find? (fun c => decide (c.2 = number)) with
    | some c => .symbol c.1
    | none => .Qnil

/-! ## Ruby numeric conversions -/

/-- Modelled from the spec: the integer conversions of the Ruby C API
(`NUM2INT`, `NUM2UINT`, `NUM2LL`, `NUM2ULL` of `ruby.h`, not part of the
sources), which per storage.c:59 "do the appropriate range checks". An Integer
converts when it lies in `[lo, hi]`; a Float converts when its truncation
towards zero does; everything else in range raises `RangeError`. A value that
is no number raises `TypeError`. -/
def num2int_checked (lo hi : Int) : VALUE → Except ruby_exception Int
  | .integer n => if lo ≤ n ∧ n ≤ hi then .ok n else .error .rb_eRangeError
  | .float d =>
    match dbl_trunc d with
    | some z => if lo ≤ z ∧ z ≤ hi then .ok z else .error .rb_eRangeError
    | none => .error .rb_eRangeError
  | _ => .error .rb_eTypeError

/-- Modelled from the spec: the Ruby macro `NUM2INT`, which yields a C `int`
and raises `RangeError` outside `[INT_MIN, INT_MAX]`. -/
def NUM2INT (value : VALUE) : Except ruby_exception Int :=
  num2int_checked (-(2 : Int) ^ 31) (2 ^ 31 - 1) value

/-- Modelled from the spec: the Ruby macro `NUM2LL`, which yields a C
`long long` and raises `RangeError` outside `[LLONG_MIN, LLONG_MAX]`. -/
def NUM2LL (value : VALUE) : Except ruby_exception Int :=
  num2int_checked (-(2 : Int) ^ 63) (2 ^ 63 - 1) value

/-- Modelled from the spec: the Ruby macro `NUM2UINT`, which yields a C
`unsigned int`. It raises `RangeError` above `UINT_MAX` and below `INT_MIN`;
a negative number in between wraps modulo `2 ^ 32`. -/
def NUM2UINT (value : VALUE) : Except ruby_exception Nat :=
  match num2int_checked (-(2 : Int) ^ 31) (2 ^ 32 - 1) value with
  | .ok z => .ok (z % 2 ^ 32).toNat
  | .error e => .error e

/-- Modelled from the spec: the Ruby macro `NUM2ULL`, which yields a C
`unsigned long long`. It raises `RangeError` above `ULLONG_MAX` and below
`LLONG_MIN`; a negative number in between wraps modulo `2 ^ 64`. -/
def NUM2ULL (value : VALUE) : Except ruby_exception Nat :=
  match num2int_checked (-(2 : Int) ^ 63) (2 ^ 64 - 1) value with
  | .ok z => .ok (z % 2 ^ 64).toNat
  | .error e => .error e

/-- Modelled from the spec: the Ruby macro `NUM2DBL`. A Float converts to
itself and an Integer to the nearest double; a value that is no number raises
`TypeError`. -/
def NUM2DBL : VALUE → Except ruby_exception double
  | .float d => .ok d
  | .integer n => .ok (int_to_double n)
  | _ => .error .rb_eTypeError

/-- Modelled from the spec: the Ruby macros `INT2NUM` and `LL2NUM` (not part of the
sources): the Integer of a signed C integer. -/
def INT2NUM (n : Int) : VALUE := .integer n

/-- Modelled from the spec: the Ruby macros `UINT2NUM` and `ULL2NUM` (not part of
the sources): the Integer of an unsigned C integer. -/
def UINT2NUM (n : Nat) : VALUE := .integer (n : Int)

/-- Modelled from the spec: the Ruby macro `DBL2NUM` (not part of the sources): the
Float of a C double. -/
def DBL2NUM (d : double) : VALUE := .float d

/-! ## Byte-addressed storage -/

/-- The content of one byte of memory: uninitialised, a byte of plain data, or
the `i`-th byte of the reference `v`. -/
inductive memval where
  | Uninit
  | Byte (b : Nat)
  | Fragment (v : VALUE) (i : Nat)
  deriving DecidableEq, Repr

/-- Memory, indexed by address. A storage buffer is the region that starts at
its base pointer. -/
abbrev Storage := Nat → memval

/-- Writing the cells `cells` at the addresses `addr, addr + 1, ...`. -/
def store_cells (st : Storage) (addr : Nat) (cells : List memval) : Storage :=
  fun a => if addr ≤ a ∧ a < addr + cells.length then cells.getD (a - addr) .Uninit else st a

/-- Reading `n` cells from address `addr` on. -/
def load_cells (st : Storage) (addr n : Nat) : List memval :=
  (List.range n).map (fun i => st (addr + i))

/-- The `n` bytes of the unsigned number `x`, least significant first. -/
def encode_int : Nat → Nat → List memval
  | 0, _ => []
  | n + 1, x => .Byte (x % 256) :: encode_int n (x / 256)

/-- The unsigned number held by bytes, least significant first; nothing when a
cell is not a plain byte. -/
def decode_int : List memval → Option Nat
  | [] => some 0
  | .Byte b :: rest =>
    match decode_int rest with
    | some r => some (b + 256 * r)
    | none => none
  | _ :: _ => none

/-- The assignment `DEREF(memory, t) = x` for an unsigned integer type `t` of
`n` bytes. -/
def store_unsigned (st : Storage) (memory n x : Nat) : Storage :=
  store_cells st memory (encode_int n (x % 2 ^ (8 * n)))

/-- The assignment `DEREF(memory, t) = z` for a signed integer type `t` of `n`
bytes, in two's complement. -/
def store_signed (st : Storage) (memory n : Nat) (z : Int) : Storage :=
  store_cells st memory (encode_int n (z % 2 ^ (8 * n)).toNat)

/-- The read `DEREF(memory, t)` for an unsigned integer type `t` of `n` bytes. -/
def load_unsigned (st : Storage) (memory n : Nat) : Option Nat :=
  decode_int (load_cells st memory n)

/-- The read `DEREF(memory, t)` for a signed integer type `t` of `n` bytes. -/
def load_signed (st : Storage) (memory n : Nat) : Option Int :=
  match decode_int (load_cells st memory n) with
  | some u => some (if u < 2 ^ (8 * n - 1) then (u : Int) else (u : Int) - 2 ^ (8 * n))
  | none => none

/-- The assignment `DEREF(memory, float) = d`: the double is converted to
binary32. -/
def store_float (st : Storage) (memory : Nat) (d : double) : Storage :=
  store_cells st memory (encode_int 4 (ieee_encode 8 23 d))

/-- The assignment `DEREF(memory, double) = d`. -/
def store_double (st : Storage) (memory : Nat) (d : double) : Storage :=
  store_cells st memory (encode_int 8 (ieee_encode 11 52 d))

/-- The read `DEREF(memory, float)`, converted to `double`. -/
def load_float (st : Storage) (memory : Nat) : Option double :=
  match decode_int (load_cells st memory 4) with
  | some bits => some (ieee_decode 8 23 bits)
  | none => none

/-- The read `DEREF(memory, double)`. -/
def load_double (st : Storage) (memory : Nat) : Option double :=
  match decode_int (load_cells st memory 8) with
  | some bits => some (ieee_decode 11 52 bits)
  | none => none

/-- The `sizeof(VALUE)` cells of the reference `v`. -/
def encode_VALUE (T : DataModel) (v : VALUE) : List memval :=
  (List.range (sizeof_VALUE T)).map (fun i => memval.Fragment v i)

/-- The assignment `DEREF(memory, VALUE) = v`. -/
def store_VALUE (T : DataModel) (st : Storage) (memory : Nat) (v : VALUE) : Storage :=
  store_cells st memory (encode_VALUE T v)

/-- The read `DEREF(memory, VALUE)`; nothing when the cells do not hold the
bytes of one reference. -/
def load_VALUE (T : DataModel) (st : Storage) (memory : Nat) : Option VALUE :=
  match st memory with
  | .Fragment v _ =>
    if load_cells st memory (sizeof_VALUE T) = encode_VALUE T v then some v else none
  | _ => none

/-! ## The slot codec -/

open ruby_value_type in
/-- The C function `is_ruby_num` (storage.c:77). -/
def is_ruby_num (T : DataModel) (vm : RubyVM) (value : VALUE) : Bool :=
  TYPE T vm value = T_FLOAT || TYPE T vm value = T_FIXNUM || TYPE T vm value = T_BIGNUM

open ruby_value_type ruby_exception in
/-- The C function `check_int_range_precision` (storage.c:58). -/
def check_int_range_precision (T : DataModel) (vm : RubyVM) (type : upb_fieldtype_t)
    (val : VALUE) : Except ruby_exception Unit :=
  let precision : Except ruby_exception Unit :=
    if TYPE T vm val = T_FLOAT then
      match NUM2DBL val with
      | .error e => .error e
      | .ok dbl_val =>
        if dbl_ne (floor dbl_val) dbl_val then .error rb_eRangeError else .ok ()
    else .ok ()
  match precision with
  | .error e => .error e
  | .ok () =>
    if type = .UPB_TYPE_UINT32 ∨ type = .UPB_TYPE_UINT64 then
      match NUM2DBL val with
      | .error e => .error e
      | .ok d =>
        if dbl_lt d (int_to_double 0) then .error rb_eRangeError else .ok ()
    else .ok ()

open ruby_value_type ruby_exception upb_fieldtype_t Outcome in
/-- The C function `native_slot_set` (storage.c:83). `memory` is the address of
the slot in `st`. -/
def native_slot_set (T : DataModel) (vm : RubyVM) (type : upb_fieldtype_t)
    (type_class : VALUE) (memory : Nat) (value : VALUE) (st : Storage) : Outcome Storage :=
  match type with
  | UPB_TYPE_FLOAT =>
    if !is_ruby_num T vm value then raised rb_eTypeError st
    else
      match NUM2DBL value with
      | .error e => raised e st
      | .ok d => returned (store_float st memory d)
  | UPB_TYPE_DOUBLE =>
    if !is_ruby_num T vm value then raised rb_eTypeError st
    else
      match NUM2DBL value with
      | .error e => raised e st
      | .ok d => returned (store_double st memory d)
  | UPB_TYPE_BOOL =>
    if value = .Qtrue then returned (store_signed st memory 1 1)
    else if value = .Qfalse then returned (store_signed st memory 1 0)
    else raised rb_eTypeError st
  | UPB_TYPE_STRING | UPB_TYPE_BYTES =>
    if CLASS_OF T vm value ≠ rb_cString then raised rb_eTypeError st
    else returned (store_VALUE T st memory value)
  | UPB_TYPE_MESSAGE =>
    if CLASS_OF T vm value ≠ type_class then raised rb_eTypeError st
    else returned (store_VALUE T st memory value)
  | UPB_TYPE_ENUM =>
    if !is_ruby_num T vm value && TYPE T vm value ≠ T_SYMBOL then raised rb_eTypeError st
    else if TYPE T vm value = T_SYMBOL then
      match rb_const_get vm type_class (SYM2ID value) with
      | .error e => raised e st
      | .ok lookup =>
        if lookup = .Qnil then raised rb_eRangeError st
        else
          match NUM2INT lookup with
          | .error e => raised e st
          | .ok int_val => returned (store_signed st memory 4 int_val)
    else
      match check_int_range_precision T vm UPB_TYPE_INT32 value with
      | .error e => raised e st
      | .ok () =>
        match NUM2INT value with
        | .error e => raised e st
        | .ok int_val => returned (store_signed st memory 4 int_val)
  | UPB_TYPE_INT32 =>
    if !is_ruby_num T vm value then raised rb_eTypeError st
    else
      match check_int_range_precision T vm UPB_TYPE_INT32 value with
      | .error e => raised e st
      | .ok () =>
        match NUM2INT value with
        | .error e => raised e st
        | .ok n => returned (store_signed st memory 4 n)
  | UPB_TYPE_INT64 =>
    if !is_ruby_num T vm value then raised rb_eTypeError st
    else
      match check_int_range_precision T vm UPB_TYPE_INT64 value with
      | .error e => raised e st
      | .ok () =>
        match NUM2LL value with
        | .error e => raised e st
        | .ok n => returned (store_signed st memory 8 n)
  | UPB_TYPE_UINT32 =>
    if !is_ruby_num T vm value then raised rb_eTypeError st
    else
      match check_int_range_precision T vm UPB_TYPE_UINT32 value with
      | .error e => raised e st
      | .ok () =>
        match NUM2UINT value with
        | .error e => raised e st
        | .ok n => returned (store_unsigned st memory 4 n)
  | UPB_TYPE_UINT64 =>
    if !is_ruby_num T vm value then raised rb_eTypeError st
    else
      match check_int_range_precision T vm UPB_TYPE_UINT64 value with
      | .error e => raised e st
      | .ok () =>
        match NUM2ULL value with
        | .error e => raised e st
        | .ok n => returned (store_unsigned st memory 8 n)

open upb_fieldtype_t in
/-- The C function `native_slot_get` (storage.c:180). The result is absent when
the slot does not hold a value of the field's type (uninitialised or foreign
bytes), where the C read is indeterminate. -/
def native_slot_get (T : DataModel) (vm : RubyVM) (type : upb_fieldtype_t)
    (type_class : VALUE) (memory : Nat) (st : Storage) : Option VALUE :=
  match type with
  | UPB_TYPE_FLOAT => (load_float st memory).map DBL2NUM
  | UPB_TYPE_DOUBLE => (load_double st memory).map DBL2NUM
  | UPB_TYPE_BOOL =>
    (load_signed st memory 1).map (fun b => if b ≠ 0 then VALUE.Qtrue else VALUE.Qfalse)
  | UPB_TYPE_STRING | UPB_TYPE_BYTES | UPB_TYPE_MESSAGE => load_VALUE T st memory
  | UPB_TYPE_ENUM =>
    (load_signed st memory 4).map (fun val =>
      let symbol := enum_lookup vm type_class (INT2NUM val)
      if symbol = .Qnil then INT2NUM val else symbol)
  | UPB_TYPE_INT32 => (load_signed st memory 4).map INT2NUM
  | UPB_TYPE_INT64 => (load_signed st memory 8).map INT2NUM
  | UPB_TYPE_UINT32 => (load_unsigned st memory 4).map UINT2NUM
  | UPB_TYPE_UINT64 => (load_unsigned st memory 8).map UINT2NUM

/-- Modelled from the spec: the Ruby C API function `rb_str_new2` (not part of the
sources): a new String object with the given bytes. -/
def rb_str_new2 (vm : RubyVM) (bytes : List Nat) : RubyVM × VALUE :=
  ({ vm with heap := vm.heap ++ [{ klass := rb_cString, body := .string bytes }] },
    .object vm.heap.length)

open upb_fieldtype_t in
/-- The C function `native_slot_init` (storage.c:214). -/
def native_slot_init (T : DataModel) (type : upb_fieldtype_t) (memory : Nat)
    (s : RubyVM × Storage) : RubyVM × Storage :=
  match type with
  | UPB_TYPE_FLOAT => (s.1, store_float s.2 memory (.finite false 0 0))
  | UPB_TYPE_DOUBLE => (s.1, store_double s.2 memory (.finite false 0 0))
  | UPB_TYPE_BOOL => (s.1, store_signed s.2 memory 1 0)
  | UPB_TYPE_STRING | UPB_TYPE_BYTES =>
    let r := rb_str_new2 s.1 []
    (r.1, store_VALUE T s.2 memory r.2)
  | UPB_TYPE_MESSAGE => (s.1, store_VALUE T s.2 memory .Qnil)
  | UPB_TYPE_ENUM | UPB_TYPE_INT32 => (s.1, store_signed s.2 memory 4 0)
  | UPB_TYPE_INT64 => (s.1, store_signed s.2 memory 8 0)
  | UPB_TYPE_UINT32 => (s.1, store_unsigned s.2 memory 4 0)
  | UPB_TYPE_UINT64 => (s.1, store_unsigned s.2 memory 8 0)

/-! ## Message storage operations -/

/-- Modelled from the spec: the function `get_def_obj` of the extension
(`protobuf.c`, not part of the sources): the Ruby descriptor object of a upb
definition, read from `upb_def_to_ruby_obj_map`. -/
def get_def_obj (vm : RubyVM) (subdef : Nat) : VALUE :=
  vm.upb_def_to_ruby_obj_map subdef

/-- Modelled from the spec: the function `Descriptor_msgclass` of the extension
(`defs.c`, not part of the sources): the message class that a descriptor
object carries, its type-handle; `Qnil` for anything else. -/
def Descriptor_msgclass (vm : RubyVM) : VALUE → VALUE
  | .object addr =>
    match vm.heap[addr]? with
    | some { klass := _, body := .descriptor k } => k
    | _ => .Qnil
  | _ => .Qnil

/-- Modelled from the spec: the function `EnumDescriptor_enummodule` of the
extension (`defs.c`, not part of the sources): the enum module that an enum
descriptor object carries, its symbol table; `Qnil` for anything else. -/
def EnumDescriptor_enummodule (vm : RubyVM) : VALUE → VALUE
  | .object addr =>
    match vm.heap[addr]? with
    | some { klass := _, body := .enum_descriptor m } => m
    | _ => .Qnil
  | _ => .Qnil

/-- The C function `get_type_class` (storage.c:338). -/
def get_type_class (vm : RubyVM) (field : upb_fielddef) : VALUE :=
  if field.type = .UPB_TYPE_MESSAGE then
    Descriptor_msgclass vm (get_def_obj vm field.subdef)
  else if field.type = .UPB_TYPE_ENUM then
    EnumDescriptor_enummodule vm (get_def_obj vm field.subdef)
  else .Qnil

/-- The C function `layout_get` (storage.c:352). `storage` is the base address
of the buffer in `st`. -/
def layout_get (T : DataModel) (vm : RubyVM) (layout : MessageLayout) (storage : Nat)
    (field : upb_fielddef) (st : Storage) : Option VALUE :=
  let memory := storage + layout_offset layout field
  if field.label = .UPB_LABEL_REPEATED then load_VALUE T st memory
  else native_slot_get T vm field.type (get_type_class vm field) memory st

open ruby_exception in
/-- The C function `check_repeated_field_type` (storage.c:366). The first test
holds of exactly the objects that wrap a `RepeatedField`. -/
def check_repeated_field_type (vm : RubyVM) (val : VALUE) (field : upb_fielddef) :
    Except ruby_exception Unit :=
  match val with
  | .object addr =>
    match vm.heap[addr]? with
    | some { klass := _, body := .repeated_field field_type field_type_class _ } =>
      if field_type ≠ field.type then .error rb_eTypeError
      else if field.type = .UPB_TYPE_MESSAGE ∨ field.type = .UPB_TYPE_ENUM then
        if field_type_class ≠ get_def_obj vm field.subdef then .error rb_eTypeError
        else .ok ()
      else .ok ()
    | _ => .error rb_eTypeError
  | _ => .error rb_eTypeError

/-- The C function `layout_set` (storage.c:390). -/
def layout_set (T : DataModel) (vm : RubyVM) (layout : MessageLayout) (storage : Nat)
    (field : upb_fielddef) (val : VALUE) (st : Storage) : Outcome Storage :=
  let memory := storage + layout_offset layout field
  if field.label = .UPB_LABEL_REPEATED then
    match check_repeated_field_type vm val field with
    | .error e => .raised e st
    | .ok () => .returned (store_VALUE T st memory val)
  else native_slot_set T vm field.type (get_type_class vm field) memory val st

/-- Modelled from the spec: `rb_class_new_instance(argc, args, cRepeatedField)`,
the constructor of the repeated field container (`repeated_field.c`, not part
of the sources): a new empty container that carries the element type and the
type-handle it is given (`Qnil` when it is given none). -/
def RepeatedField_new (vm : RubyVM) (field_type : upb_fieldtype_t) (type_class : VALUE) :
    RubyVM × VALUE :=
  ({ vm with heap := vm.heap ++
      [{ klass := cRepeatedField, body := .repeated_field field_type type_class [] }] },
    .object vm.heap.length)

/-- The body of the loop of `layout_init` (storage.c:411-431) for one field. -/
def layout_init_field (T : DataModel) (layout : MessageLayout) (storage : Nat)
    (s : RubyVM × Storage) (field : upb_fielddef) : RubyVM × Storage :=
  let memory := storage + layout_offset layout field
  if field.label = .UPB_LABEL_REPEATED then
    let type_class := get_type_class s.1 field
    let r :=
      if type_class ≠ .Qnil then RepeatedField_new s.1 field.type type_class
      else RepeatedField_new s.1 field.type .Qnil
    (r.1, store_VALUE T s.2 memory r.2)
  else native_slot_init T field.type memory s

/-- The C function `layout_init` (storage.c:405). -/
def layout_init (T : DataModel) (layout : MessageLayout) (storage : Nat)
    (s : RubyVM × Storage) : RubyVM × Storage :=
  layout.msgdef.fields.foldl (layout_init_field T layout storage) s

/-! ## Collaborators: equality, copies and hashes of host values -/

/-- Modelled from the spec: the operations of the external collaborators (spec
section 6) that `storage.c` calls and that are not part of the sources, taken
as parameters. `method_eq` is the `==` method of a receiver that is neither
`nil` nor a String; for a message it is `Message_eq` of `message.c`.
`Message_clone`, `RepeatedField_dup` and `RepeatedField_clone` give the objects
they allocate and the reference of the copy. `RepeatedField_eq` is the
equality of the repeated field container. `method_hash` is the `hash` method of
any receiver. `rb_hash_start`, `rb_hash_uint` and `rb_hash_end` are the hash
combiner of the Ruby C API on `st_index_t`. -/
structure Collaborators where
  method_eq : RubyVM → VALUE → VALUE → VALUE
  Message_clone : RubyVM → VALUE → List RObject × VALUE
  RepeatedField_dup : RubyVM → VALUE → List RObject × VALUE
  RepeatedField_clone : RubyVM → VALUE → List RObject × VALUE
  RepeatedField_eq : RubyVM → VALUE → VALUE → VALUE
  method_hash : RubyVM → VALUE → VALUE
  rb_hash_start : Nat → Nat
  rb_hash_uint : Nat → Nat → Nat
  rb_hash_end : Nat → Nat

/-- The object space after the allocation of the objects `new`. -/
def allocate (vm : RubyVM) (new : List RObject) : RubyVM :=
  { vm with heap := vm.heap ++ new }

/-- Modelled from the spec: the bytes of a String object of the Ruby object space
(not part of the sources); none for anything else. -/
def string_bytes (vm : RubyVM) : VALUE → List Nat
  | .object addr =>
    match vm.heap[addr]? with
    | some { klass := _, body := .string bytes } => bytes
    | _ => []
  | _ => []

/-- Modelled from the spec: the Ruby function `rb_str_equal` (not part of the
sources), the method `String#==`, the referent's own equality of a string or
bytes field: the same object is equal, something that is no String is not, and
two Strings are equal when their bytes are. -/
def rb_str_equal (T : DataModel) (vm : RubyVM) (str1 str2 : VALUE) : VALUE :=
  if str1 = str2 then .Qtrue
  else if TYPE T vm str2 ≠ ruby_value_type.T_STRING then .Qfalse
  else if string_bytes vm str1 = string_bytes vm str2 then .Qtrue
  else .Qfalse

/-- Modelled from the spec: the call `rb_funcall(val1, rb_intern("=="), 1, val2)`
(method dispatch of Ruby, not part of the sources), the referent's own
equality. `nil` equals only itself (`NilClass#==`), an object of class `String`
compares by `rb_str_equal`, and every other receiver by the collaborators'
`method_eq`. -/
def rb_funcall_eq (C : Collaborators) (T : DataModel) (vm : RubyVM) (val1 val2 : VALUE) :
    VALUE :=
  if val1 = .Qnil then (if val2 = .Qnil then .Qtrue else .Qfalse)
  else if CLASS_OF T vm val1 = rb_cString then rb_str_equal T vm val1 val2
  else C.method_eq vm val1 val2

/-- Modelled from the spec: the call `rb_funcall(from_val, rb_intern("dup"), 0)`
(not part of the sources) on an object of the object space: a new object with
the same class and payload, for a String an independent copy of its bytes.
Nothing for a receiver that is no object; the code reaches it with Strings. -/
def rb_funcall_dup (vm : RubyVM) : VALUE → Option (List RObject × VALUE)
  | .object addr =>
    match vm.heap[addr]? with
    | some o => some ([o], .object vm.heap.length)
    | none => none
  | _ => none

/-- The libc function `memcmp` on two regions of the same length: 0 when the
bytes agree, else the sign of the first difference. Nothing when a cell that it
has to read is no plain byte. -/
def memcmp : List memval → List memval → Option Int
  | .Byte a :: rest1, .Byte b :: rest2 =>
    if a < b then some (-1) else if b < a then some 1 else memcmp rest1 rest2
  | [], [] => some 0
  | _, _ => none

/-- The C function `native_slot_dup` (storage.c:263): `memcpy` of the slot from
the memory `st_from` to the memory `st_to`. -/
def native_slot_dup (T : DataModel) (type : upb_fieldtype_t) (to_ : Nat) (st_to : Storage)
    (from_ : Nat) (st_from : Storage) : Storage :=
  store_cells st_to to_ (load_cells st_from from_ (native_slot_size T type))

open upb_fieldtype_t in
/-- The C function `native_slot_clone` (storage.c:267). The state is the object
space, in which the copies are allocated, and the memory of `to_`. Nothing when
the source slot holds no reference. -/
def native_slot_clone (C : Collaborators) (T : DataModel) (type : upb_fieldtype_t)
    (to_ : Nat) (from_ : Nat) (st_from : Storage) (s : RubyVM × Storage) :
    Option (RubyVM × Storage) :=
  match type with
  | UPB_TYPE_STRING | UPB_TYPE_BYTES =>
    match load_VALUE T st_from from_ with
    | none => none
    | some from_val =>
      if from_val ≠ .Qnil then
        match rb_funcall_dup s.1 from_val with
        | none => none
        | some r => some (allocate s.1 r.1, store_VALUE T s.2 to_ r.2)
      else some (s.1, store_VALUE T s.2 to_ .Qnil)
  | UPB_TYPE_MESSAGE =>
    match load_VALUE T st_from from_ with
    | none => none
    | some from_val =>
      if from_val ≠ .Qnil then
        some (allocate s.1 (C.Message_clone s.1 from_val).1,
          store_VALUE T s.2 to_ (C.Message_clone s.1 from_val).2)
      else some (s.1, store_VALUE T s.2 to_ .Qnil)
  | _ => some (s.1, store_cells s.2 to_ (load_cells st_from from_ (native_slot_size T type)))

open upb_fieldtype_t in
/-- The C function `native_slot_eq` (storage.c:287) on a slot of the memory
`st1` and a slot of the memory `st2`. Nothing when a slot does not hold a value
of the field's type. -/
def native_slot_eq (C : Collaborators) (T : DataModel) (vm : RubyVM) (type : upb_fieldtype_t)
    (mem1 : Nat) (st1 : Storage) (mem2 : Nat) (st2 : Storage) : Option Bool :=
  match type with
  | UPB_TYPE_STRING | UPB_TYPE_BYTES | UPB_TYPE_MESSAGE =>
    match load_VALUE T st1 mem1, load_VALUE T st2 mem2 with
    | some val1, some val2 => some (decide (rb_funcall_eq C T vm val1 val2 = .Qtrue))
    | _, _ => none
  | _ =>
    match memcmp (load_cells st1 mem1 (native_slot_size T type))
        (load_cells st2 mem2 (native_slot_size T type)) with
    | some r => some (decide (r = 0))
    | none => none

/-- The body of the loop of `layout_dup` (storage.c:457-467) for one field. -/
def layout_dup_field (C : Collaborators) (T : DataModel) (layout : MessageLayout)
    (to_ : Nat) (from_ : Nat) (st_from : Storage) (s : RubyVM × Storage)
    (field : upb_fielddef) : Option (RubyVM × Storage) :=
  let to_memory := to_ + layout_offset layout field
  let from_memory := from_ + layout_offset layout field
  if field.label = .UPB_LABEL_REPEATED then
    match load_VALUE T st_from from_memory with
    | none => none
    | some c =>
      some (allocate s.1 (C.RepeatedField_dup s.1 c).1,
        store_VALUE T s.2 to_memory (C.RepeatedField_dup s.1 c).2)
  else some (s.1, native_slot_dup T field.type to_memory s.2 from_memory st_from)

/-- The C function `layout_dup` (storage.c:452). The buffer `to_` lives in the
memory of the state, the buffer `from_` in the memory `st_from`; the two are
distinct allocations. -/
def layout_dup (C : Collaborators) (T : DataModel) (layout : MessageLayout)
    (to_ : Nat) (from_ : Nat) (st_from : Storage) (s : RubyVM × Storage) :
    Option (RubyVM × Storage) :=
  layout.msgdef.fields.foldlM (layout_dup_field C T layout to_ from_ st_from) s

/-- The body of the loop of `layout_clone` (storage.c:476-486) for one field. -/
def layout_clone_field (C : Collaborators) (T : DataModel) (layout : MessageLayout)
    (to_ : Nat) (from_ : Nat) (st_from : Storage) (s : RubyVM × Storage)
    (field : upb_fielddef) : Option (RubyVM × Storage) :=
  let to_memory := to_ + layout_offset layout field
  let from_memory := from_ + layout_offset layout field
  if field.label = .UPB_LABEL_REPEATED then
    match load_VALUE T st_from from_memory with
    | none => none
    | some c =>
      some (allocate s.1 (C.RepeatedField_clone s.1 c).1,
        store_VALUE T s.2 to_memory (C.RepeatedField_clone s.1 c).2)
  else native_slot_clone C T field.type to_memory from_memory st_from s

/-- The C function `layout_clone` (storage.c:471). -/
def layout_clone (C : Collaborators) (T : DataModel) (layout : MessageLayout)
    (to_ : Nat) (from_ : Nat) (st_from : Storage) (s : RubyVM × Storage) :
    Option (RubyVM × Storage) :=
  layout.msgdef.fields.foldlM (layout_clone_field C T layout to_ from_ st_from) s

/-- The test of the loop of `layout_eq` (storage.c:495-511) for one field:
whether the field matches. -/
def layout_eq_field (C : Collaborators) (T : DataModel) (vm : RubyVM)
    (layout : MessageLayout) (msg1 : Nat) (st1 : Storage) (msg2 : Nat) (st2 : Storage)
    (field : upb_fielddef) : Option Bool :=
  let msg1_memory := msg1 + layout_offset layout field
  let msg2_memory := msg2 + layout_offset layout field
  if field.label = .UPB_LABEL_REPEATED then
    match load_VALUE T st1 msg1_memory, load_VALUE T st2 msg2_memory with
    | some a, some b => some (decide (C.RepeatedField_eq vm a b ≠ .Qfalse))
    | _, _ => none
  else native_slot_eq C T vm field.type msg1_memory st1 msg2_memory st2

/-- The loop of `layout_eq` over the fields that remain to be visited. -/
def layout_eq_loop (C : Collaborators) (T : DataModel) (vm : RubyVM)
    (layout : MessageLayout) (msg1 : Nat) (st1 : Storage) (msg2 : Nat) (st2 : Storage) :
    List upb_fielddef → Option VALUE
  | [] => some .Qtrue
  | field :: rest =>
    match layout_eq_field C T vm layout msg1 st1 msg2 st2 field with
    | none => none
    | some false => some .Qfalse
    | some true => layout_eq_loop C T vm layout msg1 st1 msg2 st2 rest

/-- The C function `layout_eq` (storage.c:490). Nothing when a slot that it
reads does not hold a value of its field's type. -/
def layout_eq (C : Collaborators) (T : DataModel) (vm : RubyVM) (layout : MessageLayout)
    (msg1 : Nat) (st1 : Storage) (msg2 : Nat) (st2 : Storage) : Option VALUE :=
  layout_eq_loop C T vm layout msg1 st1 msg2 st2 layout.msgdef.fields

/-- Modelled from the spec: the Ruby macro `NUM2LONG` (not part of the sources),
which yields a C `long` and raises `RangeError` outside its range. -/
def NUM2LONG (T : DataModel) (value : VALUE) : Except ruby_exception Int :=
  num2int_checked (-(2 : Int) ^ (8 * sizeof_VALUE T - 1)) (2 ^ (8 * sizeof_VALUE T - 1) - 1)
    value

/-- Modelled from the spec: the Ruby macro `INT2FIX` (not part of the sources)
applied to an `st_index_t`: the Fixnum of its low bits, one bit less than a
`long` has. -/
def INT2FIX (T : DataModel) (h : Nat) : VALUE :=
  if h % 2 ^ (8 * sizeof_VALUE T - 1) < 2 ^ (8 * sizeof_VALUE T - 2) then
    .integer (h % 2 ^ (8 * sizeof_VALUE T - 1) : Nat)
  else .integer ((h % 2 ^ (8 * sizeof_VALUE T - 1) : Nat) - 2 ^ (8 * sizeof_VALUE T - 1))

/-- The loop of `layout_hash` (storage.c:520-526) over the fields that remain to
be visited, from the running hash `h`. -/
def layout_hash_loop (C : Collaborators) (T : DataModel) (vm : RubyVM)
    (layout : MessageLayout) (storage : Nat) (st : Storage) :
    List upb_fielddef → Nat → Option (Except ruby_exception Nat)
  | [], h => some (.ok h)
  | field :: rest, h =>
    match layout_get T vm layout storage field st with
    | none => none
    | some field_val =>
      match NUM2LONG T (C.method_hash vm field_val) with
      | .error e => some (.error e)
      | .ok k =>
        layout_hash_loop C T vm layout storage st rest
          (C.rb_hash_uint h (k % 2 ^ SIZE_WIDTH T).toNat)

/-- The C function `layout_hash` (storage.c:516). Nothing when a slot that it
reads does not hold a value of its field's type; an exception when a `hash`
method yields no `long`. -/
def layout_hash (C : Collaborators) (T : DataModel) (vm : RubyVM) (layout : MessageLayout)
    (storage : Nat) (st : Storage) : Option (Except ruby_exception VALUE) :=
  match layout_hash_loop C T vm layout storage st layout.msgdef.fields (C.rb_hash_start 0) with
  | none => none
  | some (.error e) => some (.error e)
  | some (.ok h) => some (.ok (INT2FIX T (C.rb_hash_end h)))

/-! ## Debug string -/

/-- The bytes of a C string, without the terminating zero: the UTF-8 encoding
of the text. -/
def c_string (s : String) : List Nat :=
  (s.data.flatMap String.utf8EncodeChar).map UInt8.toNat

/-- Modelled from the spec: the Ruby C API function `rb_str_cat2` (not part of
the sources): it appends the bytes of a C string to the String object `str` in
place and returns `str`. The model gives the object space after the append; an
`str` that is no String object is left alone. -/
def rb_str_cat2 (vm : RubyVM) (str : VALUE) (ptr : List Nat) : RubyVM :=
  match str with
  | .object addr =>
    match vm.heap[addr]? with
    | some { klass := k, body := .string bytes } =>
      { vm with heap := vm.heap.set addr { klass := k, body := .string (bytes ++ ptr) } }
    | _ => vm
  | _ => vm

open ruby_value_type ruby_exception in
/-- Modelled from the spec: the Ruby C API function `rb_str_append` (not part
of the sources): it appends the bytes of the String `str2` to the String object
`str` in place and returns `str`; an `str2` that is no String raises
`TypeError` (the conversion by `to_str` is not modelled). -/
def rb_str_append (T : DataModel) (vm : RubyVM) (str str2 : VALUE) :
    Except ruby_exception RubyVM :=
  if TYPE T vm str2 = T_STRING then .ok (rb_str_cat2 vm str (string_bytes vm str2))
  else .error rb_eTypeError

/-- The loop of `layout_inspect` (storage.c:537-552) over the fields that remain
to be visited. `str` is the String under construction, `first` the flag of the
C code, and the state is the object space. `inspect` is the call
`rb_funcall(field_val, rb_intern("inspect"), 0)` (method dispatch of Ruby, not
part of the sources), taken as a parameter: the objects it allocates and the
reference it returns. -/
def layout_inspect_loop (inspect : RubyVM → VALUE → List RObject × VALUE) (T : DataModel)
    (layout : MessageLayout) (storage : Nat) (st : Storage) (str : VALUE) :
    List upb_fielddef → Bool → RubyVM → Option (Except ruby_exception RubyVM)
  | [], _, vm => some (.ok vm)
  | field :: rest, first, vm =>
    match layout_get T vm layout storage field st with
    | none => none
    | some field_val =>
      let vm1 := if !first then rb_str_cat2 vm str (c_string ", ") else vm
      let vm2 := rb_str_cat2 vm1 str (c_string field.name)
      let vm3 := rb_str_cat2 vm2 str (c_string ": ")
      let r := inspect vm3 field_val
      match rb_str_append T (allocate vm3 r.1) str r.2 with
      | .error e => some (.error e)
      | .ok vm4 => layout_inspect_loop inspect T layout storage st str rest false vm4

/-- The C function `layout_inspect` (storage.c:532): the object space it leaves
and the reference of the String it returns. Nothing when a slot that it reads
does not hold a value of its field's type. -/
def layout_inspect (inspect : RubyVM → VALUE → List RObject × VALUE) (T : DataModel)
    (vm : RubyVM) (layout : MessageLayout) (storage : Nat) (st : Storage) :
    Option (Except ruby_exception (RubyVM × VALUE)) :=
  let r := rb_str_new2 vm []
  match layout_inspect_loop inspect T layout storage st r.2 layout.msgdef.fields true r.1 with
  | none => none
  | some (.error e) => some (.error e)
  | some (.ok vm') => some (.ok (vm', r.2))

/-- The object space `vm1` holds every object of `vm` unchanged, and possibly
more, and has the same table of definitions. -/
def heap_extends (vm vm1 : RubyVM) : Prop :=
  vm1.upb_def_to_ruby_obj_map = vm.upb_def_to_ruby_obj_map ∧
    ∀ (a : Nat) (o : RObject), vm.heap[a]? = some o → vm1.heap[a]? = some o

/-! ## Populated buffers -/

open upb_fieldtype_t in
/-- A slot holds a value of its field's type, as `layout_init` leaves it and
`layout_set` keeps it: a reference to the container for a repeated field, a
String for a string or bytes field, `nil` or an instance of the field's message
class for a message field, and plain bytes for every other type. -/
def slot_populated (T : DataModel) (vm : RubyVM) (field : upb_fielddef) (memory : Nat)
    (st : Storage) : Prop :=
  if field.label = .UPB_LABEL_REPEATED then ∃ v, load_VALUE T st memory = some v
  else
    match field.type with
    | UPB_TYPE_STRING | UPB_TYPE_BYTES =>
      ∃ v, load_VALUE T st memory = some v ∧ CLASS_OF T vm v = rb_cString ∧
        TYPE T vm v = ruby_value_type.T_STRING
    | UPB_TYPE_MESSAGE =>
      ∃ v, load_VALUE T st memory = some v ∧
        (v = .Qnil ∨ CLASS_OF T vm v = get_type_class vm field)
    | t => ∃ x, decode_int (load_cells st memory (native_slot_size T t)) = some x

/-- Every slot of the buffer at `storage` is populated. -/
def buffer_populated (T : DataModel) (vm : RubyVM) (layout : MessageLayout) (storage : Nat)
    (st : Storage) : Prop :=
  ∀ f ∈ layout.msgdef.fields, slot_populated T vm f (storage + layout_offset layout f) st

/-! ## Reference layout, following the specification's wording -/

open upb_fieldtype_t in
/-- Slot size as the specification tabulates it: the reference size for every
repeated field, else 1 for bool, 4 for int32/uint32/enum/float32, 8 for
int64/uint64/float64 and the reference size for string/bytes/message. -/
def spec_slot_size (T : DataModel) (field : upb_fielddef) : Nat :=
  match field.label, field.type with
  | upb_label_t.UPB_LABEL_REPEATED, _ => sizeof_VALUE T
  | _, UPB_TYPE_BOOL => 1
  | _, UPB_TYPE_INT32 => 4
  | _, UPB_TYPE_UINT32 => 4
  | _, UPB_TYPE_ENUM => 4
  | _, UPB_TYPE_FLOAT => 4
  | _, UPB_TYPE_INT64 => 8
  | _, UPB_TYPE_UINT64 => 8
  | _, UPB_TYPE_DOUBLE => 8
  | _, UPB_TYPE_STRING => sizeof_VALUE T
  | _, UPB_TYPE_BYTES => sizeof_VALUE T
  | _, UPB_TYPE_MESSAGE => sizeof_VALUE T

/-- Rounding `off` up to a multiple of `s`, on unbounded naturals. -/
def spec_round_up (off s : Nat) : Nat :=
  (off + s - 1) / s * s

/-- Offsets of the reference layout for the fields `fs`, in field order,
starting from the running offset `off`. -/
def spec_offsets (T : DataModel) : List upb_fielddef → Nat → List Nat
  | [], _ => []
  | field :: rest, off =>
    let o := spec_round_up off (spec_slot_size T field)
    o :: spec_offsets T rest (o + spec_slot_size T field)

/-- Total size of the reference layout: the final running offset. -/
def spec_total_size (T : DataModel) : List upb_fielddef → Nat → Nat
  | [], off => off
  | field :: rest, off =>
    spec_total_size T rest (spec_round_up off (spec_slot_size T field) + spec_slot_size T field)

/-- The largest slot size (hence the largest alignment) among the fields; 1
for a schema without fields. -/
def largest_slot_size (T : DataModel) (fields : List upb_fielddef) : Nat :=
  (fields.map (field_size T)).foldr max 1

/-! ## Notions used to state the claims about numbers -/

/-- Whether a double is below zero: a negative non-zero number or minus
infinity. -/
def dbl_is_negative : double → Bool
  | .finite neg mant _ => neg && decide (mant ≠ 0)
  | .infinity neg => neg
  | .nan => false

/-- The integer that an integral numeric host value denotes: an Integer
denotes itself, a finite Float without fractional part denotes its value;
nothing else is an integral number. -/
def integral_value : VALUE → Option Int
  | .integer n => some n
  | .float d => if dbl_has_fraction d then none else dbl_trunc d
  | _ => none

/-- Whether a host value is a negative number. -/
def is_negative_num : VALUE → Bool
  | .integer n => decide (n < 0)
  | .float d => dbl_is_negative d
  | _ => false

open upb_fieldtype_t in
/-- The representable range of an integer field type. -/
def int_type_range : upb_fieldtype_t → Option (Int × Int)
  | UPB_TYPE_INT32 => some (-(2 : Int) ^ 31, 2 ^ 31 - 1)
  | UPB_TYPE_UINT32 => some (0, 2 ^ 32 - 1)
  | UPB_TYPE_INT64 => some (-(2 : Int) ^ 63, 2 ^ 63 - 1)
  | UPB_TYPE_UINT64 => some (0, 2 ^ 64 - 1)
  | _ => none

/-! ## Examples used by the closed statements -/

open upb_fieldtype_t

/-- A singular field of the given type, name and index. -/
def mk_field (name : String) (type : upb_fieldtype_t) (index : Nat) : upb_fielddef :=
  { name := name, type := type, label := upb_label_t.UPB_LABEL_OPTIONAL, index := index,
    subdef := 0 }

/-- A Ruby process without objects and without registered definitions. -/
def vm_empty : RubyVM :=
  { heap := [], upb_def_to_ruby_obj_map := fun _ => .Qnil }

/-- A freshly allocated, uninitialised memory. -/
def st_fresh : Storage :=
  fun _ => .Uninit

/-- The schema `{id: int64, flag: bool}`. -/
def msgdef_int64_bool : upb_msgdef :=
  { fields := [mk_field "id" UPB_TYPE_INT64 0, mk_field "flag" UPB_TYPE_BOOL 1]
    index_lt := by decide
    index_nodup := by decide
    numfields_le := by decide }

/-- The schema `{name: string, age: int32, active: bool}` of the specification,
visited in the order `active, name, age` (upb visits by field table, not by
index). -/
def msgdef_person : upb_msgdef :=
  { fields := [mk_field "active" UPB_TYPE_BOOL 2, mk_field "name" UPB_TYPE_STRING 0,
      mk_field "age" UPB_TYPE_INT32 1]
    index_lt := by decide
    index_nodup := by decide
    numfields_le := by decide }

/-- The schema `{ratio: float, weight: double, color: enum}`. -/
def msgdef_scalars : upb_msgdef :=
  { fields := [mk_field "ratio" UPB_TYPE_FLOAT 0, mk_field "weight" UPB_TYPE_DOUBLE 1,
      mk_field "color" UPB_TYPE_ENUM 2]
    index_lt := by decide
    index_nodup := by decide
    numfields_le := by decide }

/-- A class object with the given constant table. -/
def class_object (consts : List (Nat × VALUE)) : RObject :=
  { klass := .Qnil, body := .module_ true consts }

/-- The `ID`s of the symbols `:RED`, `:GREEN`, `:BLUE` and `:String`. -/
def id_RED : Nat := 1
/-- The `ID` of the symbol `:GREEN`. -/
def id_GREEN : Nat := 2
/-- The `ID` of the symbol `:BLUE`. -/
def id_BLUE : Nat := 3
/-- The `ID` of the symbol `:String`. -/
def id_String : Nat := 4

/-- The built-in classes at the addresses 0 to 9, `Object` first. As in every
Ruby process, `String` is a constant of `Object`. -/
def heap_builtin : List RObject :=
  [class_object [(id_String, rb_cString)], class_object [], class_object [], class_object [],
    class_object [], class_object [], class_object [], class_object [], class_object [],
    class_object []]

/-- A Ruby process with the enum module `{RED: 0, GREEN: 1}` at address 10 and
its enum descriptor at address 11, registered for every upb definition. -/
def vm_color : RubyVM :=
  { heap := heap_builtin ++
      [{ klass := .Qnil, body := .module_ false [(id_RED, .integer 0), (id_GREEN, .integer 1)] },
        { klass := .Qnil, body := .enum_descriptor (.object 10) }]
    upb_def_to_ruby_obj_map := fun _ => .object 11 }

/-- The enum module of `vm_color`. -/
def color_module : VALUE := .object 10

/-- A Ruby process with a message descriptor at address 10, registered for
every upb definition, its message class at address 11, an instance of that
class at address 12, another class at address 13 and an instance of that one at
address 14. -/
def vm_submsg : RubyVM :=
  { heap := heap_builtin ++
      [{ klass := .Qnil, body := .descriptor (.object 11) }, class_object [],
        { klass := .object 11, body := .data }, class_object [],
        { klass := .object 13, body := .data }]
    upb_def_to_ruby_obj_map := fun _ => .object 10 }

/-- A repeated message field `items`, and a repeated `int32` field `counts`. -/
def field_items : upb_fielddef :=
  { name := "items", type := UPB_TYPE_MESSAGE, label := upb_label_t.UPB_LABEL_REPEATED,
    index := 0, subdef := 0 }

/-- A repeated `int32` field `counts`. -/
def field_counts : upb_fielddef :=
  { name := "counts", type := UPB_TYPE_INT32, label := upb_label_t.UPB_LABEL_REPEATED,
    index := 1, subdef := 0 }

/-- The schema `{items: repeated message, counts: repeated int32}`. -/
def msgdef_lists : upb_msgdef :=
  { fields := [field_items, field_counts]
    index_lt := by decide
    index_nodup := by decide
    numfields_le := by decide }

/-- Whether two host values are the same value or refer to objects with the
same class and payload. -/
def same_object (vm : RubyVM) (a b : VALUE) : VALUE :=
  if a = b then .Qtrue
  else
    match a, b with
    | .object x, .object y => if vm.heap[x]? = vm.heap[y]? then .Qtrue else .Qfalse
    | _, _ => .Qfalse

/-- A copy of the object that `v` refers to; `v` itself when it refers to
none. -/
def copy_object (vm : RubyVM) (v : VALUE) : List RObject × VALUE :=
  (rb_funcall_dup vm v).getD ([], v)

/-- A hash of a host value by its content: of an Integer by its number, of an
object by the bytes it holds as a String. -/
def content_hash (vm : RubyVM) : VALUE → VALUE
  | .integer n => .integer (n % 2 ^ 30)
  | .object x =>
    .integer ((string_bytes vm (.object x)).foldl (fun h b => (31 * h + b) % 2 ^ 30) 7 : Nat)
  | _ => .integer 0

/-- Collaborators for the closed statements: `==` of other receivers and the
container equality compare class and payload, a clone of a message and a
duplicate or clone of a container are a copy of the object, a hash is the hash
of the content, and the combiner is `31 * h + i` from the seed. -/
def collab_structural : Collaborators :=
  { method_eq := same_object
    Message_clone := copy_object
    RepeatedField_dup := copy_object
    RepeatedField_clone := copy_object
    RepeatedField_eq := same_object
    method_hash := content_hash
    rb_hash_start := fun h => h
    rb_hash_uint := fun h i => 31 * h + i
    rb_hash_end := fun h => h }

/-- A repeated `int32` field `tags` with index 3. -/
def field_tags : upb_fielddef :=
  { name := "tags", type := UPB_TYPE_INT32, label := upb_label_t.UPB_LABEL_REPEATED,
    index := 3, subdef := 0 }

/-- The schema `{sub: message, text: string, n: int32, tags: repeated int32}`. -/
def msgdef_note : upb_msgdef :=
  { fields := [mk_field "sub" UPB_TYPE_MESSAGE 0, mk_field "text" UPB_TYPE_STRING 1,
      mk_field "n" UPB_TYPE_INT32 2, field_tags]
    index_lt := by decide
    index_nodup := by decide
    numfields_le := by decide }

/-- The Ruby process `vm_submsg` with three more objects: a String with the
bytes of "ab" at address 15, another String with the same bytes at address 16,
and a container of `int32` with the element 1 at address 17. -/
def vm_note : RubyVM :=
  { heap := vm_submsg.heap ++
      [{ klass := rb_cString, body := .string [97, 98] },
        { klass := rb_cString, body := .string [97, 98] },
        { klass := cRepeatedField, body := .repeated_field UPB_TYPE_INT32 .Qnil [.integer 1] }]
    upb_def_to_ruby_obj_map := fun _ => .object 10 }

/-- A buffer of the schema of `msgdef_note` on LP64 with the given contents:
`sub` at offset 0, `text` at 8, `n` at 16 and the container of address 17 as
`tags` at 24. -/
def buffer_note (sub text : VALUE) (n : Int) : Storage :=
  store_VALUE .LP64
    (store_signed (store_VALUE .LP64 (store_VALUE .LP64 st_fresh 0 sub) 8 text) 16 4 n)
    24 (.object 17)

/-- A buffer of the schema `{id: int64, flag: bool}` with the given `id` and
`flag` false. -/
def buffer_id (id : Int) : Storage :=
  store_signed (store_signed st_fresh 0 8 id) 8 1 0

/-- The text of an `inspect` for the closed statements: `nil`, `true`, `false`,
the decimal digits of an Integer, and for an object the bytes it holds as a
String between double quotes. -/
def inspect_text (vm : RubyVM) : VALUE → List Nat
  | .Qnil => c_string "nil"
  | .Qtrue => c_string "true"
  | .Qfalse => c_string "false"
  | .integer n => c_string (toString n)
  | .object x => [34] ++ string_bytes vm (.object x) ++ [34]
  | _ => c_string "?"

/-- An `inspect` for the closed statements: a new String with the text of
`inspect_text`. -/
def inspect_new (vm : RubyVM) (v : VALUE) : List RObject × VALUE :=
  ([{ klass := rb_cString, body := .string (inspect_text vm v) }], .object vm.heap.length)

/-! ## Layout builder: the mask expression -/

theorem and_not_pow_two_sub_one (w k x : Nat) (hk : k ≤ w) (hx : x < 2 ^ w) :
    x &&& (2 ^ w - 1 - (2 ^ k - 1)) = x / 2 ^ k * 2 ^ k := by
  have hkw : 2 ^ k ≤ 2 ^ w := Nat.pow_le_pow_right (by decide) hk
  have hpos : 0 < 2 ^ k := Nat.pos_pow_of_pos k (by decide)
  have h1 : 2 ^ w - 1 - (2 ^ k - 1) = 2 ^ w - ((2 ^ k - 1) + 1) := by omega
  have h2 : 2 ^ k - 1 < 2 ^ w := by omega
  apply Nat.eq_of_testBit_eq
  intro i
  rw [h1, Nat.testBit_and, Nat.testBit_two_pow_sub_succ h2, Nat.testBit_two_pow_sub_one,
    ← Nat.shiftRight_eq_div_pow, ← Nat.shiftLeft_eq, Nat.testBit_shiftLeft,
    Nat.testBit_shiftRight]
  by_cases hik : k ≤ i
  · by_cases hiw : i < w
    · have : k + (i - k) = i := by omega
      simp [hik, hiw, this, Nat.not_lt.mpr hik]
    · have hxi : x.testBit i = false :=
        Nat.testBit_lt_two_pow (Nat.lt_of_lt_of_le hx
          (Nat.pow_le_pow_right (by decide) (Nat.not_lt.mp hiw)))
      have : k + (i - k) = i := by omega
      simp [hxi, this]
  · simp [hik, Nat.not_le.mp hik]

theorem field_size_cases (T : DataModel) (f : upb_fielddef) :
    field_size T f = 1 ∨ field_size T f = 4 ∨ field_size T f = 8 := by
  unfold field_size
  split
  · cases T <;> simp [sizeof_VALUE]
  · cases T <;> cases f.type <;> simp [native_slot_size, sizeof_VALUE]

theorem spec_slot_size_eq (T : DataModel) (f : upb_fielddef) :
    spec_slot_size T f = field_size T f := by
  obtain ⟨n, t, l, i, d⟩ := f
  cases l <;> cases t <;> rfl

theorem align_offset_eq (T : DataModel) (off s : Nat) (hs : s = 1 ∨ s = 4 ∨ s = 8)
    (h : off + s < 2 ^ SIZE_WIDTH T) : align_offset T off s = spec_round_up off s := by
  have hw : 3 ≤ SIZE_WIDTH T := by cases T <;> simp [SIZE_WIDTH]
  have hW : 8 ≤ 2 ^ SIZE_WIDTH T :=
    le_trans (by decide : 8 ≤ 2 ^ 3) (Nat.pow_le_pow_right (by decide) hw)
  have hs1 : 1 ≤ s := by omega
  have hs8 : s ≤ 8 := by omega
  have e1 : size_add T off s = off + s := Nat.mod_eq_of_lt h
  have e2 : size_sub T (off + s) 1 = off + s - 1 := by
    unfold size_sub
    rw [Nat.mod_eq_of_lt h, Nat.mod_eq_of_lt (by omega : 1 < 2 ^ SIZE_WIDTH T)]
    have : off + s + 2 ^ SIZE_WIDTH T - 1 = (off + s - 1) + 2 ^ SIZE_WIDTH T := by omega
    rw [this, Nat.add_mod_right, Nat.mod_eq_of_lt (by omega)]
  have e3 : size_sub T s 1 = s - 1 := by
    unfold size_sub
    rw [Nat.mod_eq_of_lt (by omega : s < 2 ^ SIZE_WIDTH T),
      Nat.mod_eq_of_lt (by omega : 1 < 2 ^ SIZE_WIDTH T)]
    have : s + 2 ^ SIZE_WIDTH T - 1 = (s - 1) + 2 ^ SIZE_WIDTH T := by omega
    rw [this, Nat.add_mod_right, Nat.mod_eq_of_lt (by omega)]
  have e4 : size_not T (s - 1) = 2 ^ SIZE_WIDTH T - 1 - (s - 1) := by
    unfold size_not
    rw [Nat.mod_eq_of_lt (by omega)]
  unfold align_offset size_and spec_round_up
  rw [e1, e2, e3, e4]
  have hx : off + s - 1 < 2 ^ SIZE_WIDTH T := by omega
  rcases hs with rfl | rfl | rfl
  · simpa using and_not_pow_two_sub_one (SIZE_WIDTH T) 0 (off + 1 - 1) (by omega) hx
  · simpa using and_not_pow_two_sub_one (SIZE_WIDTH T) 2 (off + 4 - 1) (by omega) hx
  · simpa using and_not_pow_two_sub_one (SIZE_WIDTH T) 3 (off + 8 - 1) (by omega) hx

theorem spec_round_up_least (off s : Nat) (hs : 0 < s) :
    s ∣ spec_round_up off s ∧ off ≤ spec_round_up off s ∧
      ∀ x, s ∣ x → off ≤ x → spec_round_up off s ≤ x := by
  unfold spec_round_up
  refine ⟨Nat.dvd_mul_left _ _, ?_, ?_⟩
  · have h1 := Nat.div_add_mod (off + s - 1) s
    have h2 := Nat.mod_lt (off + s - 1) hs
    rw [Nat.mul_comm] at h1
    omega
  · rintro x ⟨c, rfl⟩ hx
    rw [Nat.mul_comm s c]
    apply Nat.mul_le_mul_right
    rw [Nat.div_le_iff_le_mul_add_pred hs]
    have : off ≤ s * c := hx
    omega

/-! ## Layout builder: the loop against the reference layout -/

theorem getD_set_same (arr : List Nat) (i v : Nat) (h : i < arr.length) :
    (arr.set i v).getD i 0 = v := by
  simp [List.getD_eq_getElem?_getD, List.getElem?_set, h]

theorem getD_set_other (arr : List Nat) (i j v : Nat) (h : j ≠ i) :
    (arr.set i v).getD j 0 = arr.getD j 0 := by
  simp [List.getD_eq_getElem?_getD, List.getElem?_set, Ne.symm h]

theorem spec_round_up_le_mul (off s n : Nat) (hs : s = 1 ∨ s = 4 ∨ s = 8)
    (h : off ≤ 8 * n) : spec_round_up off s ≤ 8 * n := by
  have hdvd : s ∣ 8 * n := by
    rcases hs with rfl | rfl | rfl
    · exact Nat.one_dvd _
    · exact ⟨2 * n, by omega⟩
    · exact ⟨n, rfl⟩
  exact (spec_round_up_least off s (by omega)).2.2 _ hdvd h

theorem create_layout_loop_spec (T : DataModel) :
    ∀ (l : List upb_fielddef) (off : Nat) (arr : List Nat) (n : Nat),
      off ≤ 8 * n → n + l.length ≤ UPB_MAX_FIELDNUMBER →
      (l.map upb_fielddef.index).Nodup → (∀ f ∈ l, f.index < arr.length) →
      (create_layout_loop T l off arr).2 = spec_total_size T l off ∧
      l.map (fun f => (create_layout_loop T l off arr).1.getD f.index 0) =
        spec_offsets T l off ∧
      (∀ i, i ∉ l.map upb_fielddef.index →
        (create_layout_loop T l off arr).1.getD i 0 = arr.getD i 0) ∧
      (create_layout_loop T l off arr).1.length = arr.length := by
  intro l
  induction l with
  | nil =>
    intro off arr n _ _ _ _
    simp [create_layout_loop, spec_total_size, spec_offsets]
  | cons f rest ih =>
    intro off arr n hoff hlen hnd hidx
    have hs := field_size_cases T f
    have hW : 2 ^ 32 ≤ 2 ^ SIZE_WIDTH T :=
      Nat.pow_le_pow_right (by decide) (by cases T <;> simp [SIZE_WIDTH])
    have hmax : UPB_MAX_FIELDNUMBER = 2 ^ 29 - 1 := rfl
    simp only [List.length_cons] at hlen
    have hn : 8 * n + 8 < 2 ^ 32 := by
      have : (2:Nat) ^ 32 = 8 * 2 ^ 29 := by norm_num
      have : 0 < (2:Nat) ^ 29 := by norm_num
      omega
    have e1 : align_offset T off (field_size T f) = spec_round_up off (field_size T f) :=
      align_offset_eq T off _ hs (by omega)
    have h1 : spec_round_up off (field_size T f) ≤ 8 * n :=
      spec_round_up_le_mul off _ n hs hoff
    have e2 : size_add T (spec_round_up off (field_size T f)) (field_size T f) =
        spec_round_up off (field_size T f) + field_size T f :=
      Nat.mod_eq_of_lt (by omega)
    simp only [List.map_cons, List.nodup_cons] at hnd
    have hfi : f.index < arr.length := hidx f (List.mem_cons_self _ _)
    obtain ⟨ih1, ih2, ih3, ih4⟩ :=
      ih (spec_round_up off (field_size T f) + field_size T f)
        (arr.set f.index (spec_round_up off (field_size T f))) (n + 1)
        (by omega) (by omega) hnd.2
        (fun g hg => by
          rw [List.length_set]
          exact hidx g (List.mem_cons_of_mem _ hg))
    have hloop : create_layout_loop T (f :: rest) off arr =
        create_layout_loop T rest (spec_round_up off (field_size T f) + field_size T f)
          (arr.set f.index (spec_round_up off (field_size T f))) := by
      simp only [create_layout_loop, e1, e2]
    rw [hloop]
    refine ⟨?_, ?_, ?_, ?_⟩
    · simp only [spec_total_size, spec_slot_size_eq]
      exact ih1
    · simp only [List.map_cons, spec_offsets, spec_slot_size_eq]
      rw [ih2, ih3 f.index hnd.1, getD_set_same _ _ _ hfi]
    · intro i hi
      simp only [List.map_cons, List.mem_cons, not_or] at hi
      rw [ih3 i hi.2, getD_set_other _ _ _ _ hi.1]
    · rw [ih4, List.length_set]

theorem create_layout_eq_spec (T : DataModel) (m : upb_msgdef) :
    m.fields.map (layout_offset (create_layout T m)) = spec_offsets T m.fields 0 ∧
    (create_layout T m).size = spec_total_size T m.fields 0 := by
  have h := create_layout_loop_spec T m.fields 0 (List.replicate m.fields.length 0) 0
    (by omega) (by simpa using m.numfields_le) m.index_nodup
    (by simpa using m.index_lt)
  exact ⟨h.2.1, h.1⟩

/-! ## Layout builder: geometry of the reference layout -/

theorem spec_layout_geometry (T : DataModel) :
    ∀ (l : List upb_fielddef) (off : Nat) (o : upb_fielddef → Nat),
      l.map o = spec_offsets T l off →
      l.Pairwise (fun f g => o f + field_size T f ≤ o g) ∧
      ∀ f ∈ l, field_size T f ∣ o f ∧ off ≤ o f ∧
        o f + field_size T f ≤ spec_total_size T l off := by
  intro l
  induction l with
  | nil => intro off o _; simp
  | cons f rest ih =>
    intro off o h
    simp only [List.map_cons, spec_offsets, spec_slot_size_eq, List.cons.injEq] at h
    obtain ⟨hf, hrest⟩ := h
    have hs := field_size_cases T f
    obtain ⟨hd, hle, -⟩ := spec_round_up_least off (field_size T f) (by omega)
    obtain ⟨ihp, iha⟩ := ih _ o hrest
    have hmono : ∀ (l : List upb_fielddef) (a : Nat), a ≤ spec_total_size T l a := by
      intro l
      induction l with
      | nil => intro a; simp [spec_total_size]
      | cons g l ihl =>
        intro a
        simp only [spec_total_size]
        have := ihl (spec_round_up a (spec_slot_size T g) + spec_slot_size T g)
        have hg := field_size_cases T g
        rw [spec_slot_size_eq] at this ⊢
        have := (spec_round_up_least a (field_size T g) (by omega)).2.1
        omega
    refine ⟨List.pairwise_cons.mpr ⟨fun g hg => ?_, ihp⟩, ?_⟩
    · have := (iha g hg).2.1
      omega
    · intro g hg
      rcases List.mem_cons.mp hg with rfl | hg
      · refine ⟨hf ▸ hd, hf ▸ hle, ?_⟩
        simp only [spec_total_size, spec_slot_size_eq]
        have := hmono rest (spec_round_up off (field_size T g) + field_size T g)
        omega
      · obtain ⟨a1, a2, a3⟩ := iha g hg
        refine ⟨a1, by omega, ?_⟩
        simpa only [spec_total_size, spec_slot_size_eq] using a3

theorem spec_total_size_last (T : DataModel) :
    ∀ (l : List upb_fielddef) (off : Nat) (o : upb_fielddef → Nat),
      l.map o = spec_offsets T l off →
      ∀ f, l.getLast? = some f → spec_total_size T l off = o f + field_size T f := by
  intro l
  induction l with
  | nil => intro off o _ f hf; simp at hf
  | cons g rest ih =>
    intro off o h f hf
    simp only [List.map_cons, spec_offsets, spec_slot_size_eq, List.cons.injEq] at h
    cases rest with
    | nil =>
      simp only [List.getLast?_singleton, Option.some.injEq] at hf
      subst hf
      simp only [spec_total_size, spec_slot_size_eq]
      rw [h.1]
    | cons g2 rest2 =>
      rw [List.getLast?_cons_cons] at hf
      have := ih _ o h.2 f hf
      simpa only [spec_total_size, spec_slot_size_eq] using this

/-! ## Layout builder: the claims -/

/-- C1: for every message definition, `create_layout` assigns offsets that are
strictly increasing in field (visiting) order, each offset is a multiple of the
field's slot size, no address lies in the byte ranges
`[offset, offset + size)` of two fields, and the layout's size is at least
every field's offset plus its slot size, the last field's in particular. -/
theorem create_layout_offsets_sound (T : DataModel) (m : upb_msgdef) :
    m.fields.Pairwise (fun f g =>
      layout_offset (create_layout T m) f < layout_offset (create_layout T m) g) ∧
    (∀ f ∈ m.fields, field_size T f ∣ layout_offset (create_layout T m) f) ∧
    m.fields.Pairwise (fun f g => ∀ x : Nat,
      ¬ (layout_offset (create_layout T m) f ≤ x ∧
          x < layout_offset (create_layout T m) f + field_size T f ∧
          layout_offset (create_layout T m) g ≤ x ∧
          x < layout_offset (create_layout T m) g + field_size T g)) ∧
    (∀ f ∈ m.fields,
      layout_offset (create_layout T m) f + field_size T f ≤ (create_layout T m).size) ∧
    (∀ f, m.fields.getLast? = some f →
      layout_offset (create_layout T m) f + field_size T f ≤ (create_layout T m).size) := by
  obtain ⟨hoff, hsize⟩ := create_layout_eq_spec T m
  obtain ⟨hp, ha⟩ := spec_layout_geometry T m.fields 0 _ hoff
  refine ⟨hp.imp ?_, fun f hf => (ha f hf).1, hp.imp ?_, fun f hf => ?_, fun f hf => ?_⟩
  · intro f g h
    have := field_size_cases T f
    omega
  · intro f g h x hx
    omega
  · rw [hsize]
    exact (ha f hf).2.2
  · rw [hsize]
    exact (ha f (List.mem_of_getLast?_eq_some hf)).2.2

/-- Witness of C1 on the schema `{name: string, age: int32, active: bool}`. -/
theorem create_layout_offsets_sound_witness :
    field_size .LP64 (mk_field "age" UPB_TYPE_INT32 1) ∣
        layout_offset (create_layout .LP64 msgdef_person) (mk_field "age" UPB_TYPE_INT32 1) ∧
      layout_offset (create_layout .LP64 msgdef_person) (mk_field "age" UPB_TYPE_INT32 1) +
          field_size .LP64 (mk_field "age" UPB_TYPE_INT32 1) ≤
        (create_layout .LP64 msgdef_person).size :=
  ⟨(create_layout_offsets_sound .LP64 msgdef_person).2.1 _ (by decide),
    (create_layout_offsets_sound .LP64 msgdef_person).2.2.2.1 _ (by decide)⟩

/-- C2: `create_layout` equals the reference layout. The offsets it records,
read in field order, and its total size are those of the walk that starts at
running offset 0, rounds the running offset up to the field's slot size and
advances by it; the slot sizes of the code are those of the specification's
table; without `size_t` overflow the mask expression is the round-up; and the
round-up is the smallest multiple of the slot size that is not below the
running offset. -/
theorem create_layout_refines_reference (T : DataModel) (m : upb_msgdef) :
    m.fields.map (layout_offset (create_layout T m)) = spec_offsets T m.fields 0 ∧
    (create_layout T m).size = spec_total_size T m.fields 0 ∧
    (∀ f : upb_fielddef, field_size T f = spec_slot_size T f) ∧
    (∀ (f : upb_fielddef) (off : Nat), off + field_size T f < 2 ^ SIZE_WIDTH T →
      align_offset T off (field_size T f) = spec_round_up off (spec_slot_size T f)) ∧
    (∀ (f : upb_fielddef) (off : Nat),
      spec_slot_size T f ∣ spec_round_up off (spec_slot_size T f) ∧
      off ≤ spec_round_up off (spec_slot_size T f) ∧
      ∀ x, spec_slot_size T f ∣ x → off ≤ x → spec_round_up off (spec_slot_size T f) ≤ x) := by
  refine ⟨(create_layout_eq_spec T m).1, (create_layout_eq_spec T m).2,
    fun f => (spec_slot_size_eq T f).symm, fun f off h => ?_, fun f off => ?_⟩
  · rw [spec_slot_size_eq]
    exact align_offset_eq T off _ (field_size_cases T f) h
  · have := field_size_cases T f
    exact spec_round_up_least off _ (by rw [spec_slot_size_eq]; omega)

/-- Witness of C2: on a 32-bit target the mask expression rounds offset 5 up
to 8 for an `int32` slot. -/
theorem create_layout_refines_reference_witness :
    align_offset .ILP32 5 (field_size .ILP32 (mk_field "age" UPB_TYPE_INT32 1)) =
      spec_round_up 5 (spec_slot_size .ILP32 (mk_field "age" UPB_TYPE_INT32 1)) :=
  (create_layout_refines_reference .ILP32 msgdef_person).2.2.2.1 _ 5 (by decide)

/-- C3, as stated, fails: for the schema `{id: int64, flag: bool}` the recorded
size is 9, which is not a multiple of the largest slot size 8. -/
theorem create_layout_size_not_rounded :
    (create_layout .LP64 msgdef_int64_bool).size = 9 ∧
      largest_slot_size .LP64 msgdef_int64_bool.fields = 8 ∧
      ¬ (largest_slot_size .LP64 msgdef_int64_bool.fields ∣
          (create_layout .LP64 msgdef_int64_bool).size) := by
  decide

/-- C3, amended: the size recorded by `create_layout` is the offset immediately
after the last field, that is the last field's offset plus its slot size, with
no further rounding; for a schema without fields it is 0. -/
theorem create_layout_size_is_end_of_last_field (T : DataModel) (m : upb_msgdef) :
    (m.fields = [] → (create_layout T m).size = 0) ∧
    (∀ f, m.fields.getLast? = some f →
      (create_layout T m).size =
        layout_offset (create_layout T m) f + field_size T f) := by
  obtain ⟨hoff, hsize⟩ := create_layout_eq_spec T m
  refine ⟨fun h => ?_, fun f hf => ?_⟩
  · rw [hsize, h]
    rfl
  · rw [hsize]
    exact spec_total_size_last T m.fields 0 _ hoff f hf

/-- Witness of the amended C3 on `{id: int64, flag: bool}`: the size is the
offset of `flag` plus one byte. -/
theorem create_layout_size_is_end_of_last_field_witness :
    (create_layout .LP64 msgdef_int64_bool).size =
      layout_offset (create_layout .LP64 msgdef_int64_bool) (mk_field "flag" UPB_TYPE_BOOL 1) +
        field_size .LP64 (mk_field "flag" UPB_TYPE_BOOL 1) :=
  (create_layout_size_is_end_of_last_field .LP64 msgdef_int64_bool).2 _ (by decide)

/-! ## Storage: stores and loads -/

theorem encode_int_length (n x : Nat) : (encode_int n x).length = n := by
  induction n generalizing x with
  | zero => rfl
  | succ n ih => simp [encode_int, ih]

theorem decode_encode_int (n x : Nat) : decode_int (encode_int n x) = some (x % 256 ^ n) := by
  induction n generalizing x with
  | zero => simp [encode_int, decode_int, Nat.mod_one]
  | succ n ih =>
    simp only [encode_int, decode_int, ih]
    congr 1
    rw [Nat.pow_succ, Nat.mul_comm (256 ^ n) 256, Nat.mod_mul]

theorem load_store_cells (st : Storage) (addr : Nat) (cells : List memval) :
    load_cells (store_cells st addr cells) addr cells.length = cells := by
  apply List.ext_getElem
  · simp [load_cells]
  · intro i h1 h2
    simp only [load_cells, List.getElem_map, List.getElem_range, store_cells]
    have : addr ≤ addr + i ∧ addr + i < addr + cells.length := by omega
    rw [if_pos this, Nat.add_sub_cancel_left]
    simp [List.getD_eq_getElem?_getD, h2]

theorem store_cells_outside (st : Storage) (addr : Nat) (cells : List memval) (a : Nat)
    (h : a < addr ∨ addr + cells.length ≤ a) : store_cells st addr cells a = st a := by
  unfold store_cells
  rw [if_neg (by omega)]

theorem load_cells_congr (st1 st2 : Storage) (addr n : Nat)
    (h : ∀ a, addr ≤ a → a < addr + n → st1 a = st2 a) :
    load_cells st1 addr n = load_cells st2 addr n := by
  unfold load_cells
  apply List.map_congr_left
  intro i hi
  rw [List.mem_range] at hi
  exact h _ (by omega) (by omega)

theorem pow_256_eq (n : Nat) : 256 ^ n = 2 ^ (8 * n) := by
  rw [Nat.pow_mul]

theorem load_store_unsigned (st : Storage) (memory n x : Nat) :
    load_unsigned (store_unsigned st memory n x) memory n = some (x % 2 ^ (8 * n)) := by
  unfold load_unsigned store_unsigned
  have h := load_store_cells st memory (encode_int n (x % 2 ^ (8 * n)))
  rw [encode_int_length] at h
  rw [h, decode_encode_int, pow_256_eq, Nat.mod_mod]

theorem load_store_signed (st : Storage) (memory n : Nat) (z : Int) (hn : 0 < n)
    (hlo : -(2 : Int) ^ (8 * n - 1) ≤ z) (hhi : z < (2 : Int) ^ (8 * n - 1)) :
    load_signed (store_signed st memory n z) memory n = some z := by
  unfold load_signed store_signed
  have h := load_store_cells st memory (encode_int n (z % 2 ^ (8 * n)).toNat)
  rw [encode_int_length] at h
  rw [h, decode_encode_int, pow_256_eq]
  have hpow : (2 : Int) ^ (8 * n) = 2 * 2 ^ (8 * n - 1) := by
    rw [← pow_succ']
    congr 1
    omega
  have hpos : (0 : Int) < 2 ^ (8 * n - 1) := by positivity
  have hnn : 0 ≤ z % 2 ^ (8 * n) := Int.emod_nonneg _ (by positivity)
  have hlt : z % 2 ^ (8 * n) < 2 ^ (8 * n) := Int.emod_lt_of_pos _ (by positivity)
  have hcast : (((z % 2 ^ (8 * n)).toNat % 2 ^ (8 * n) : Nat) : Int) = z % 2 ^ (8 * n) := by
    rw [Nat.mod_eq_of_lt]
    · exact Int.toNat_of_nonneg hnn
    · have : ((z % 2 ^ (8 * n)).toNat : Int) < ((2 ^ (8 * n) : Nat) : Int) := by
        rw [Int.toNat_of_nonneg hnn]
        push_cast
        exact hlt
      exact_mod_cast this
  have hlt2 : ∀ u : Nat, (u < 2 ^ (8 * n - 1)) ↔ ((u : Int) < 2 ^ (8 * n - 1)) := by
    intro u
    constructor
    · intro hu
      exact_mod_cast hu
    · intro hu
      exact_mod_cast hu
  simp only [Option.some.injEq]
  generalize ((z % 2 ^ (8 * n)).toNat % 2 ^ (8 * n) : Nat) = u at hcast
  by_cases hz : 0 ≤ z
  · have hm : z % 2 ^ (8 * n) = z := Int.emod_eq_of_lt hz (by omega)
    rw [hm] at hcast
    rw [if_pos ((hlt2 u).mpr (by omega)), hcast]
  · have hm : z % 2 ^ (8 * n) = z + 2 ^ (8 * n) := by
      rw [← Int.add_emod_self]
      exact Int.emod_eq_of_lt (by omega) (by omega)
    rw [hm] at hcast
    rw [if_neg (fun hu => by have := (hlt2 u).mp hu; omega), hcast]
    omega

theorem encode_VALUE_length (T : DataModel) (v : VALUE) :
    (encode_VALUE T v).length = sizeof_VALUE T := by
  simp [encode_VALUE]

theorem sizeof_VALUE_pos (T : DataModel) : 0 < sizeof_VALUE T := by
  cases T <;> simp [sizeof_VALUE]

theorem load_store_VALUE (T : DataModel) (st : Storage) (memory : Nat) (v : VALUE) :
    load_VALUE T (store_VALUE T st memory v) memory = some v := by
  unfold load_VALUE store_VALUE
  have h := load_store_cells st memory (encode_VALUE T v)
  rw [encode_VALUE_length] at h
  have h0 : store_cells st memory (encode_VALUE T v) memory = memval.Fragment v 0 := by
    unfold store_cells
    have hp := sizeof_VALUE_pos T
    rw [if_pos (by rw [encode_VALUE_length]; omega)]
    simp [encode_VALUE, List.getD_eq_getElem?_getD, hp]
  rw [h0]
  simp only [h, if_true]

/-! ## Doubles: comparisons, floor and conversions -/

theorem dbl_scaled_neg_iff (neg : Bool) (m : Nat) (e k : Int) :
    dbl_scaled neg m e k < 0 ↔ (neg = true ∧ m ≠ 0) := by
  unfold dbl_scaled
  have hp : (0 : Int) < 2 ^ (e - k).toNat := by positivity
  cases neg
  · simp only [Bool.false_eq_true, if_false, one_mul, false_and, iff_false, not_lt]
    positivity
  · simp only [if_true, true_and]
    constructor
    · intro h hm
      subst hm
      simp at h
    · intro hm
      have hm' : (0 : Int) < (m : Int) := by
        have := Nat.pos_of_ne_zero hm
        exact_mod_cast this
      have : (0 : Int) < (m : Int) * 2 ^ (e - k).toNat := Int.mul_pos hm' hp
      linarith

theorem dbl_scaled_zero (e k : Int) : dbl_scaled false 0 e k = 0 := by
  simp [dbl_scaled]

theorem int_to_double_zero : int_to_double 0 = .finite false 0 (-1074) := by
  decide

theorem dbl_lt_zero_eq (d : double) : dbl_lt d (int_to_double 0) = dbl_is_negative d := by
  rw [int_to_double_zero]
  cases d with
  | finite neg m e =>
    simp only [dbl_lt, dbl_is_negative, dbl_scaled_zero]
    rw [Bool.eq_iff_iff]
    simp only [decide_eq_true_eq, Bool.and_eq_true]
    exact dbl_scaled_neg_iff neg m e _
  | infinity neg => simp [dbl_lt, dbl_is_negative]
  | nan => simp [dbl_lt, dbl_is_negative]

theorem floor_ne_of_has_fraction (d : double) (h : dbl_has_fraction d = true) :
    dbl_ne (floor d) d = true := by
  cases d with
  | infinity neg => simp [dbl_has_fraction] at h
  | nan => simp [dbl_has_fraction] at h
  | finite neg m e =>
    simp only [dbl_has_fraction, decide_eq_true_eq] at h
    obtain ⟨he, hm⟩ := h
    have hp : 0 < 2 ^ (-e).toNat := Nat.pos_pow_of_pos _ (by decide)
    have hdm := Nat.div_add_mod m (2 ^ (-e).toNat)
    have hlt := Nat.mod_lt m hp
    have hmin1 : min (0 : Int) e = e := min_eq_right (le_of_lt he)
    have hsub : (0 - e).toNat = (-e).toNat := by simp
    have hcond : ¬ (0 ≤ e ∨ m % 2 ^ (-e).toNat = 0) := by
      intro hc
      rcases hc with hc | hc
      · omega
      · exact hm hc
    simp only [floor, if_neg hcond]
    have hpi : ((2 : Int) ^ (-e).toNat) = ((2 ^ (-e).toNat : Nat) : Int) := by
      push_cast
      rfl
    generalize 2 ^ (-e).toNat = p at *
    have key1 : ((m / p : Nat) : Int) * (p : Int) ≠ (m : Int) := by
      intro hc
      have : m / p * p = m := by exact_mod_cast hc
      rw [Nat.mul_comm] at this
      omega
    have key2 : ((m / p + 1 : Nat) : Int) * (p : Int) ≠ (m : Int) := by
      intro hc
      have : (m / p + 1) * p = m := by exact_mod_cast hc
      rw [Nat.add_mul, Nat.mul_comm] at this
      omega
    cases neg
    · simp only [Bool.false_eq_true, if_false, dbl_ne, dbl_eq, hmin1, dbl_scaled, one_mul,
        sub_self, Int.toNat_zero, pow_zero, mul_one, hsub, hpi, Bool.not_eq_true',
        decide_eq_false_iff_not]
      exact key1
    · simp only [if_true, dbl_ne, dbl_eq, hmin1, dbl_scaled, sub_self, Int.toNat_zero,
        pow_zero, mul_one, hsub, hpi, Bool.not_eq_true', decide_eq_false_iff_not]
      intro hc
      apply key2
      linarith

theorem floor_eq_of_no_fraction (neg : Bool) (m : Nat) (e : Int)
    (h : dbl_has_fraction (.finite neg m e) = false) :
    dbl_ne (floor (.finite neg m e)) (.finite neg m e) = false := by
  simp only [dbl_has_fraction, decide_eq_false_iff_not, not_and, not_not] at h
  have hcond : 0 ≤ e ∨ m % 2 ^ (-e).toNat = 0 := by
    by_cases he : 0 ≤ e
    · exact Or.inl he
    · exact Or.inr (h (by omega))
  simp only [floor, if_pos hcond]
  simp [dbl_ne, dbl_eq]

theorem ieee_encode_int_bounds (neg : Bool) (m : Nat) (hm : m ≠ 0) :
    ∃ mag, ieee_encode 11 52 (.finite neg m 0) = (if neg then 2 ^ 63 else 0) + mag ∧
      2 ^ 52 ≤ mag ∧ mag ≤ 2047 * 2 ^ 52 := by
  simp only [ieee_encode, if_neg hm]
  refine ⟨_, rfl, le_min ?_ (by norm_num), le_trans (min_le_right _ _) (by norm_num)⟩
  have htop : (1 : Int) ≤ max ((Nat.log2 m : Int) + 0) (2 - 2 ^ (11 - 1)) - (2 - 2 ^ (11 - 1)) := by
    have h0 : (0 : Int) ≤ (Nat.log2 m : Int) := Int.natCast_nonneg _
    have h1 : (Nat.log2 m : Int) + 0 ≤ max ((Nat.log2 m : Int) + 0) (2 - 2 ^ (11 - 1)) :=
      le_max_left _ _
    have h2 : (2 : Int) - 2 ^ (11 - 1) = -1022 := by norm_num
    omega
  have h1 : 1 ≤ (max ((Nat.log2 m : Int) + 0) (2 - 2 ^ (11 - 1)) - (2 - 2 ^ (11 - 1))).toNat := by
    omega
  refine Nat.le_trans ?_ (Nat.le_add_right _ _)
  exact Nat.le_mul_of_pos_left _ h1

theorem ieee_decode_sign (neg : Bool) (mag : Nat) (h1 : 2 ^ 52 ≤ mag)
    (h2 : mag ≤ 2047 * 2 ^ 52) :
    dbl_is_negative (ieee_decode 11 52 ((if neg then 2 ^ 63 else 0) + mag)) = neg := by
  simp only [ieee_decode]
  norm_num at h1 h2 ⊢
  cases neg
  · simp only [Bool.false_eq_true, if_false, Nat.zero_add]
    have hneg : ¬ (mag / 9223372036854775808 % 2 = 1) := by omega
    split_ifs with hf hz hz2
    · simp [dbl_is_negative, hneg]
    · simp [dbl_is_negative]
    · simp [dbl_is_negative, hneg]
    · simp [dbl_is_negative, hneg]
  · simp only [if_true]
    have hneg : (9223372036854775808 + mag) / 9223372036854775808 % 2 = 1 := by omega
    split_ifs with hf hz hz2
    · simp only [dbl_is_negative, hneg, decide_True]
    · exfalso
      omega
    · exfalso
      omega
    · simp only [dbl_is_negative, hneg, decide_True, Bool.true_and, decide_eq_true_eq]
      omega

theorem int_to_double_negative (n : Int) :
    dbl_is_negative (int_to_double n) = decide (n < 0) := by
  by_cases hn : n = 0
  · subst hn
    rw [int_to_double_zero]
    rfl
  · have hm : n.natAbs ≠ 0 := by simpa using hn
    obtain ⟨mag, he, h1, h2⟩ := ieee_encode_int_bounds (decide (n < 0)) n.natAbs hm
    unfold int_to_double
    rw [he]
    exact ieee_decode_sign _ mag h1 h2

/-! ## Slot codec: numbers -/

theorem is_ruby_num_integer (T : DataModel) (vm : RubyVM) (n : Int) :
    is_ruby_num T vm (.integer n) = true := by
  simp only [is_ruby_num, TYPE]
  by_cases h : FIXABLE T n = true <;> simp [h]

theorem is_ruby_num_float (T : DataModel) (vm : RubyVM) (d : double) :
    is_ruby_num T vm (.float d) = true := by
  simp [is_ruby_num, TYPE]

theorem TYPE_integer_ne_float (T : DataModel) (vm : RubyVM) (n : Int) :
    TYPE T vm (.integer n) ≠ ruby_value_type.T_FLOAT := by
  simp only [TYPE]
  by_cases h : FIXABLE T n = true <;> simp [h]

theorem TYPE_integer_ne_symbol (T : DataModel) (vm : RubyVM) (n : Int) :
    TYPE T vm (.integer n) ≠ ruby_value_type.T_SYMBOL := by
  simp only [TYPE]
  by_cases h : FIXABLE T n = true <;> simp [h]

theorem is_ruby_num_cases (T : DataModel) (vm : RubyVM) (v : VALUE)
    (h : is_ruby_num T vm v = true) : (∃ n, v = .integer n) ∨ (∃ d, v = .float d) := by
  cases v with
  | integer n => exact Or.inl ⟨n, rfl⟩
  | float d => exact Or.inr ⟨d, rfl⟩
  | Qfalse => simp [is_ruby_num, TYPE] at h
  | Qtrue => simp [is_ruby_num, TYPE] at h
  | Qnil => simp [is_ruby_num, TYPE] at h
  | symbol id => simp [is_ruby_num, TYPE] at h
  | object addr =>
    exfalso
    simp only [is_ruby_num, TYPE] at h
    cases hget : vm.heap[addr]? with
    | none => simp [hget] at h
    | some o =>
      obtain ⟨k, b⟩ := o
      cases b with
      | module_ is_class consts => cases is_class <;> simp [hget] at h
      | _ => simp [hget] at h

theorem check_int_range_precision_integer (T : DataModel) (vm : RubyVM)
    (type : upb_fieldtype_t) (n : Int) :
    check_int_range_precision T vm type (.integer n) =
      if (type = .UPB_TYPE_UINT32 ∨ type = .UPB_TYPE_UINT64) ∧ n < 0 then
        .error .rb_eRangeError
      else .ok () := by
  simp only [check_int_range_precision, if_neg (TYPE_integer_ne_float T vm n), NUM2DBL,
    dbl_lt_zero_eq, int_to_double_negative]
  by_cases ht : type = .UPB_TYPE_UINT32 ∨ type = .UPB_TYPE_UINT64
  · by_cases hn : n < 0 <;> simp [ht, hn]
  · simp [ht]

theorem check_int_range_precision_float (T : DataModel) (vm : RubyVM)
    (type : upb_fieldtype_t) (d : double) :
    check_int_range_precision T vm type (.float d) =
      if dbl_ne (floor d) d = true ∨
          ((type = .UPB_TYPE_UINT32 ∨ type = .UPB_TYPE_UINT64) ∧ dbl_is_negative d = true) then
        .error .rb_eRangeError
      else .ok () := by
  simp only [check_int_range_precision, TYPE, if_true, NUM2DBL, dbl_lt_zero_eq]
  by_cases hf : dbl_ne (floor d) d = true
  · simp [hf]
  · by_cases ht : type = .UPB_TYPE_UINT32 ∨ type = .UPB_TYPE_UINT64
    · by_cases hn : dbl_is_negative d = true <;> simp [hf, ht, hn]
    · simp [hf, ht]

theorem dbl_trunc_negative (neg : Bool) (m : Nat) (e : Int) (z : Int)
    (hf : dbl_has_fraction (.finite neg m e) = false)
    (hz : dbl_trunc (.finite neg m e) = some z) :
    dbl_is_negative (.finite neg m e) = decide (z < 0) := by
  simp only [dbl_has_fraction, decide_eq_false_iff_not, not_and, not_not] at hf
  simp only [dbl_trunc, Option.some.injEq] at hz
  subst hz
  simp only [dbl_is_negative]
  rw [Bool.eq_iff_iff]
  simp only [Bool.and_eq_true, decide_eq_true_eq]
  cases neg
  · simp only [Bool.false_eq_true, false_and, if_false, false_iff, not_lt]
    exact Int.natCast_nonneg _
  · simp only [true_and, if_true, Left.neg_neg_iff, Int.natCast_pos]
    by_cases he : 0 ≤ e
    · rw [if_pos he]
      constructor
      · intro hm
        exact Nat.mul_pos (Nat.pos_of_ne_zero hm) (Nat.pos_pow_of_pos _ (by decide))
      · intro h hm
        subst hm
        simp at h
    · rw [if_neg he]
      have hmod := hf (by omega)
      have hp : 0 < 2 ^ (-e).toNat := Nat.pos_pow_of_pos _ (by decide)
      constructor
      · intro hm
        have hdm := Nat.div_add_mod m (2 ^ (-e).toNat)
        rw [hmod, Nat.add_zero] at hdm
        rcases Nat.eq_zero_or_pos (m / 2 ^ (-e).toNat) with h0 | h0
        · rw [h0, Nat.mul_zero] at hdm
          exact absurd hdm.symm hm
        · exact h0
      · intro h hm
        subst hm
        simp at h

theorem num2int_checked_integer (lo hi n : Int) :
    num2int_checked lo hi (.integer n) =
      if lo ≤ n ∧ n ≤ hi then .ok n else .error .rb_eRangeError := rfl

theorem num2int_checked_float (lo hi z : Int) (d : double) (hz : dbl_trunc d = some z) :
    num2int_checked lo hi (.float d) =
      if lo ≤ z ∧ z ≤ hi then .ok z else .error .rb_eRangeError := by
  simp [num2int_checked, hz]

/-! ## Slot codec: the claims about rejected and accepted numbers -/

theorem native_slot_set_int32_minus_one (T : DataModel) (vm : RubyVM) (type_class : VALUE)
    (memory : Nat) (st : Storage) :
    native_slot_set T vm .UPB_TYPE_INT32 type_class memory (.integer (-1)) st =
      .returned (store_signed st memory 4 (-1)) := by
  simp [native_slot_set, is_ruby_num_integer, check_int_range_precision_integer, NUM2INT,
    num2int_checked_integer]

/-- C7: for every integer field type and every Float with a non-zero
fractional part, `native_slot_set` raises `RangeError` (and leaves the storage
as it was). -/
theorem native_slot_set_fractional_float_raises (T : DataModel) (vm : RubyVM)
    (type : upb_fieldtype_t) (type_class : VALUE) (memory : Nat) (d : double) (st : Storage)
    (htype : type = .UPB_TYPE_INT32 ∨ type = .UPB_TYPE_INT64 ∨ type = .UPB_TYPE_UINT32 ∨
      type = .UPB_TYPE_UINT64)
    (hfrac : dbl_has_fraction d = true) :
    native_slot_set T vm type type_class memory (.float d) st =
      .raised .rb_eRangeError st := by
  have hne := floor_ne_of_has_fraction d hfrac
  rcases htype with rfl | rfl | rfl | rfl <;>
    simp [native_slot_set, is_ruby_num_float, check_int_range_precision_float, hne]

/-- Witness of C7: assigning 5.5 (that is `11 * 2^-1`) to an `int32` field. -/
theorem native_slot_set_fractional_float_raises_witness :
    native_slot_set .LP64 vm_empty
        .UPB_TYPE_INT32 .Qnil 0 (.float (.finite false 11 (-1))) st_fresh =
      .raised .rb_eRangeError st_fresh :=
  native_slot_set_fractional_float_raises .LP64 _ .UPB_TYPE_INT32 .Qnil 0
    (.finite false 11 (-1)) _ (Or.inl rfl) (by decide)

/-- C8: for every negative number, `native_slot_set` on a `uint32` or `uint64`
field raises `RangeError`; on an `int32` field the sign is no error: setting
`-1` returns, and the following `native_slot_get` yields `-1`. -/
theorem native_slot_set_negative_unsigned_raises (T : DataModel) (vm : RubyVM)
    (type_class : VALUE) (memory : Nat) (st : Storage) :
    (∀ (type : upb_fieldtype_t) (value : VALUE),
      type = .UPB_TYPE_UINT32 ∨ type = .UPB_TYPE_UINT64 →
      is_negative_num value = true →
      native_slot_set T vm type type_class memory value st = .raised .rb_eRangeError st) ∧
    (∃ st', native_slot_set T vm .UPB_TYPE_INT32 type_class memory (.integer (-1)) st =
        .returned st' ∧
      native_slot_get T vm .UPB_TYPE_INT32 type_class memory st' = some (.integer (-1))) := by
  refine ⟨?_, ⟨_, native_slot_set_int32_minus_one T vm type_class memory st, ?_⟩⟩
  · intro type value htype hneg
    cases value with
    | integer n =>
      have hn : n < 0 := by simpa [is_negative_num] using hneg
      rcases htype with rfl | rfl <;>
        simp [native_slot_set, is_ruby_num_integer, check_int_range_precision_integer, hn]
    | float d =>
      have hd : dbl_is_negative d = true := by simpa [is_negative_num] using hneg
      rcases htype with rfl | rfl <;>
        simp [native_slot_set, is_ruby_num_float, check_int_range_precision_float, hd]
    | Qfalse => simp [is_negative_num] at hneg
    | Qtrue => simp [is_negative_num] at hneg
    | Qnil => simp [is_negative_num] at hneg
    | symbol id => simp [is_negative_num] at hneg
    | object addr => simp [is_negative_num] at hneg
  · simp only [native_slot_get]
    rw [load_store_signed st memory 4 (-1) (by decide) (by decide) (by decide)]
    rfl

/-- Witness of C8: assigning `-1` to a `uint32` field. -/
theorem native_slot_set_negative_unsigned_raises_witness :
    native_slot_set .LP64 vm_empty
        .UPB_TYPE_UINT32 .Qnil 0 (.integer (-1)) st_fresh =
      .raised .rb_eRangeError st_fresh :=
  (native_slot_set_negative_unsigned_raises .LP64 _ .Qnil 0 _).1 .UPB_TYPE_UINT32
    (.integer (-1)) (Or.inl rfl) (by decide)

/-- C10: on a bool field `native_slot_set` returns exactly for the two boolean
literals, storing the byte 1 for `true` and 0 for `false`; for every other
value (numbers and `nil` included) it raises `TypeError`. -/
theorem native_slot_set_bool (T : DataModel) (vm : RubyVM) (type_class : VALUE)
    (memory : Nat) (value : VALUE) (st : Storage) :
    ((∃ st', native_slot_set T vm .UPB_TYPE_BOOL type_class memory value st = .returned st') ↔
      (value = .Qtrue ∨ value = .Qfalse)) ∧
    (value = .Qtrue →
      native_slot_set T vm .UPB_TYPE_BOOL type_class memory value st =
          .returned (store_signed st memory 1 1) ∧
        load_signed (store_signed st memory 1 1) memory 1 = some 1) ∧
    (value = .Qfalse →
      native_slot_set T vm .UPB_TYPE_BOOL type_class memory value st =
          .returned (store_signed st memory 1 0) ∧
        load_signed (store_signed st memory 1 0) memory 1 = some 0) ∧
    (value ≠ .Qtrue → value ≠ .Qfalse →
      native_slot_set T vm .UPB_TYPE_BOOL type_class memory value st =
        .raised .rb_eTypeError st) := by
  refine ⟨?_, ?_, ?_, ?_⟩
  · by_cases h1 : value = .Qtrue
    · simp [native_slot_set, h1]
    · by_cases h2 : value = .Qfalse
      · simp [native_slot_set, h2]
      · simp [native_slot_set, h1, h2]
  · intro h
    subst h
    exact ⟨by simp [native_slot_set],
      load_store_signed st memory 1 1 (by decide) (by decide) (by decide)⟩
  · intro h
    subst h
    exact ⟨by simp [native_slot_set],
      load_store_signed st memory 1 0 (by decide) (by decide) (by decide)⟩
  · intro h1 h2
    simp [native_slot_set, h1, h2]

/-- Witness of C10: the number 1 is no boolean literal. -/
theorem native_slot_set_bool_witness :
    native_slot_set .LP64 vm_empty
        .UPB_TYPE_BOOL .Qnil 0 (.integer 1) st_fresh =
      .raised .rb_eTypeError st_fresh :=
  (native_slot_set_bool .LP64 _ .Qnil 0 (.integer 1) _).2.2.2 (by decide) (by decide)

/-! ## Slot codec: integral values -/

theorem integral_value_float (d : double) (n : Int) (h : integral_value (.float d) = some n) :
    ∃ neg m e, d = .finite neg m e ∧ dbl_has_fraction d = false ∧ dbl_trunc d = some n := by
  simp only [integral_value] at h
  by_cases hf : dbl_has_fraction d = true
  · simp [hf] at h
  · simp only [hf, Bool.false_eq_true, if_false] at h
    cases d with
    | finite neg m e => exact ⟨neg, m, e, rfl, by simpa using hf, h⟩
    | infinity neg => simp [dbl_trunc] at h
    | nan => simp [dbl_trunc] at h

theorem integral_value_cases (value : VALUE) (n : Int) (h : integral_value value = some n) :
    value = .integer n ∨
      ∃ neg m e, value = .float (.finite neg m e) ∧
        dbl_has_fraction (.finite neg m e) = false ∧ dbl_trunc (.finite neg m e) = some n := by
  cases value with
  | integer k =>
    simp only [integral_value, Option.some.injEq] at h
    exact Or.inl (by rw [h])
  | float d =>
    obtain ⟨neg, m, e, rfl, h1, h2⟩ := integral_value_float d n h
    exact Or.inr ⟨neg, m, e, rfl, h1, h2⟩
  | Qfalse => simp [integral_value] at h
  | Qtrue => simp [integral_value] at h
  | Qnil => simp [integral_value] at h
  | symbol id => simp [integral_value] at h
  | object addr => simp [integral_value] at h

theorem is_ruby_num_integral (T : DataModel) (vm : RubyVM) (value : VALUE) (n : Int)
    (h : integral_value value = some n) : is_ruby_num T vm value = true := by
  rcases integral_value_cases value n h with rfl | ⟨neg, m, e, rfl, -, -⟩
  · exact is_ruby_num_integer T vm n
  · exact is_ruby_num_float T vm _

theorem check_int_range_precision_integral (T : DataModel) (vm : RubyVM)
    (type : upb_fieldtype_t) (value : VALUE) (n : Int) (h : integral_value value = some n) :
    check_int_range_precision T vm type value =
      if (type = .UPB_TYPE_UINT32 ∨ type = .UPB_TYPE_UINT64) ∧ n < 0 then
        .error .rb_eRangeError
      else .ok () := by
  rcases integral_value_cases value n h with rfl | ⟨neg, m, e, rfl, h1, h2⟩
  · exact check_int_range_precision_integer T vm type n
  · rw [check_int_range_precision_float, floor_eq_of_no_fraction neg m e h1,
      dbl_trunc_negative neg m e n h1 h2]
    simp

theorem num2int_checked_integral (lo hi : Int) (value : VALUE) (n : Int)
    (h : integral_value value = some n) :
    num2int_checked lo hi value =
      if lo ≤ n ∧ n ≤ hi then .ok n else .error .rb_eRangeError := by
  rcases integral_value_cases value n h with rfl | ⟨neg, m, e, rfl, -, h2⟩
  · rfl
  · exact num2int_checked_float lo hi n _ h2

theorem num2int_checked_ok_integral (T : DataModel) (vm : RubyVM) (type : upb_fieldtype_t)
    (lo hi : Int) (value : VALUE) (z : Int)
    (hnum : is_ruby_num T vm value = true)
    (hchk : check_int_range_precision T vm type value = .ok ())
    (hconv : num2int_checked lo hi value = .ok z) : integral_value value = some z := by
  rcases is_ruby_num_cases T vm value hnum with ⟨n, rfl⟩ | ⟨d, rfl⟩
  · simp only [num2int_checked] at hconv
    split at hconv
    · simp only [Except.ok.injEq] at hconv
      simp [integral_value, hconv]
    · cases hconv
  · have hf : dbl_has_fraction d = false := by
      by_contra hc
      have hc' : dbl_has_fraction d = true := by simpa using hc
      rw [check_int_range_precision_float, floor_ne_of_has_fraction d hc'] at hchk
      simp at hchk
    simp only [num2int_checked] at hconv
    cases ht : dbl_trunc d with
    | none => simp [ht] at hconv
    | some w =>
      simp only [ht] at hconv
      split at hconv
      · simp only [Except.ok.injEq] at hconv
        simp [integral_value, hf, ht, hconv]
      · cases hconv

theorem native_slot_set_int32_integral (T : DataModel) (vm : RubyVM) (type_class : VALUE)
    (memory : Nat) (value : VALUE) (st : Storage) (n : Int)
    (h : integral_value value = some n) :
    native_slot_set T vm .UPB_TYPE_INT32 type_class memory value st =
      if -(2 : Int) ^ 31 ≤ n ∧ n ≤ 2 ^ 31 - 1 then .returned (store_signed st memory 4 n)
      else .raised .rb_eRangeError st := by
  simp only [native_slot_set, is_ruby_num_integral T vm value n h,
    check_int_range_precision_integral T vm _ value n h, NUM2INT,
    num2int_checked_integral _ _ value n h]
  by_cases hr : -2147483648 ≤ n ∧ n ≤ 2147483647 <;> simp [hr]

theorem native_slot_set_int64_integral (T : DataModel) (vm : RubyVM) (type_class : VALUE)
    (memory : Nat) (value : VALUE) (st : Storage) (n : Int)
    (h : integral_value value = some n) :
    native_slot_set T vm .UPB_TYPE_INT64 type_class memory value st =
      if -(2 : Int) ^ 63 ≤ n ∧ n ≤ 2 ^ 63 - 1 then .returned (store_signed st memory 8 n)
      else .raised .rb_eRangeError st := by
  simp only [native_slot_set, is_ruby_num_integral T vm value n h,
    check_int_range_precision_integral T vm _ value n h, NUM2LL,
    num2int_checked_integral _ _ value n h]
  by_cases hr : -9223372036854775808 ≤ n ∧ n ≤ 9223372036854775807 <;> simp [hr]

theorem native_slot_set_uint32_integral (T : DataModel) (vm : RubyVM) (type_class : VALUE)
    (memory : Nat) (value : VALUE) (st : Storage) (n : Int)
    (h : integral_value value = some n) :
    native_slot_set T vm .UPB_TYPE_UINT32 type_class memory value st =
      if 0 ≤ n ∧ n ≤ 2 ^ 32 - 1 then .returned (store_unsigned st memory 4 n.toNat)
      else .raised .rb_eRangeError st := by
  simp only [native_slot_set, is_ruby_num_integral T vm value n h,
    check_int_range_precision_integral T vm _ value n h, NUM2UINT,
    num2int_checked_integral _ _ value n h]
  by_cases h0 : n < 0
  · have : ¬ (0 ≤ n ∧ n ≤ 4294967295) := by omega
    simp [h0, this]
  · by_cases h1 : n ≤ 4294967295
    · have h2 : -2147483648 ≤ n ∧ n ≤ 4294967295 := by omega
      have h3 : 0 ≤ n ∧ n ≤ 4294967295 := by omega
      have h4 : n % 4294967296 = n := Int.emod_eq_of_lt (by omega) (by omega)
      simp [h0, h2, h3, h4]
    · have h2 : ¬ (-2147483648 ≤ n ∧ n ≤ 4294967295) := by omega
      have h3 : ¬ (0 ≤ n ∧ n ≤ 4294967295) := by omega
      simp [h0, h2, h3]

theorem native_slot_set_uint64_integral (T : DataModel) (vm : RubyVM) (type_class : VALUE)
    (memory : Nat) (value : VALUE) (st : Storage) (n : Int)
    (h : integral_value value = some n) :
    native_slot_set T vm .UPB_TYPE_UINT64 type_class memory value st =
      if 0 ≤ n ∧ n ≤ 2 ^ 64 - 1 then .returned (store_unsigned st memory 8 n.toNat)
      else .raised .rb_eRangeError st := by
  simp only [native_slot_set, is_ruby_num_integral T vm value n h,
    check_int_range_precision_integral T vm _ value n h, NUM2ULL,
    num2int_checked_integral _ _ value n h]
  by_cases h0 : n < 0
  · have : ¬ (0 ≤ n ∧ n ≤ 18446744073709551615) := by omega
    simp [h0, this]
  · by_cases h1 : n ≤ 18446744073709551615
    · have h2 : -9223372036854775808 ≤ n ∧ n ≤ 18446744073709551615 := by omega
      have h3 : 0 ≤ n ∧ n ≤ 18446744073709551615 := by omega
      have h4 : n % 18446744073709551616 = n := Int.emod_eq_of_lt (by omega) (by omega)
      simp [h0, h2, h3, h4]
    · have h2 : ¬ (-9223372036854775808 ≤ n ∧ n ≤ 18446744073709551615) := by omega
      have h3 : ¬ (0 ≤ n ∧ n ≤ 18446744073709551615) := by omega
      simp [h0, h2, h3]

theorem uint_cast_roundtrip (n : Int) (k : Nat) (h0 : 0 ≤ n) (h1 : n < 2 ^ k) :
    ((n.toNat % 2 ^ k : Nat) : Int) = n := by
  have hlt : n.toNat < 2 ^ k := by
    have : (n.toNat : Int) < ((2 ^ k : Nat) : Int) := by
      rw [Int.toNat_of_nonneg h0]
      push_cast
      exact h1
    exact_mod_cast this
  rw [Nat.mod_eq_of_lt hlt, Int.toNat_of_nonneg h0]

theorem native_slot_int_roundtrip (T : DataModel) (vm : RubyVM) (type : upb_fieldtype_t)
    (type_class : VALUE) (memory : Nat) (value : VALUE) (st st' : Storage) (n : Int)
    (htype : type = .UPB_TYPE_INT32 ∨ type = .UPB_TYPE_INT64 ∨ type = .UPB_TYPE_UINT32 ∨
      type = .UPB_TYPE_UINT64)
    (hv : integral_value value = some n)
    (hset : native_slot_set T vm type type_class memory value st = .returned st') :
    native_slot_get T vm type type_class memory st' = some (.integer n) := by
  rcases htype with rfl | rfl | rfl | rfl
  · rw [native_slot_set_int32_integral T vm type_class memory value st n hv] at hset
    split at hset
    · rename_i hr
      simp only [Outcome.returned.injEq] at hset
      subst hset
      simp only [native_slot_get]
      rw [load_store_signed st memory 4 n (by decide) (by norm_num; omega) (by norm_num; omega)]
      rfl
    · cases hset
  · rw [native_slot_set_int64_integral T vm type_class memory value st n hv] at hset
    split at hset
    · rename_i hr
      simp only [Outcome.returned.injEq] at hset
      subst hset
      simp only [native_slot_get]
      rw [load_store_signed st memory 8 n (by decide) (by norm_num; omega) (by norm_num; omega)]
      rfl
    · cases hset
  · rw [native_slot_set_uint32_integral T vm type_class memory value st n hv] at hset
    split at hset
    · rename_i hr
      simp only [Outcome.returned.injEq] at hset
      subst hset
      simp only [native_slot_get]
      rw [load_store_unsigned]
      simp only [Option.map_some', UINT2NUM]
      rw [uint_cast_roundtrip n (8 * 4) hr.1 (by norm_num; omega)]
    · cases hset
  · rw [native_slot_set_uint64_integral T vm type_class memory value st n hv] at hset
    split at hset
    · rename_i hr
      simp only [Outcome.returned.injEq] at hset
      subst hset
      simp only [native_slot_get]
      rw [load_store_unsigned]
      simp only [Option.map_some', UINT2NUM]
      rw [uint_cast_roundtrip n (8 * 8) hr.1 (by norm_num; omega)]
    · cases hset

theorem native_slot_set_returned_integral (T : DataModel) (vm : RubyVM)
    (type : upb_fieldtype_t) (type_class : VALUE) (memory : Nat) (value : VALUE)
    (st st' : Storage)
    (htype : type = .UPB_TYPE_INT32 ∨ type = .UPB_TYPE_INT64 ∨ type = .UPB_TYPE_UINT32 ∨
      type = .UPB_TYPE_UINT64)
    (hset : native_slot_set T vm type type_class memory value st = .returned st') :
    ∃ n, integral_value value = some n := by
  by_cases hnum : is_ruby_num T vm value = true
  swap
  · rcases htype with rfl | rfl | rfl | rfl <;> simp [native_slot_set, hnum] at hset
  rcases htype with rfl | rfl | rfl | rfl
  · cases hchk : check_int_range_precision T vm .UPB_TYPE_INT32 value with
    | error e => simp [native_slot_set, hnum, hchk] at hset
    | ok u =>
      cases hconv : num2int_checked (-2147483648) 2147483647 value with
      | error e => simp [native_slot_set, hnum, hchk, NUM2INT, hconv] at hset
      | ok z => exact ⟨z, num2int_checked_ok_integral T vm _ _ _ value z hnum hchk hconv⟩
  · cases hchk : check_int_range_precision T vm .UPB_TYPE_INT64 value with
    | error e => simp [native_slot_set, hnum, hchk] at hset
    | ok u =>
      cases hconv : num2int_checked (-9223372036854775808) 9223372036854775807 value with
      | error e => simp [native_slot_set, hnum, hchk, NUM2LL, hconv] at hset
      | ok z => exact ⟨z, num2int_checked_ok_integral T vm _ _ _ value z hnum hchk hconv⟩
  · cases hchk : check_int_range_precision T vm .UPB_TYPE_UINT32 value with
    | error e => simp [native_slot_set, hnum, hchk] at hset
    | ok u =>
      cases hconv : num2int_checked (-2147483648) 4294967295 value with
      | error e => simp [native_slot_set, hnum, hchk, NUM2UINT, hconv] at hset
      | ok z => exact ⟨z, num2int_checked_ok_integral T vm _ _ _ value z hnum hchk hconv⟩
  · cases hchk : check_int_range_precision T vm .UPB_TYPE_UINT64 value with
    | error e => simp [native_slot_set, hnum, hchk] at hset
    | ok u =>
      cases hconv : num2int_checked (-9223372036854775808) 18446744073709551615 value with
      | error e => simp [native_slot_set, hnum, hchk, NUM2ULL, hconv] at hset
      | ok z => exact ⟨z, num2int_checked_ok_integral T vm _ _ _ value z hnum hchk hconv⟩

/-- C9: for every integer field type and every integral number (an Integer, or
a Float without fractional part) outside the type's representable range,
`native_slot_set` raises `RangeError` and stores nothing; for every integral
number inside the range it returns, and the slot then reads back that very
number. -/
theorem native_slot_set_int_range (T : DataModel) (vm : RubyVM) (type : upb_fieldtype_t)
    (type_class : VALUE) (memory : Nat) (value : VALUE) (st : Storage) (lo hi n : Int)
    (hr : int_type_range type = some (lo, hi)) (hv : integral_value value = some n) :
    ((n < lo ∨ hi < n) →
      native_slot_set T vm type type_class memory value st = .raised .rb_eRangeError st) ∧
    ((lo ≤ n ∧ n ≤ hi) →
      ∃ st', native_slot_set T vm type type_class memory value st = .returned st' ∧
        native_slot_get T vm type type_class memory st' = some (.integer n)) := by
  have key : ∀ (htype : type = .UPB_TYPE_INT32 ∨ type = .UPB_TYPE_INT64 ∨
      type = .UPB_TYPE_UINT32 ∨ type = .UPB_TYPE_UINT64) (st' : Storage),
      native_slot_set T vm type type_class memory value st = .returned st' →
      ∃ st', native_slot_set T vm type type_class memory value st = .returned st' ∧
        native_slot_get T vm type type_class memory st' = some (.integer n) :=
    fun htype st' h =>
      ⟨st', h, native_slot_int_roundtrip T vm type type_class memory value st st' n htype hv h⟩
  cases type <;> simp only [int_type_range] at hr <;> cases hr
  · have e := native_slot_set_int32_integral T vm type_class memory value st n hv
    refine ⟨fun h => ?_, fun h => ?_⟩
    · rw [e, if_neg (by omega)]
    · exact key (Or.inl rfl) _ (by rw [e, if_pos h])
  · have e := native_slot_set_uint32_integral T vm type_class memory value st n hv
    refine ⟨fun h => ?_, fun h => ?_⟩
    · rw [e, if_neg (by omega)]
    · exact key (Or.inr (Or.inr (Or.inl rfl))) _ (by rw [e, if_pos h])
  · have e := native_slot_set_int64_integral T vm type_class memory value st n hv
    refine ⟨fun h => ?_, fun h => ?_⟩
    · rw [e, if_neg (by omega)]
    · exact key (Or.inr (Or.inl rfl)) _ (by rw [e, if_pos h])
  · have e := native_slot_set_uint64_integral T vm type_class memory value st n hv
    refine ⟨fun h => ?_, fun h => ?_⟩
    · rw [e, if_neg (by omega)]
    · exact key (Or.inr (Or.inr (Or.inr rfl))) _ (by rw [e, if_pos h])

/-- Witness of C9: `2^32` does not fit a `uint32` field. -/
theorem native_slot_set_int_range_witness :
    native_slot_set .LP64 vm_empty
        .UPB_TYPE_UINT32 .Qnil 0 (.integer 4294967296) st_fresh =
      .raised .rb_eRangeError st_fresh :=
  (native_slot_set_int_range .LP64 _ .UPB_TYPE_UINT32 .Qnil 0 (.integer 4294967296) _
    0 (2 ^ 32 - 1) 4294967296 rfl rfl).1 (by decide)

/-- C4: when `native_slot_set` accepts a value for a bool, string, bytes,
message or integer field, `native_slot_get` on the same slot returns a value
equal to it: the identical `VALUE` (the same reference) for bool, string,
bytes and message fields, and for an integer field the Integer `n` that the
value denotes, also when it was given as a Float without fractional part. -/
theorem native_slot_set_get_roundtrip (T : DataModel) (vm : RubyVM) (type : upb_fieldtype_t)
    (type_class : VALUE) (memory : Nat) (value : VALUE) (st st' : Storage)
    (hset : native_slot_set T vm type type_class memory value st = .returned st') :
    ((type = .UPB_TYPE_BOOL ∨ type = .UPB_TYPE_STRING ∨ type = .UPB_TYPE_BYTES ∨
        type = .UPB_TYPE_MESSAGE) →
      native_slot_get T vm type type_class memory st' = some value) ∧
    ((type = .UPB_TYPE_INT32 ∨ type = .UPB_TYPE_INT64 ∨ type = .UPB_TYPE_UINT32 ∨
        type = .UPB_TYPE_UINT64) →
      ∃ n, integral_value value = some n ∧
        native_slot_get T vm type type_class memory st' = some (.integer n)) := by
  refine ⟨fun htype => ?_, fun htype => ?_⟩
  · rcases htype with rfl | rfl | rfl | rfl
    · simp only [native_slot_set] at hset
      split at hset
      · rename_i hv
        simp only [Outcome.returned.injEq] at hset
        subst hset hv
        simp only [native_slot_get]
        rw [load_store_signed st memory 1 1 (by decide) (by decide) (by decide)]
        rfl
      · split at hset
        · rename_i hv
          simp only [Outcome.returned.injEq] at hset
          subst hset hv
          simp only [native_slot_get]
          rw [load_store_signed st memory 1 0 (by decide) (by decide) (by decide)]
          rfl
        · cases hset
    · simp only [native_slot_set] at hset
      split at hset
      · cases hset
      · simp only [Outcome.returned.injEq] at hset
        subst hset
        exact load_store_VALUE T st memory value
    · simp only [native_slot_set] at hset
      split at hset
      · cases hset
      · simp only [Outcome.returned.injEq] at hset
        subst hset
        exact load_store_VALUE T st memory value
    · simp only [native_slot_set] at hset
      split at hset
      · cases hset
      · simp only [Outcome.returned.injEq] at hset
        subst hset
        exact load_store_VALUE T st memory value
  · obtain ⟨n, hn⟩ :=
      native_slot_set_returned_integral T vm type type_class memory value st st' htype hset
    exact ⟨n, hn,
      native_slot_int_roundtrip T vm type type_class memory value st st' n htype hn hset⟩

/-- Witness of C4: the Float `7.0` assigned to an `int64` field reads back as
the Integer 7. -/
theorem native_slot_set_get_roundtrip_witness :
    ∃ n, integral_value (.float (.finite false 7 0)) = some n ∧
      native_slot_get .LP64 vm_empty
          .UPB_TYPE_INT64 .Qnil 0
          (store_signed st_fresh 0 8 7) = some (.integer n) :=
  (native_slot_set_get_roundtrip .LP64 vm_empty
    .UPB_TYPE_INT64 .Qnil 0 (.float (.finite false 7 0)) st_fresh
    (store_signed st_fresh 0 8 7)
    (by
      rw [native_slot_set_int64_integral _ _ _ _ _ _ 7 (by decide), if_pos (by decide)])).2 (Or.inr (Or.inl rfl))

/-! ## Rejected writes -/

theorem native_slot_set_raised (T : DataModel) (vm : RubyVM) (type : upb_fieldtype_t)
    (type_class : VALUE) (memory : Nat) (value : VALUE) (st st' : Storage)
    (e : ruby_exception)
    (h : native_slot_set T vm type type_class memory value st = .raised e st') : st' = st := by
  cases type <;> simp only [native_slot_set] at h <;> (repeat' split at h) <;> cases h <;> rfl

/-- C5: a rejected write is atomic. If `native_slot_set` raises for a slot, or
`layout_set` raises for a field (singular of any type, or repeated), the
storage it leaves behind is the storage it was given, so the following get
returns what a get returned before. -/
theorem rejected_set_leaves_storage (T : DataModel) (vm : RubyVM) (layout : MessageLayout)
    (storage : Nat) (field : upb_fielddef) (type : upb_fieldtype_t) (type_class : VALUE)
    (memory : Nat) (value : VALUE) (st : Storage) :
    (∀ e st', native_slot_set T vm type type_class memory value st = .raised e st' →
      st' = st ∧
        native_slot_get T vm type type_class memory st' =
          native_slot_get T vm type type_class memory st) ∧
    (∀ e st', layout_set T vm layout storage field value st = .raised e st' →
      st' = st ∧
        layout_get T vm layout storage field st' = layout_get T vm layout storage field st) := by
  refine ⟨fun e st' h => ?_, fun e st' h => ?_⟩
  · have := native_slot_set_raised T vm type type_class memory value st st' e h
    subst this
    exact ⟨rfl, rfl⟩
  · have hst : st' = st := by
      unfold layout_set at h
      simp only at h
      split at h
      · split at h
        · cases h
          rfl
        · cases h
      · exact native_slot_set_raised T vm _ _ _ value st st' e h
    subst hst
    exact ⟨rfl, rfl⟩

/-- Witness of C5: the rejected assignment of the number 1 to a bool slot that
holds `true` leaves the slot as it was. -/
theorem rejected_set_leaves_storage_witness :
    store_signed st_fresh 16 1 1 = store_signed st_fresh 16 1 1 ∧
      native_slot_get .LP64 vm_empty .UPB_TYPE_BOOL .Qnil 16 (store_signed st_fresh 16 1 1) =
        native_slot_get .LP64 vm_empty .UPB_TYPE_BOOL .Qnil 16
          (store_signed st_fresh 16 1 1) :=
  (rejected_set_leaves_storage .LP64 vm_empty (create_layout .LP64 msgdef_person) 0
    (mk_field "active" UPB_TYPE_BOOL 2) .UPB_TYPE_BOOL .Qnil 16 (.integer 1)
    (store_signed st_fresh 16 1 1)).1 .rb_eTypeError _ rfl

/-! ## Initialisation of a storage buffer -/

theorem layout_init_field_storage (T : DataModel) (layout : MessageLayout) (storage : Nat)
    (s : RubyVM × Storage) (f : upb_fielddef) :
    ∃ cells, cells.length = field_size T f ∧
      (layout_init_field T layout storage s f).2 =
        store_cells s.2 (storage + layout_offset layout f) cells := by
  unfold layout_init_field field_size
  by_cases hl : f.label = .UPB_LABEL_REPEATED
  · simp only [hl, if_true]
    exact ⟨_, encode_VALUE_length T _, rfl⟩
  · simp only [hl, if_false]
    cases f.type
    case neg.UPB_TYPE_STRING => exact ⟨_, encode_VALUE_length T _, rfl⟩
    case neg.UPB_TYPE_BYTES => exact ⟨_, encode_VALUE_length T _, rfl⟩
    case neg.UPB_TYPE_MESSAGE => exact ⟨_, encode_VALUE_length T _, rfl⟩
    all_goals exact ⟨_, encode_int_length _ _, rfl⟩

theorem layout_init_field_heap (T : DataModel) (layout : MessageLayout) (storage : Nat)
    (s : RubyVM × Storage) (f : upb_fielddef) :
    ∃ new, (layout_init_field T layout storage s f).1.heap = s.1.heap ++ new := by
  unfold layout_init_field
  by_cases hl : f.label = .UPB_LABEL_REPEATED
  · simp only [hl, if_true]
    by_cases hc : get_type_class s.1 f ≠ .Qnil
    · rw [if_pos hc]
      exact ⟨_, rfl⟩
    · rw [if_neg hc]
      exact ⟨_, rfl⟩
  · simp only [hl, if_false]
    cases f.type
    case neg.UPB_TYPE_STRING => exact ⟨_, rfl⟩
    case neg.UPB_TYPE_BYTES => exact ⟨_, rfl⟩
    all_goals exact ⟨[], by simp [native_slot_init]⟩

theorem layout_init_fold_frame (T : DataModel) (layout : MessageLayout) (storage : Nat) :
    ∀ (l : List upb_fielddef) (s : RubyVM × Storage) (a : Nat),
      (∀ g ∈ l, a < storage + layout_offset layout g ∨
        storage + layout_offset layout g + field_size T g ≤ a) →
      (l.foldl (layout_init_field T layout storage) s).2 a = s.2 a := by
  intro l
  induction l with
  | nil => intro s a _; rfl
  | cons g rest ih =>
    intro s a h
    rw [List.foldl_cons, ih _ a (fun k hk => h k (List.mem_cons_of_mem _ hk))]
    obtain ⟨cells, hlen, heq⟩ := layout_init_field_storage T layout storage s g
    rw [heq]
    apply store_cells_outside
    rw [hlen]
    exact h g (List.mem_cons_self _ _)

theorem layout_init_fold_heap (T : DataModel) (layout : MessageLayout) (storage : Nat) :
    ∀ (l : List upb_fielddef) (s : RubyVM × Storage),
      ∃ new, (l.foldl (layout_init_field T layout storage) s).1.heap = s.1.heap ++ new := by
  intro l
  induction l with
  | nil => intro s; exact ⟨[], by simp⟩
  | cons g rest ih =>
    intro s
    obtain ⟨new2, h2⟩ := ih (layout_init_field T layout storage s g)
    obtain ⟨new1, h1⟩ := layout_init_field_heap T layout storage s g
    refine ⟨new1 ++ new2, ?_⟩
    rw [List.foldl_cons, h2, h1, List.append_assoc]

theorem layout_init_fold_slot (T : DataModel) (layout : MessageLayout) (storage : Nat) :
    ∀ (l : List upb_fielddef),
      l.Pairwise (fun f g =>
        layout_offset layout f + field_size T f ≤ layout_offset layout g) →
      ∀ (s : RubyVM × Storage) (f : upb_fielddef), f ∈ l →
      ∃ s0 : RubyVM × Storage,
        (∀ a, storage + layout_offset layout f ≤ a →
          a < storage + layout_offset layout f + field_size T f →
          (l.foldl (layout_init_field T layout storage) s).2 a =
            (layout_init_field T layout storage s0 f).2 a) ∧
        ∃ new, (l.foldl (layout_init_field T layout storage) s).1.heap =
          (layout_init_field T layout storage s0 f).1.heap ++ new := by
  intro l
  induction l with
  | nil => intro _ s f hf; simp at hf
  | cons g rest ih =>
    intro hpw s f hf
    rw [List.pairwise_cons] at hpw
    rcases List.mem_cons.mp hf with rfl | hmem
    · refine ⟨s, fun a h1 h2 => ?_, ?_⟩
      · rw [List.foldl_cons]
        apply layout_init_fold_frame
        intro k hk
        have := hpw.1 k hk
        omega
      · rw [List.foldl_cons]
        exact layout_init_fold_heap T layout storage rest _
    · rw [List.foldl_cons]
      exact ih hpw.2 _ f hmem

theorem load_signed_congr (st1 st2 : Storage) (memory n : Nat)
    (h : ∀ a, memory ≤ a → a < memory + n → st1 a = st2 a) :
    load_signed st1 memory n = load_signed st2 memory n := by
  unfold load_signed
  rw [load_cells_congr st1 st2 memory n h]

theorem load_unsigned_congr (st1 st2 : Storage) (memory n : Nat)
    (h : ∀ a, memory ≤ a → a < memory + n → st1 a = st2 a) :
    load_unsigned st1 memory n = load_unsigned st2 memory n := by
  unfold load_unsigned
  rw [load_cells_congr st1 st2 memory n h]

theorem load_VALUE_congr (T : DataModel) (st1 st2 : Storage) (memory : Nat)
    (h : ∀ a, memory ≤ a → a < memory + sizeof_VALUE T → st1 a = st2 a) :
    load_VALUE T st1 memory = load_VALUE T st2 memory := by
  unfold load_VALUE
  have hp := sizeof_VALUE_pos T
  rw [load_cells_congr st1 st2 memory _ h, h memory (le_refl _) (by omega)]

theorem create_layout_slots_ordered (T : DataModel) (m : upb_msgdef) :
    m.fields.Pairwise (fun f g =>
      layout_offset (create_layout T m) f + field_size T f ≤
        layout_offset (create_layout T m) g) :=
  (spec_layout_geometry T m.fields 0 _ (create_layout_eq_spec T m).1).1

theorem load_float_zero (st st2 : Storage) (mem : Nat)
    (hcells : ∀ a, mem ≤ a → a < mem + 4 →
      st2 a = (store_float st mem (.finite false 0 0)) a) :
    load_float st2 mem = some (.finite false 0 (-149)) := by
  unfold load_float
  rw [load_cells_congr _ _ mem 4 hcells]
  unfold store_float
  have h := load_store_cells st mem (encode_int 4 (ieee_encode 8 23 (.finite false 0 0)))
  rw [encode_int_length] at h
  rw [h, decode_encode_int]
  decide

theorem load_double_zero (st st2 : Storage) (mem : Nat)
    (hcells : ∀ a, mem ≤ a → a < mem + 8 →
      st2 a = (store_double st mem (.finite false 0 0)) a) :
    load_double st2 mem = some (.finite false 0 (-1074)) := by
  unfold load_double
  rw [load_cells_congr _ _ mem 8 hcells]
  unfold store_double
  have h := load_store_cells st mem (encode_int 8 (ieee_encode 11 52 (.finite false 0 0)))
  rw [encode_int_length] at h
  rw [h, decode_encode_int]
  decide

/-- C6: after `layout_init`, every singular field of the schema, of each of the
eleven types, reads back its type's zero value through `layout_get`: the
Integer 0 for int32/int64/uint32/uint64, `false` for bool, a String object with
no bytes for string/bytes, and `nil` for a message field, whose initialisation
allocates no object (no submessage is created); the Float `+0.0` (positive
sign, mantissa 0) for float and double; and for an enum field the number 0,
read as the symbol that the enum module declares for 0 and as the Integer 0
when it declares none. -/
theorem layout_init_reads_zero (T : DataModel) (m : upb_msgdef) (storage : Nat)
    (vm : RubyVM) (st : Storage) (f : upb_fielddef) (hf : f ∈ m.fields)
    (hs : f.label ≠ .UPB_LABEL_REPEATED) :
    ((f.type = .UPB_TYPE_INT32 ∨ f.type = .UPB_TYPE_INT64 ∨ f.type = .UPB_TYPE_UINT32 ∨
        f.type = .UPB_TYPE_UINT64) →
      layout_get T (layout_init T (create_layout T m) storage (vm, st)).1 (create_layout T m)
          storage f (layout_init T (create_layout T m) storage (vm, st)).2 =
        some (.integer 0)) ∧
    (f.type = .UPB_TYPE_BOOL →
      layout_get T (layout_init T (create_layout T m) storage (vm, st)).1 (create_layout T m)
          storage f (layout_init T (create_layout T m) storage (vm, st)).2 =
        some .Qfalse) ∧
    ((f.type = .UPB_TYPE_STRING ∨ f.type = .UPB_TYPE_BYTES) →
      ∃ addr,
        layout_get T (layout_init T (create_layout T m) storage (vm, st)).1 (create_layout T m)
            storage f (layout_init T (create_layout T m) storage (vm, st)).2 =
          some (.object addr) ∧
        (layout_init T (create_layout T m) storage (vm, st)).1.heap[addr]? =
          some { klass := rb_cString, body := .string [] }) ∧
    (f.type = .UPB_TYPE_MESSAGE →
      layout_get T (layout_init T (create_layout T m) storage (vm, st)).1 (create_layout T m)
          storage f (layout_init T (create_layout T m) storage (vm, st)).2 =
        some .Qnil ∧
      ∀ s, (layout_init_field T (create_layout T m) storage s f).1 = s.1) ∧
    (f.type = .UPB_TYPE_FLOAT →
      layout_get T (layout_init T (create_layout T m) storage (vm, st)).1 (create_layout T m)
          storage f (layout_init T (create_layout T m) storage (vm, st)).2 =
        some (.float (.finite false 0 (-149)))) ∧
    (f.type = .UPB_TYPE_DOUBLE →
      layout_get T (layout_init T (create_layout T m) storage (vm, st)).1 (create_layout T m)
          storage f (layout_init T (create_layout T m) storage (vm, st)).2 =
        some (.float (.finite false 0 (-1074)))) ∧
    (f.type = .UPB_TYPE_ENUM →
      layout_get T (layout_init T (create_layout T m) storage (vm, st)).1 (create_layout T m)
          storage f (layout_init T (create_layout T m) storage (vm, st)).2 =
        some
          (if enum_lookup (layout_init T (create_layout T m) storage (vm, st)).1
              (get_type_class (layout_init T (create_layout T m) storage (vm, st)).1 f)
              (.integer 0) = .Qnil then .integer 0
          else
            enum_lookup (layout_init T (create_layout T m) storage (vm, st)).1
              (get_type_class (layout_init T (create_layout T m) storage (vm, st)).1 f)
              (.integer 0))) := by
  obtain ⟨s0, hcells, new, hheap⟩ :=
    layout_init_fold_slot T (create_layout T m) storage m.fields
      (create_layout_slots_ordered T m) (vm, st) f hf
  have hfold : layout_init T (create_layout T m) storage (vm, st) =
      m.fields.foldl (layout_init_field T (create_layout T m) storage) (vm, st) := rfl
  rw [hfold]
  generalize m.fields.foldl (layout_init_field T (create_layout T m) storage) (vm, st) = sf
    at hcells hheap ⊢
  have hsize : field_size T f = native_slot_size T f.type := by
    simp [field_size, hs]
  have hinit : layout_init_field T (create_layout T m) storage s0 f =
      native_slot_init T f.type (storage + layout_offset (create_layout T m) f) s0 := by
    simp [layout_init_field, hs]
  rw [hsize, hinit] at hcells
  rw [hinit] at hheap
  simp only [layout_get, if_neg hs]
  generalize storage + layout_offset (create_layout T m) f = mem at hcells hheap ⊢
  refine ⟨fun ht => ?_, fun ht => ?_, fun ht => ?_, fun ht => ?_, fun ht => ?_, fun ht => ?_,
    fun ht => ?_⟩
  · rcases ht with ht | ht | ht | ht <;> rw [ht] at hcells ⊢ <;>
      simp only [native_slot_get, native_slot_size, native_slot_init] at hcells ⊢
    · rw [load_signed_congr _ _ mem 4 hcells,
        load_store_signed _ mem 4 0 (by decide) (by decide) (by decide)]
      rfl
    · rw [load_signed_congr _ _ mem 8 hcells,
        load_store_signed _ mem 8 0 (by decide) (by decide) (by decide)]
      rfl
    · rw [load_unsigned_congr _ _ mem 4 hcells, load_store_unsigned]
      rfl
    · rw [load_unsigned_congr _ _ mem 8 hcells, load_store_unsigned]
      rfl
  · rw [ht] at hcells ⊢
    simp only [native_slot_get, native_slot_size, native_slot_init] at hcells ⊢
    rw [load_signed_congr _ _ mem 1 hcells,
      load_store_signed _ mem 1 0 (by decide) (by decide) (by decide)]
    rfl
  · have hstr : (native_slot_init T f.type mem s0).2 =
          store_VALUE T s0.2 mem (.object s0.1.heap.length) ∧
        (native_slot_init T f.type mem s0).1.heap =
          s0.1.heap ++ [{ klass := rb_cString, body := .string [] }] ∧
        native_slot_get T sf.1 f.type (get_type_class sf.1 f) mem sf.2 =
          load_VALUE T sf.2 mem ∧
        native_slot_size T f.type = sizeof_VALUE T := by
      rcases ht with ht | ht <;> rw [ht] <;> exact ⟨rfl, rfl, rfl, rfl⟩
    obtain ⟨h1, h2, h3, h4⟩ := hstr
    rw [h4, h1] at hcells
    rw [h2] at hheap
    refine ⟨s0.1.heap.length, ?_, ?_⟩
    · rw [h3, load_VALUE_congr T _ _ mem hcells, load_store_VALUE]
    · rw [hheap, List.append_assoc, List.getElem?_append_right (le_refl _)]
      simp
  · refine ⟨?_, fun s => by simp [layout_init_field, hs, ht, native_slot_init]⟩
    rw [ht] at hcells ⊢
    simp only [native_slot_get, native_slot_size, native_slot_init] at hcells ⊢
    rw [load_VALUE_congr T _ _ mem hcells, load_store_VALUE]
  · rw [ht] at hcells ⊢
    simp only [native_slot_get, native_slot_size, native_slot_init] at hcells ⊢
    rw [load_float_zero s0.2 sf.2 mem hcells]
    rfl
  · rw [ht] at hcells ⊢
    simp only [native_slot_get, native_slot_size, native_slot_init] at hcells ⊢
    rw [load_double_zero s0.2 sf.2 mem hcells]
    rfl
  · rw [ht] at hcells ⊢
    simp only [native_slot_get, native_slot_size, native_slot_init] at hcells ⊢
    rw [load_signed_congr _ _ mem 4 hcells,
      load_store_signed _ mem 4 0 (by decide) (by decide) (by decide)]
    rfl

/-- Witness of C6 on the schema `{name: string, age: int32, active: bool}`:
after `layout_init` the reads are the Integer 0 for `age`, `false` for
`active` and an empty String for `name`; and on the schema
`{ratio: float, weight: double, color: enum}` with the enum `{RED: 0, GREEN: 1}`
they are `+0.0` for `ratio` and `weight` and the symbol `:RED` for `color`. -/
theorem layout_init_reads_zero_witness :
    layout_get .LP64 (layout_init .LP64 (create_layout .LP64 msgdef_person) 0
          (vm_empty, st_fresh)).1 (create_layout .LP64 msgdef_person) 0
        (mk_field "age" UPB_TYPE_INT32 1)
        (layout_init .LP64 (create_layout .LP64 msgdef_person) 0 (vm_empty, st_fresh)).2 =
      some (.integer 0) ∧
    layout_get .LP64 (layout_init .LP64 (create_layout .LP64 msgdef_person) 0
          (vm_empty, st_fresh)).1 (create_layout .LP64 msgdef_person) 0
        (mk_field "active" UPB_TYPE_BOOL 2)
        (layout_init .LP64 (create_layout .LP64 msgdef_person) 0 (vm_empty, st_fresh)).2 =
      some .Qfalse ∧
    (∃ addr,
      layout_get .LP64 (layout_init .LP64 (create_layout .LP64 msgdef_person) 0
            (vm_empty, st_fresh)).1 (create_layout .LP64 msgdef_person) 0
          (mk_field "name" UPB_TYPE_STRING 0)
          (layout_init .LP64 (create_layout .LP64 msgdef_person) 0 (vm_empty, st_fresh)).2 =
        some (.object addr) ∧
      (layout_init .LP64 (create_layout .LP64 msgdef_person) 0
          (vm_empty, st_fresh)).1.heap[addr]? =
        some { klass := rb_cString, body := .string [] }) ∧
    layout_get .LP64 (layout_init .LP64 (create_layout .LP64 msgdef_scalars) 0
          (vm_color, st_fresh)).1 (create_layout .LP64 msgdef_scalars) 0
        (mk_field "ratio" UPB_TYPE_FLOAT 0)
        (layout_init .LP64 (create_layout .LP64 msgdef_scalars) 0 (vm_color, st_fresh)).2 =
      some (.float (.finite false 0 (-149))) ∧
    layout_get .LP64 (layout_init .LP64 (create_layout .LP64 msgdef_scalars) 0
          (vm_color, st_fresh)).1 (create_layout .LP64 msgdef_scalars) 0
        (mk_field "weight" UPB_TYPE_DOUBLE 1)
        (layout_init .LP64 (create_layout .LP64 msgdef_scalars) 0 (vm_color, st_fresh)).2 =
      some (.float (.finite false 0 (-1074))) ∧
    layout_get .LP64 (layout_init .LP64 (create_layout .LP64 msgdef_scalars) 0
          (vm_color, st_fresh)).1 (create_layout .LP64 msgdef_scalars) 0
        (mk_field "color" UPB_TYPE_ENUM 2)
        (layout_init .LP64 (create_layout .LP64 msgdef_scalars) 0 (vm_color, st_fresh)).2 =
      some (.symbol id_RED) :=
  ⟨(layout_init_reads_zero .LP64 msgdef_person 0 vm_empty st_fresh
      (mk_field "age" UPB_TYPE_INT32 1) (by decide) (by decide)).1 (Or.inl rfl),
    (layout_init_reads_zero .LP64 msgdef_person 0 vm_empty st_fresh
      (mk_field "active" UPB_TYPE_BOOL 2) (by decide) (by decide)).2.1 rfl,
    (layout_init_reads_zero .LP64 msgdef_person 0 vm_empty st_fresh
      (mk_field "name" UPB_TYPE_STRING 0) (by decide) (by decide)).2.2.1 (Or.inl rfl),
    (layout_init_reads_zero .LP64 msgdef_scalars 0 vm_color st_fresh
      (mk_field "ratio" UPB_TYPE_FLOAT 0) (by decide) (by decide)).2.2.2.2.1 rfl,
    (layout_init_reads_zero .LP64 msgdef_scalars 0 vm_color st_fresh
      (mk_field "weight" UPB_TYPE_DOUBLE 1) (by decide) (by decide)).2.2.2.2.2.1 rfl,
    ((layout_init_reads_zero .LP64 msgdef_scalars 0 vm_color st_fresh
      (mk_field "color" UPB_TYPE_ENUM 2) (by decide) (by decide)).2.2.2.2.2.2 rfl).trans
      (by decide)⟩

/-! ## Slot codec: message and enum fields -/

/-- C11: on a message field with type-handle `type_class`, `native_slot_set`
returns exactly when the runtime class of the value is that very class, and
then stores the reference; every value of another class (an instance of a
subclass or of another message class alike) raises `TypeError`, and so does
`nil`, a message class not being `NilClass`. -/
theorem native_slot_set_message (T : DataModel) (vm : RubyVM) (type_class : VALUE)
    (memory : Nat) (value : VALUE) (st : Storage) :
    ((∃ st', native_slot_set T vm .UPB_TYPE_MESSAGE type_class memory value st =
        .returned st') ↔ CLASS_OF T vm value = type_class) ∧
    (CLASS_OF T vm value = type_class →
      native_slot_set T vm .UPB_TYPE_MESSAGE type_class memory value st =
        .returned (store_VALUE T st memory value)) ∧
    (CLASS_OF T vm value ≠ type_class →
      native_slot_set T vm .UPB_TYPE_MESSAGE type_class memory value st =
        .raised .rb_eTypeError st) ∧
    (type_class ≠ rb_cNilClass →
      native_slot_set T vm .UPB_TYPE_MESSAGE type_class memory .Qnil st =
        .raised .rb_eTypeError st) := by
  refine ⟨?_, ?_, ?_, ?_⟩
  · by_cases h : CLASS_OF T vm value = type_class <;> simp [native_slot_set, h]
  · intro h
    simp [native_slot_set, h]
  · intro h
    simp [native_slot_set, h]
  · intro h
    have : CLASS_OF T vm .Qnil ≠ type_class := by
      simpa [CLASS_OF] using Ne.symm h
    simp [native_slot_set, this]

/-- Witness of C11: with the message class at address 11 as type-handle, an
instance of the class at address 13 is rejected, and so is `nil`. -/
theorem native_slot_set_message_witness :
    native_slot_set .LP64 vm_submsg .UPB_TYPE_MESSAGE (.object 11) 0 (.object 14) st_fresh =
        .raised .rb_eTypeError st_fresh ∧
      native_slot_set .LP64 vm_submsg .UPB_TYPE_MESSAGE (.object 11) 0 .Qnil st_fresh =
        .raised .rb_eTypeError st_fresh :=
  ⟨(native_slot_set_message .LP64 vm_submsg (.object 11) 0 (.object 14) st_fresh).2.2.1
      (by decide),
    (native_slot_set_message .LP64 vm_submsg (.object 11) 0 .Qnil st_fresh).2.2.2
      (by decide)⟩

/-- C12, at a failing input: with the symbol table `{RED: 0, GREEN: 1}`, the
name `:String` is not in the table, yet `native_slot_set` does not raise a
lookup error: `rb_const_get` finds the top-level constant `String`, and the
code raises `TypeError`. The name `:BLUE`, which is no constant anywhere,
raises `NameError`, and `:RED` is stored as 0. -/
theorem native_slot_set_enum_toplevel_name :
    native_slot_set .LP64 vm_color .UPB_TYPE_ENUM color_module 0 (.symbol id_String) st_fresh =
        .raised .rb_eTypeError st_fresh ∧
      native_slot_set .LP64 vm_color .UPB_TYPE_ENUM color_module 0 (.symbol id_BLUE) st_fresh =
        .raised .rb_eNameError st_fresh ∧
      native_slot_set .LP64 vm_color .UPB_TYPE_ENUM color_module 0 (.symbol id_RED) st_fresh =
        .returned (store_signed st_fresh 0 4 0) :=
  ⟨rfl, rfl, rfl⟩

theorem native_slot_set_enum_integer (T : DataModel) (vm : RubyVM) (type_class : VALUE)
    (memory : Nat) (n : Int) (st : Storage) :
    native_slot_set T vm .UPB_TYPE_ENUM type_class memory (.integer n) st =
      if -(2 : Int) ^ 31 ≤ n ∧ n ≤ 2 ^ 31 - 1 then .returned (store_signed st memory 4 n)
      else .raised .rb_eRangeError st := by
  simp only [native_slot_set, is_ruby_num_integer, check_int_range_precision_integer, NUM2INT,
    num2int_checked_integer]
  have h1 := TYPE_integer_ne_symbol T vm n
  by_cases hr : -2147483648 ≤ n ∧ n ≤ 2147483647 <;> simp [hr, h1]

/-- C13, as stated, fails: the Integer `2^31` assigned to an enum field raises
`RangeError`, whatever the symbol table. -/
theorem native_slot_set_enum_out_of_range :
    native_slot_set .LP64 vm_color .UPB_TYPE_ENUM color_module 0 (.integer 2147483648)
        st_fresh =
      .raised .rb_eRangeError st_fresh :=
  rfl

/-- C13, amended: an enum field is open within the 32 bits of its slot. For
every enum field and every Integer `n` from `-2^31` to `2^31 - 1`, whether or
not `n` is the number of a declared symbol, `native_slot_set` returns and the
slot holds `n`; an Integer outside that range raises `RangeError`. -/
theorem native_slot_set_enum_open (T : DataModel) (vm : RubyVM) (type_class : VALUE)
    (memory : Nat) (n : Int) (st : Storage) :
    ((-(2 : Int) ^ 31 ≤ n ∧ n ≤ 2 ^ 31 - 1) →
      native_slot_set T vm .UPB_TYPE_ENUM type_class memory (.integer n) st =
          .returned (store_signed st memory 4 n) ∧
        load_signed (store_signed st memory 4 n) memory 4 = some n) ∧
    ((n < -(2 : Int) ^ 31 ∨ 2 ^ 31 - 1 < n) →
      native_slot_set T vm .UPB_TYPE_ENUM type_class memory (.integer n) st =
        .raised .rb_eRangeError st) := by
  rw [native_slot_set_enum_integer]
  refine ⟨fun h => ⟨if_pos h, ?_⟩, fun h => if_neg (by omega)⟩
  exact load_store_signed st memory 4 n (by decide) (by norm_num; omega) (by norm_num; omega)

/-- Witness of the amended C13: 7 is no declared number of `{RED: 0, GREEN: 1}`
and is stored. -/
theorem native_slot_set_enum_open_witness :
    native_slot_set .LP64 vm_color .UPB_TYPE_ENUM color_module 0 (.integer 7) st_fresh =
        .returned (store_signed st_fresh 0 4 7) ∧
      load_signed (store_signed st_fresh 0 4 7) 0 4 = some 7 :=
  (native_slot_set_enum_open .LP64 vm_color color_module 0 7 st_fresh).1 (by decide)

/-- C15, at a failing input: for the repeated message field `items`,
`layout_init` creates the container at address 15, carrying the message class
(address 11) as its type-handle; `layout_get` returns that container, and
assigning it back with `layout_set` raises `TypeError`, because
`check_repeated_field_type` compares the container's type-handle with the
descriptor object (address 10). The container of the repeated `int32` field
`counts` (address 16) is accepted. -/
theorem layout_set_rejects_init_container :
    layout_get .LP64 (layout_init .LP64 (create_layout .LP64 msgdef_lists) 0
          (vm_submsg, st_fresh)).1 (create_layout .LP64 msgdef_lists) 0 field_items
        (layout_init .LP64 (create_layout .LP64 msgdef_lists) 0 (vm_submsg, st_fresh)).2 =
      some (.object 15) ∧
    (layout_init .LP64 (create_layout .LP64 msgdef_lists) 0 (vm_submsg, st_fresh)).1.heap[15]? =
      some { klass := cRepeatedField,
             body := .repeated_field .UPB_TYPE_MESSAGE (.object 11) [] } ∧
    layout_set .LP64 (layout_init .LP64 (create_layout .LP64 msgdef_lists) 0
          (vm_submsg, st_fresh)).1 (create_layout .LP64 msgdef_lists) 0 field_items
        (.object 15)
        (layout_init .LP64 (create_layout .LP64 msgdef_lists) 0 (vm_submsg, st_fresh)).2 =
      .raised .rb_eTypeError
        (layout_init .LP64 (create_layout .LP64 msgdef_lists) 0 (vm_submsg, st_fresh)).2 ∧
    layout_set .LP64 (layout_init .LP64 (create_layout .LP64 msgdef_lists) 0
          (vm_submsg, st_fresh)).1 (create_layout .LP64 msgdef_lists) 0 field_counts
        (.object 16)
        (layout_init .LP64 (create_layout .LP64 msgdef_lists) 0 (vm_submsg, st_fresh)).2 =
      .returned (store_VALUE .LP64
        (layout_init .LP64 (create_layout .LP64 msgdef_lists) 0 (vm_submsg, st_fresh)).2
        8 (.object 16)) :=
  ⟨by decide, by decide, rfl, rfl⟩

/-! ## Equality of slots and buffers -/

theorem memcmp_self (l : List memval) (x : Nat) (h : decode_int l = some x) :
    memcmp l l = some 0 := by
  induction l generalizing x with
  | nil => rfl
  | cons c rest ih =>
    cases c with
    | Byte b =>
      simp only [decode_int] at h
      cases hr : decode_int rest with
      | none => simp [hr] at h
      | some r => simp [memcmp, ih r hr]
    | Uninit => simp [decode_int] at h
    | Fragment v i => simp [decode_int] at h

theorem memcmp_zero_eq (l1 l2 : List memval) (h : memcmp l1 l2 = some 0) : l1 = l2 := by
  induction l1 generalizing l2 with
  | nil =>
    cases l2 with
    | nil => rfl
    | cons c rest => simp [memcmp] at h
  | cons c1 rest1 ih =>
    cases l2 with
    | nil => cases c1 <;> simp [memcmp] at h
    | cons c2 rest2 =>
      cases c1 <;> cases c2 <;> simp only [memcmp] at h <;> try (exact absurd h (by simp))
      rename_i a b
      split at h
      · simp at h
      · split at h
        · simp at h
        · have hab : a = b := by omega
          rw [hab, ih rest2 h]

theorem memcmp_symm (l1 l2 : List memval) :
    (memcmp l1 l2).map (fun r => decide (r = 0)) =
      (memcmp l2 l1).map (fun r => decide (r = 0)) := by
  induction l1 generalizing l2 with
  | nil => cases l2 <;> simp [memcmp]
  | cons c1 rest1 ih =>
    cases l2 with
    | nil => cases c1 <;> simp [memcmp]
    | cons c2 rest2 =>
      cases c1 <;> cases c2 <;> simp only [memcmp, Option.map_none']
      rename_i a b
      by_cases h1 : a < b
      · have h2 : ¬ b < a := by omega
        simp [h1, h2]
      · by_cases h2 : b < a
        · simp [h1, h2]
        · simp only [h1, h2, if_false]
          exact ih rest2

theorem rb_funcall_eq_self (C : Collaborators) (T : DataModel) (vm : RubyVM) (v : VALUE)
    (h : C.method_eq vm v v = .Qtrue) : rb_funcall_eq C T vm v v = .Qtrue := by
  unfold rb_funcall_eq
  by_cases h1 : v = .Qnil
  · simp [h1]
  · rw [if_neg h1]
    by_cases h2 : CLASS_OF T vm v = rb_cString
    · simp [h2, rb_str_equal]
    · rw [if_neg h2]
      exact h

theorem layout_eq_loop_true_iff (C : Collaborators) (T : DataModel) (vm : RubyVM)
    (layout : MessageLayout) (msg1 : Nat) (st1 : Storage) (msg2 : Nat) (st2 : Storage)
    (l : List upb_fielddef) :
    layout_eq_loop C T vm layout msg1 st1 msg2 st2 l = some .Qtrue ↔
      ∀ f ∈ l, layout_eq_field C T vm layout msg1 st1 msg2 st2 f = some true := by
  induction l with
  | nil => simp [layout_eq_loop]
  | cons g rest ih =>
    simp only [layout_eq_loop, List.mem_cons, forall_eq_or_imp]
    cases hg : layout_eq_field C T vm layout msg1 st1 msg2 st2 g with
    | none => simp
    | some b =>
      cases b with
      | false => simp
      | true => simpa using ih

theorem layout_eq_loop_first_difference (C : Collaborators) (T : DataModel) (vm : RubyVM)
    (layout : MessageLayout) (msg1 : Nat) (st1 : Storage) (msg2 : Nat) (st2 : Storage)
    (pre post : List upb_fielddef) (f : upb_fielddef)
    (hpre : ∀ g ∈ pre, layout_eq_field C T vm layout msg1 st1 msg2 st2 g = some true)
    (hf : layout_eq_field C T vm layout msg1 st1 msg2 st2 f = some false) :
    layout_eq_loop C T vm layout msg1 st1 msg2 st2 (pre ++ f :: post) = some .Qfalse := by
  induction pre with
  | nil => simp [layout_eq_loop, hf]
  | cons g rest ih =>
    simp only [List.cons_append, layout_eq_loop, hpre g (List.mem_cons_self _ _)]
    exact ih (fun k hk => hpre k (List.mem_cons_of_mem _ hk))

theorem layout_eq_loop_congr (C : Collaborators) (T : DataModel) (vm1 vm2 : RubyVM)
    (layout : MessageLayout) (a1 : Nat) (s1 : Storage) (a2 : Nat) (s2 : Storage)
    (b1 : Nat) (t1 : Storage) (b2 : Nat) (t2 : Storage) (l : List upb_fielddef)
    (h : ∀ f ∈ l, layout_eq_field C T vm1 layout a1 s1 a2 s2 f =
      layout_eq_field C T vm2 layout b1 t1 b2 t2 f) :
    layout_eq_loop C T vm1 layout a1 s1 a2 s2 l = layout_eq_loop C T vm2 layout b1 t1 b2 t2 l := by
  induction l with
  | nil => rfl
  | cons g rest ih =>
    simp only [layout_eq_loop, h g (List.mem_cons_self _ _)]
    rw [ih (fun k hk => h k (List.mem_cons_of_mem _ hk))]

theorem memcmp_defined (l1 l2 : List memval) (x y : Nat) (hlen : l1.length = l2.length)
    (h1 : decode_int l1 = some x) (h2 : decode_int l2 = some y) :
    ∃ r, memcmp l1 l2 = some r := by
  induction l1 generalizing l2 x y with
  | nil =>
    cases l2 with
    | nil => exact ⟨0, rfl⟩
    | cons c rest => simp at hlen
  | cons c1 rest1 ih =>
    cases l2 with
    | nil => simp at hlen
    | cons c2 rest2 =>
      cases c1 with
      | Uninit => simp [decode_int] at h1
      | Fragment v i => simp [decode_int] at h1
      | Byte a =>
        cases c2 with
        | Uninit => simp [decode_int] at h2
        | Fragment v i => simp [decode_int] at h2
        | Byte b =>
          simp only [decode_int] at h1 h2
          cases hr1 : decode_int rest1 with
          | none => simp [hr1] at h1
          | some r1 =>
            cases hr2 : decode_int rest2 with
            | none => simp [hr2] at h2
            | some r2 =>
              obtain ⟨r, hr⟩ := ih rest2 r1 r2 (by simpa using hlen) hr1 hr2
              simp only [memcmp]
              by_cases hab : a < b
              · exact ⟨_, if_pos hab⟩
              · rw [if_neg hab]
                by_cases hba : b < a
                · exact ⟨_, if_pos hba⟩
                · rw [if_neg hba]
                  exact ⟨r, hr⟩

theorem native_slot_eq_bytes (C : Collaborators) (T : DataModel) (vm : RubyVM)
    (type : upb_fieldtype_t) (mem1 : Nat) (st1 : Storage) (mem2 : Nat) (st2 : Storage)
    (x y : Nat)
    (ht : type ≠ .UPB_TYPE_STRING ∧ type ≠ .UPB_TYPE_BYTES ∧ type ≠ .UPB_TYPE_MESSAGE)
    (h1 : decode_int (load_cells st1 mem1 (native_slot_size T type)) = some x)
    (h2 : decode_int (load_cells st2 mem2 (native_slot_size T type)) = some y) :
    native_slot_eq C T vm type mem1 st1 mem2 st2 =
      some (decide (load_cells st1 mem1 (native_slot_size T type) =
        load_cells st2 mem2 (native_slot_size T type))) := by
  obtain ⟨r, hr⟩ := memcmp_defined _ _ x y (by simp [load_cells]) h1 h2
  have hiff : r = 0 ↔ load_cells st1 mem1 (native_slot_size T type) =
      load_cells st2 mem2 (native_slot_size T type) := by
    constructor
    · intro h0
      subst h0
      exact memcmp_zero_eq _ _ hr
    · intro heq
      rw [heq, memcmp_self _ y h2] at hr
      simpa using hr.symm
  have hd : decide (r = 0) = decide (load_cells st1 mem1 (native_slot_size T type) =
      load_cells st2 mem2 (native_slot_size T type)) := by
    rw [Bool.eq_iff_iff]
    simpa using hiff
  obtain ⟨h3, h4, h5⟩ := ht
  cases type <;> first
    | exact absurd rfl h3
    | exact absurd rfl h4
    | exact absurd rfl h5
    | (simp only [native_slot_eq, hr, hd])

theorem native_slot_eq_refs (C : Collaborators) (T : DataModel) (vm : RubyVM)
    (type : upb_fieldtype_t) (mem1 : Nat) (st1 : Storage) (mem2 : Nat) (st2 : Storage)
    (v1 v2 : VALUE)
    (ht : type = .UPB_TYPE_STRING ∨ type = .UPB_TYPE_BYTES ∨ type = .UPB_TYPE_MESSAGE)
    (h1 : load_VALUE T st1 mem1 = some v1) (h2 : load_VALUE T st2 mem2 = some v2) :
    native_slot_eq C T vm type mem1 st1 mem2 st2 =
      some (decide (rb_funcall_eq C T vm v1 v2 = .Qtrue)) := by
  rcases ht with rfl | rfl | rfl <;> simp only [native_slot_eq, h1, h2]

/-- C18: `layout_eq` returns true exactly when every field matches. A singular
field matches when `native_slot_eq` holds on the two slots, which for a value
type is the comparison of the slot-size bytes and for string, bytes and message
fields the referent's own `==`; a repeated field matches when the container
equality does not fail. At the first field that differs, `layout_eq` returns
false, whatever follows. -/
theorem layout_eq_matches_every_field (C : Collaborators) (T : DataModel) (vm : RubyVM)
    (layout : MessageLayout) (msg1 : Nat) (st1 : Storage) (msg2 : Nat) (st2 : Storage) :
    (layout_eq C T vm layout msg1 st1 msg2 st2 = some .Qtrue ↔
      ∀ f ∈ layout.msgdef.fields,
        layout_eq_field C T vm layout msg1 st1 msg2 st2 f = some true) ∧
    (∀ f : upb_fielddef, f.label ≠ .UPB_LABEL_REPEATED →
      layout_eq_field C T vm layout msg1 st1 msg2 st2 f =
        native_slot_eq C T vm f.type (msg1 + layout_offset layout f) st1
          (msg2 + layout_offset layout f) st2) ∧
    (∀ (f : upb_fielddef) (a b : VALUE), f.label = .UPB_LABEL_REPEATED →
      load_VALUE T st1 (msg1 + layout_offset layout f) = some a →
      load_VALUE T st2 (msg2 + layout_offset layout f) = some b →
      layout_eq_field C T vm layout msg1 st1 msg2 st2 f =
        some (decide (C.RepeatedField_eq vm a b ≠ .Qfalse))) ∧
    (∀ (type : upb_fieldtype_t) (mem1 mem2 x y : Nat),
      type ≠ .UPB_TYPE_STRING ∧ type ≠ .UPB_TYPE_BYTES ∧ type ≠ .UPB_TYPE_MESSAGE →
      decode_int (load_cells st1 mem1 (native_slot_size T type)) = some x →
      decode_int (load_cells st2 mem2 (native_slot_size T type)) = some y →
      native_slot_eq C T vm type mem1 st1 mem2 st2 =
        some (decide (load_cells st1 mem1 (native_slot_size T type) =
          load_cells st2 mem2 (native_slot_size T type)))) ∧
    (∀ (type : upb_fieldtype_t) (mem1 mem2 : Nat) (v1 v2 : VALUE),
      type = .UPB_TYPE_STRING ∨ type = .UPB_TYPE_BYTES ∨ type = .UPB_TYPE_MESSAGE →
      load_VALUE T st1 mem1 = some v1 → load_VALUE T st2 mem2 = some v2 →
      native_slot_eq C T vm type mem1 st1 mem2 st2 =
        some (decide (rb_funcall_eq C T vm v1 v2 = .Qtrue))) ∧
    (∀ (pre post : List upb_fielddef) (f : upb_fielddef),
      layout.msgdef.fields = pre ++ f :: post →
      (∀ g ∈ pre, layout_eq_field C T vm layout msg1 st1 msg2 st2 g = some true) →
      layout_eq_field C T vm layout msg1 st1 msg2 st2 f = some false →
      layout_eq C T vm layout msg1 st1 msg2 st2 = some .Qfalse) := by
  refine ⟨layout_eq_loop_true_iff C T vm layout msg1 st1 msg2 st2 _,
    fun f hf => by simp [layout_eq_field, hf],
    fun f a b hf ha hb => by simp [layout_eq_field, hf, ha, hb],
    fun type mem1 mem2 x y ht h1 h2 =>
      native_slot_eq_bytes C T vm type mem1 st1 mem2 st2 x y ht h1 h2,
    fun type mem1 mem2 v1 v2 ht h1 h2 =>
      native_slot_eq_refs C T vm type mem1 st1 mem2 st2 v1 v2 ht h1 h2,
    fun pre post f hfields hpre hf => ?_⟩
  unfold layout_eq
  rw [hfields]
  exact layout_eq_loop_first_difference C T vm layout msg1 st1 msg2 st2 pre post f hpre hf

/-- Witness of C18 on `{id: int64, flag: bool}`: two buffers that differ in
`id`, the first field, are reported unequal. -/
theorem layout_eq_matches_every_field_witness :
    layout_eq collab_structural .LP64 vm_empty (create_layout .LP64 msgdef_int64_bool)
        0 (buffer_id 1) 0 (buffer_id 2) = some .Qfalse :=
  (layout_eq_matches_every_field collab_structural .LP64 vm_empty
    (create_layout .LP64 msgdef_int64_bool) 0 (buffer_id 1) 0 (buffer_id 2)).2.2.2.2.2
    [] [mk_field "flag" UPB_TYPE_BOOL 1] (mk_field "id" UPB_TYPE_INT64 0) rfl
    (by simp) (by decide)

/-! ## Equality of buffers: reflexivity and symmetry -/

theorem CLASS_OF_nil_ne_string (T : DataModel) (vm : RubyVM) : CLASS_OF T vm .Qnil ≠ rb_cString := by
  simp [CLASS_OF, rb_cNilClass, rb_cString]

theorem rb_str_equal_symm (T : DataModel) (vm : RubyVM) (a b : VALUE)
    (ha : TYPE T vm a = ruby_value_type.T_STRING) (hb : TYPE T vm b = ruby_value_type.T_STRING) :
    rb_str_equal T vm a b = rb_str_equal T vm b a := by
  unfold rb_str_equal
  by_cases h : a = b
  · subst h; rfl
  · have h2 : ¬ b = a := fun e => h e.symm
    simp only [if_neg h, if_neg h2, ha, hb, ne_eq, not_true_eq_false, if_false]
    by_cases hs : string_bytes vm a = string_bytes vm b
    · rw [if_pos hs, if_pos hs.symm]
    · rw [if_neg hs, if_neg (fun e => hs e.symm)]

theorem native_slot_eq_value_symm (C : Collaborators) (T : DataModel) (vm : RubyVM)
    (type : upb_fieldtype_t) (mem1 : Nat) (st1 : Storage) (mem2 : Nat) (st2 : Storage)
    (ht : type ≠ .UPB_TYPE_STRING ∧ type ≠ .UPB_TYPE_BYTES ∧ type ≠ .UPB_TYPE_MESSAGE) :
    native_slot_eq C T vm type mem1 st1 mem2 st2 = native_slot_eq C T vm type mem2 st2 mem1 st1 := by
  have hs := memcmp_symm (load_cells st1 mem1 (native_slot_size T type))
    (load_cells st2 mem2 (native_slot_size T type))
  obtain ⟨h3, h4, h5⟩ := ht
  cases type <;> first
    | exact absurd rfl h3
    | exact absurd rfl h4
    | exact absurd rfl h5
    | (simp only [native_slot_eq]
       revert hs
       cases memcmp (load_cells st1 mem1 _) (load_cells st2 mem2 _) <;>
         cases memcmp (load_cells st2 mem2 _) (load_cells st1 mem1 _) <;> simp)

theorem rb_funcall_eq_string_symm (C : Collaborators) (T : DataModel) (vm : RubyVM)
    (a b : VALUE) (hca : CLASS_OF T vm a = rb_cString)
    (hta : TYPE T vm a = ruby_value_type.T_STRING) (hcb : CLASS_OF T vm b = rb_cString)
    (htb : TYPE T vm b = ruby_value_type.T_STRING) :
    rb_funcall_eq C T vm a b = rb_funcall_eq C T vm b a := by
  have ha : a ≠ .Qnil := fun e => CLASS_OF_nil_ne_string T vm (e ▸ hca)
  have hb : b ≠ .Qnil := fun e => CLASS_OF_nil_ne_string T vm (e ▸ hcb)
  simp only [rb_funcall_eq, if_neg ha, if_neg hb, hca, hcb, if_true]
  exact rb_str_equal_symm T vm a b hta htb

theorem rb_funcall_eq_message_symm (C : Collaborators) (T : DataModel) (vm : RubyVM)
    (tc a b : VALUE) (ha : a = .Qnil ∨ CLASS_OF T vm a = tc)
    (hb : b = .Qnil ∨ CLASS_OF T vm b = tc) (hcls : tc ≠ rb_cString)
    (hsym : ∀ x y, C.method_eq vm x y = .Qtrue ↔ C.method_eq vm y x = .Qtrue)
    (hnil : ∀ x, x ≠ .Qnil → C.method_eq vm x .Qnil ≠ .Qtrue) :
    rb_funcall_eq C T vm a b = .Qtrue ↔ rb_funcall_eq C T vm b a = .Qtrue := by
  unfold rb_funcall_eq
  by_cases h1 : a = .Qnil
  · by_cases h2 : b = .Qnil
    · simp [h1, h2]
    · have hcb : CLASS_OF T vm b ≠ rb_cString := by
        rcases hb with hb | hb
        · exact absurd hb h2
        · rw [hb]; exact hcls
      simp only [h1, if_true, if_neg h2, if_neg hcb]
      constructor
      · intro h; cases h
      · intro h; exact absurd h (hnil b h2)
  · have hca : CLASS_OF T vm a ≠ rb_cString := by
      rcases ha with ha | ha
      · exact absurd ha h1
      · rw [ha]; exact hcls
    by_cases h2 : b = .Qnil
    · simp only [h2, if_true, if_neg h1, if_neg hca]
      constructor
      · intro h; exact absurd h (hnil a h1)
      · intro h; cases h
    · have hcb : CLASS_OF T vm b ≠ rb_cString := by
        rcases hb with hb | hb
        · exact absurd hb h2
        · rw [hb]; exact hcls
      simp only [if_neg h1, if_neg h2, if_neg hca, if_neg hcb]
      exact hsym a b

theorem layout_eq_field_symm (C : Collaborators) (T : DataModel) (vm : RubyVM)
    (layout : MessageLayout) (a : Nat) (st_a : Storage) (b : Nat) (st_b : Storage)
    (f : upb_fielddef)
    (ha : slot_populated T vm f (a + layout_offset layout f) st_a)
    (hb : slot_populated T vm f (b + layout_offset layout f) st_b)
    (hcls : f.type = .UPB_TYPE_MESSAGE → get_type_class vm f ≠ rb_cString)
    (hsym : ∀ x y, C.method_eq vm x y = .Qtrue ↔ C.method_eq vm y x = .Qtrue)
    (hnil : ∀ x, x ≠ .Qnil → C.method_eq vm x .Qnil ≠ .Qtrue)
    (hrsym : ∀ x y, C.RepeatedField_eq vm x y = .Qfalse ↔ C.RepeatedField_eq vm y x = .Qfalse) :
    layout_eq_field C T vm layout a st_a b st_b f =
      layout_eq_field C T vm layout b st_b a st_a f := by
  unfold layout_eq_field
  unfold slot_populated at ha hb
  by_cases hl : f.label = .UPB_LABEL_REPEATED
  · simp only [hl, if_true] at ha hb ⊢
    obtain ⟨v1, h1⟩ := ha
    obtain ⟨v2, h2⟩ := hb
    simp only [h1, h2]
    exact congrArg some (decide_eq_decide.mpr (not_congr (hrsym v1 v2)))
  · simp only [hl, if_false] at ha hb ⊢
    by_cases hv : f.type ≠ .UPB_TYPE_STRING ∧ f.type ≠ .UPB_TYPE_BYTES ∧
        f.type ≠ .UPB_TYPE_MESSAGE
    · exact native_slot_eq_value_symm C T vm f.type _ st_a _ st_b hv
    · cases hty : f.type <;> rw [hty] at ha hb hv <;> simp only [] at ha hb <;>
        try (exact absurd ⟨by decide, by decide, by decide⟩ hv)
      · obtain ⟨v1, h1, hc1, ht1⟩ := ha
        obtain ⟨v2, h2, hc2, ht2⟩ := hb
        simp only [native_slot_eq, h1, h2]
        rw [rb_funcall_eq_string_symm C T vm v1 v2 hc1 ht1 hc2 ht2]
      · obtain ⟨v1, h1, hc1, ht1⟩ := ha
        obtain ⟨v2, h2, hc2, ht2⟩ := hb
        simp only [native_slot_eq, h1, h2]
        rw [rb_funcall_eq_string_symm C T vm v1 v2 hc1 ht1 hc2 ht2]
      · obtain ⟨v1, h1, hc1⟩ := ha
        obtain ⟨v2, h2, hc2⟩ := hb
        simp only [native_slot_eq, h1, h2]
        exact congrArg some (decide_eq_decide.mpr
          (rb_funcall_eq_message_symm C T vm _ v1 v2 hc1 hc2 (hcls hty) hsym hnil))

theorem layout_eq_field_refl (C : Collaborators) (T : DataModel) (vm : RubyVM)
    (layout : MessageLayout) (a : Nat) (st_a : Storage) (f : upb_fielddef)
    (ha : slot_populated T vm f (a + layout_offset layout f) st_a)
    (hrefl : ∀ v, C.method_eq vm v v = .Qtrue)
    (hrrefl : ∀ c, C.RepeatedField_eq vm c c ≠ .Qfalse) :
    layout_eq_field C T vm layout a st_a a st_a f = some true := by
  unfold layout_eq_field
  unfold slot_populated at ha
  by_cases hl : f.label = .UPB_LABEL_REPEATED
  · simp only [hl, if_true] at ha ⊢
    obtain ⟨v1, h1⟩ := ha
    simp only [h1]
    simpa using hrrefl v1
  · simp only [hl, if_false] at ha ⊢
    cases hty : f.type <;> rw [hty] at ha <;> simp only [] at ha <;>
      obtain ⟨x, hx⟩ := ha
    all_goals first
      | (simp only [native_slot_eq, memcmp_self _ x hx]; rfl)
      | (simp only [native_slot_eq, hx.1, rb_funcall_eq_self C T vm x (hrefl x)]; rfl)

theorem same_object_symm (vm : RubyVM) (x y : VALUE) :
    same_object vm x y = same_object vm y x := by
  unfold same_object
  by_cases h : x = y
  · subst h; rfl
  · rw [if_neg h, if_neg (fun e => h e.symm)]
    cases x <;> cases y <;> try rfl
    rename_i a b
    simp only [eq_comm]

theorem same_object_nil (vm : RubyVM) (x : VALUE) (h : x ≠ .Qnil) :
    same_object vm x .Qnil ≠ .Qtrue := by
  unfold same_object
  rw [if_neg h]
  cases x <;> simp

theorem same_object_self (vm : RubyVM) (x : VALUE) : same_object vm x x = .Qtrue := by
  simp [same_object]

theorem buffer_note_populated (sub text : VALUE)
    (hs : sub = .Qnil ∨ sub = .object 12) (ht : text = .object 15 ∨ text = .object 16) :
    buffer_populated .LP64 vm_note (create_layout .LP64 msgdef_note) 0
      (buffer_note sub text 7) := by
  intro f hf
  have hfs : f = mk_field "sub" UPB_TYPE_MESSAGE 0 ∨ f = mk_field "text" UPB_TYPE_STRING 1 ∨
      f = mk_field "n" UPB_TYPE_INT32 2 ∨ f = field_tags := by
    simpa [create_layout, msgdef_note] using hf
  rcases hfs with rfl | rfl | rfl | rfl
  · refine ⟨sub, ?_, ?_⟩
    · rcases hs with rfl | rfl <;> rcases ht with rfl | rfl <;> decide
    · rcases hs with rfl | rfl
      · exact Or.inl rfl
      · exact Or.inr (by decide)
  · refine ⟨text, ?_, ?_, ?_⟩
    · rcases hs with rfl | rfl <;> rcases ht with rfl | rfl <;> decide
    · rcases ht with rfl | rfl <;> decide
    · rcases ht with rfl | rfl <;> decide
  · refine ⟨7, ?_⟩
    rcases hs with rfl | rfl <;> rcases ht with rfl | rfl <;> decide
  · refine ⟨.object 17, ?_⟩
    rcases hs with rfl | rfl <;> rcases ht with rfl | rfl <;> decide

/-- C19: on buffers of one layout whose slots are populated, `layout_eq` is
reflexive, also where a message field is null, and symmetric. Reflexivity takes
that a message equals itself and a container equals itself; symmetry takes that
no message class is `String`, that `==` of messages is symmetric and never true
of a message and `nil`, and that the container equality is symmetric. A null
message field matches itself whatever the collaborators do. -/
theorem layout_eq_reflexive_symmetric (C : Collaborators) (T : DataModel) (vm : RubyVM)
    (layout : MessageLayout) (a : Nat) (st_a : Storage) (b : Nat) (st_b : Storage)
    (ha : buffer_populated T vm layout a st_a) (hb : buffer_populated T vm layout b st_b) :
    ((∀ v, C.method_eq vm v v = .Qtrue) → (∀ c, C.RepeatedField_eq vm c c ≠ .Qfalse) →
      layout_eq C T vm layout a st_a a st_a = some .Qtrue) ∧
    (∀ f : upb_fielddef, f.label ≠ .UPB_LABEL_REPEATED → f.type = .UPB_TYPE_MESSAGE →
      load_VALUE T st_a (a + layout_offset layout f) = some .Qnil →
      layout_eq_field C T vm layout a st_a a st_a f = some true) ∧
    ((∀ f ∈ layout.msgdef.fields, f.type = .UPB_TYPE_MESSAGE →
        get_type_class vm f ≠ rb_cString) →
      (∀ x y, C.method_eq vm x y = .Qtrue ↔ C.method_eq vm y x = .Qtrue) →
      (∀ x, x ≠ .Qnil → C.method_eq vm x .Qnil ≠ .Qtrue) →
      (∀ x y, C.RepeatedField_eq vm x y = .Qfalse ↔ C.RepeatedField_eq vm y x = .Qfalse) →
      layout_eq C T vm layout a st_a b st_b = layout_eq C T vm layout b st_b a st_a) := by
  refine ⟨fun hrefl hrrefl => ?_, fun f hl ht hnil => ?_, fun hcls hsym hnil hrsym => ?_⟩
  · exact (layout_eq_loop_true_iff C T vm layout a st_a a st_a _).mpr
      (fun f hf => layout_eq_field_refl C T vm layout a st_a f (ha f hf) hrefl hrrefl)
  · simp [layout_eq_field, hl, ht, native_slot_eq, hnil, rb_funcall_eq]
  · exact layout_eq_loop_congr C T vm vm layout a st_a b st_b b st_b a st_a _
      (fun f hf => layout_eq_field_symm C T vm layout a st_a b st_b f (ha f hf) (hb f hf)
        (hcls f hf) hsym hnil hrsym)

/-- Witness of C19 on `{sub: message, text: string, n: int32, tags}`: a buffer with a
null `sub` equals itself, and compared with a buffer that holds a submessage it
gives false in both orders. -/
theorem layout_eq_reflexive_symmetric_witness :
    layout_eq collab_structural .LP64 vm_note (create_layout .LP64 msgdef_note)
        0 (buffer_note .Qnil (.object 15) 7) 0 (buffer_note .Qnil (.object 15) 7) =
      some .Qtrue ∧
    layout_eq collab_structural .LP64 vm_note (create_layout .LP64 msgdef_note)
        0 (buffer_note .Qnil (.object 15) 7) 0 (buffer_note (.object 12) (.object 16) 7) =
      layout_eq collab_structural .LP64 vm_note (create_layout .LP64 msgdef_note)
        0 (buffer_note (.object 12) (.object 16) 7) 0 (buffer_note .Qnil (.object 15) 7) :=
  ⟨(layout_eq_reflexive_symmetric collab_structural .LP64 vm_note
      (create_layout .LP64 msgdef_note) 0 (buffer_note .Qnil (.object 15) 7)
      0 (buffer_note (.object 12) (.object 16) 7)
      (buffer_note_populated _ _ (Or.inl rfl) (Or.inl rfl))
      (buffer_note_populated _ _ (Or.inr rfl) (Or.inr rfl))).1
      (same_object_self vm_note) (fun c h => by simp [collab_structural, same_object] at h),
    (layout_eq_reflexive_symmetric collab_structural .LP64 vm_note
      (create_layout .LP64 msgdef_note) 0 (buffer_note .Qnil (.object 15) 7)
      0 (buffer_note (.object 12) (.object 16) 7)
      (buffer_note_populated _ _ (Or.inl rfl) (Or.inl rfl))
      (buffer_note_populated _ _ (Or.inr rfl) (Or.inr rfl))).2.2
      (fun f hf ht => by
        have hfs : f = mk_field "sub" UPB_TYPE_MESSAGE 0 ∨
            f = mk_field "text" UPB_TYPE_STRING 1 ∨ f = mk_field "n" UPB_TYPE_INT32 2 ∨
            f = field_tags := by
          simpa [create_layout, msgdef_note] using hf
        rcases hfs with rfl | rfl | rfl | rfl <;> decide)
      (fun x y => by
        show same_object vm_note x y = .Qtrue ↔ same_object vm_note y x = .Qtrue
        rw [same_object_symm])
      (same_object_nil vm_note)
      (fun x y => by
        show same_object vm_note x y = .Qfalse ↔ same_object vm_note y x = .Qfalse
        rw [same_object_symm])⟩

/-! ## Hash of a buffer -/

theorem load_VALUE_cells (T : DataModel) (st1 : Storage) (m1 : Nat) (st2 : Storage) (m2 : Nat)
    (h : load_cells st1 m1 (sizeof_VALUE T) = load_cells st2 m2 (sizeof_VALUE T)) :
    load_VALUE T st1 m1 = load_VALUE T st2 m2 := by
  have h0 : st1 m1 = st2 m2 := by
    have hp := sizeof_VALUE_pos T
    have := congrArg (fun l => l[0]?) h
    simpa [load_cells, hp] using this
  unfold load_VALUE
  rw [h, h0]

theorem native_slot_get_cells (T : DataModel) (vm : RubyVM) (type : upb_fieldtype_t)
    (type_class : VALUE) (st1 : Storage) (m1 : Nat) (st2 : Storage) (m2 : Nat)
    (h : load_cells st1 m1 (native_slot_size T type) =
      load_cells st2 m2 (native_slot_size T type)) :
    native_slot_get T vm type type_class m1 st1 = native_slot_get T vm type type_class m2 st2 := by
  cases type <;> simp only [native_slot_size] at h <;> first
    | (simp only [native_slot_get, load_VALUE_cells T st1 m1 st2 m2 h])
    | (simp only [native_slot_get, load_float, load_double, load_signed, load_unsigned, h])

theorem memcmp_some_decode (l1 l2 : List memval) (r : Int) (h : memcmp l1 l2 = some r) :
    r ≠ 0 ∨ ∃ x, decode_int l1 = some x := by
  induction l1 generalizing l2 with
  | nil => exact Or.inr ⟨0, rfl⟩
  | cons c1 rest1 ih =>
    cases l2 with
    | nil => cases c1 <;> simp [memcmp] at h
    | cons c2 rest2 =>
      cases c1 with
      | Uninit => simp [memcmp] at h
      | Fragment v i => simp [memcmp] at h
      | Byte a =>
        cases c2 with
        | Uninit => simp [memcmp] at h
        | Fragment v i => simp [memcmp] at h
        | Byte b =>
          simp only [memcmp] at h
          by_cases hab : a < b
          · rw [if_pos hab] at h
            left
            intro h0
            rw [h0] at h
            simp at h
          · rw [if_neg hab] at h
            by_cases hba : b < a
            · rw [if_pos hba] at h
              left
              intro h0
              rw [h0] at h
              simp at h
            · rw [if_neg hba] at h
              rcases ih rest2 h with h1 | ⟨x, hx⟩
              · exact Or.inl h1
              · exact Or.inr ⟨a + 256 * x, by simp [decode_int, hx]⟩

theorem native_slot_eq_true_value (C : Collaborators) (T : DataModel) (vm : RubyVM)
    (type : upb_fieldtype_t) (mem1 : Nat) (st1 : Storage) (mem2 : Nat) (st2 : Storage)
    (ht : type ≠ .UPB_TYPE_STRING ∧ type ≠ .UPB_TYPE_BYTES ∧ type ≠ .UPB_TYPE_MESSAGE)
    (h : native_slot_eq C T vm type mem1 st1 mem2 st2 = some true) :
    load_cells st1 mem1 (native_slot_size T type) =
        load_cells st2 mem2 (native_slot_size T type) ∧
      ∃ x, decode_int (load_cells st1 mem1 (native_slot_size T type)) = some x := by
  have hm : memcmp (load_cells st1 mem1 (native_slot_size T type))
      (load_cells st2 mem2 (native_slot_size T type)) = some 0 := by
    obtain ⟨h3, h4, h5⟩ := ht
    cases type <;> first
      | exact absurd rfl h3
      | exact absurd rfl h4
      | exact absurd rfl h5
      | (simp only [native_slot_eq] at h
         revert h
         cases memcmp (load_cells st1 mem1 _) (load_cells st2 mem2 _) <;> simp)
  refine ⟨memcmp_zero_eq _ _ hm, ?_⟩
  rcases memcmp_some_decode _ _ 0 hm with h0 | hx
  · exact absurd rfl h0
  · exact hx

theorem native_slot_eq_true_refs (C : Collaborators) (T : DataModel) (vm : RubyVM)
    (type : upb_fieldtype_t) (mem1 : Nat) (st1 : Storage) (mem2 : Nat) (st2 : Storage)
    (ht : type = .UPB_TYPE_STRING ∨ type = .UPB_TYPE_BYTES ∨ type = .UPB_TYPE_MESSAGE)
    (h : native_slot_eq C T vm type mem1 st1 mem2 st2 = some true) :
    ∃ v1 v2, load_VALUE T st1 mem1 = some v1 ∧ load_VALUE T st2 mem2 = some v2 ∧
      rb_funcall_eq C T vm v1 v2 = .Qtrue := by
  have h2 : (match load_VALUE T st1 mem1, load_VALUE T st2 mem2 with
      | some val1, some val2 => some (decide (rb_funcall_eq C T vm val1 val2 = .Qtrue))
      | _, _ => none) = some true := by
    rcases ht with rfl | rfl | rfl <;> exact h
  cases h1 : load_VALUE T st1 mem1 with
  | none => simp [h1] at h2
  | some v1 =>
    cases h3 : load_VALUE T st2 mem2 with
    | none => simp [h1, h3] at h2
    | some v2 =>
      simp only [h1, h3, Option.some.injEq, decide_eq_true_eq] at h2
      exact ⟨v1, v2, rfl, rfl, h2⟩

theorem native_slot_get_defined (T : DataModel) (vm : RubyVM) (type : upb_fieldtype_t)
    (type_class : VALUE) (mem : Nat) (st : Storage) (x : Nat)
    (ht : type ≠ .UPB_TYPE_STRING ∧ type ≠ .UPB_TYPE_BYTES ∧ type ≠ .UPB_TYPE_MESSAGE)
    (h : decode_int (load_cells st mem (native_slot_size T type)) = some x) :
    ∃ v, native_slot_get T vm type type_class mem st = some v := by
  obtain ⟨h3, h4, h5⟩ := ht
  cases type <;> first
    | exact absurd rfl h3
    | exact absurd rfl h4
    | exact absurd rfl h5
    | (simp only [native_slot_size] at h
       simp only [native_slot_get, load_float, load_double, load_signed, load_unsigned, h,
         Option.map_some']
       exact ⟨_, rfl⟩)

theorem layout_eq_field_hash (C : Collaborators) (T : DataModel) (vm : RubyVM)
    (layout : MessageLayout) (a : Nat) (st_a : Storage) (b : Nat) (st_b : Storage)
    (f : upb_fielddef)
    (heq : layout_eq_field C T vm layout a st_a b st_b f = some true)
    (hhash : ∀ x y, rb_funcall_eq C T vm x y = .Qtrue → C.method_hash vm x = C.method_hash vm y)
    (hrhash : ∀ x y, C.RepeatedField_eq vm x y ≠ .Qfalse →
      C.method_hash vm x = C.method_hash vm y) :
    ∃ va vb, layout_get T vm layout a f st_a = some va ∧
      layout_get T vm layout b f st_b = some vb ∧
      C.method_hash vm va = C.method_hash vm vb := by
  unfold layout_eq_field at heq
  unfold layout_get
  by_cases hl : f.label = .UPB_LABEL_REPEATED
  · simp only [hl, if_true] at heq ⊢
    cases h1 : load_VALUE T st_a (a + layout_offset layout f) with
    | none => simp [h1] at heq
    | some v1 =>
      cases h2 : load_VALUE T st_b (b + layout_offset layout f) with
      | none => simp [h1, h2] at heq
      | some v2 =>
        simp only [h1, h2, Option.some.injEq, decide_eq_true_eq] at heq
        exact ⟨v1, v2, rfl, rfl, hrhash v1 v2 heq⟩
  · simp only [hl, if_false] at heq ⊢
    by_cases hv : f.type ≠ .UPB_TYPE_STRING ∧ f.type ≠ .UPB_TYPE_BYTES ∧
        f.type ≠ .UPB_TYPE_MESSAGE
    · obtain ⟨hcells, x, hx⟩ := native_slot_eq_true_value C T vm f.type _ st_a _ st_b hv heq
      obtain ⟨v, hv1⟩ := native_slot_get_defined T vm f.type (get_type_class vm f) _ st_a x hv hx
      refine ⟨v, v, hv1, ?_, rfl⟩
      rw [← native_slot_get_cells T vm f.type (get_type_class vm f) st_a _ st_b _ hcells]
      exact hv1
    · have ht : f.type = .UPB_TYPE_STRING ∨ f.type = .UPB_TYPE_BYTES ∨
          f.type = .UPB_TYPE_MESSAGE := by
        by_contra hc
        push_neg at hc
        exact hv hc
      obtain ⟨v1, v2, h1, h2, h3⟩ := native_slot_eq_true_refs C T vm f.type _ st_a _ st_b ht heq
      refine ⟨v1, v2, ?_, ?_, hhash v1 v2 h3⟩
      · rcases ht with ht | ht | ht <;> rw [ht] <;> exact h1
      · rcases ht with ht | ht | ht <;> rw [ht] <;> exact h2

theorem layout_hash_loop_congr (C : Collaborators) (T : DataModel) (vm : RubyVM)
    (layout : MessageLayout) (a : Nat) (st_a : Storage) (b : Nat) (st_b : Storage)
    (l : List upb_fielddef)
    (h : ∀ f ∈ l, ∃ va vb, layout_get T vm layout a f st_a = some va ∧
      layout_get T vm layout b f st_b = some vb ∧
      C.method_hash vm va = C.method_hash vm vb) :
    ∀ h0, layout_hash_loop C T vm layout a st_a l h0 =
        layout_hash_loop C T vm layout b st_b l h0 ∧
      ∃ r, layout_hash_loop C T vm layout a st_a l h0 = some r := by
  induction l with
  | nil => intro h0; exact ⟨rfl, _, rfl⟩
  | cons g rest ih =>
    intro h0
    obtain ⟨va, vb, h1, h2, h3⟩ := h g (List.mem_cons_self _ _)
    simp only [layout_hash_loop, h1, h2, h3]
    cases NUM2LONG T (C.method_hash vm vb) with
    | error e => exact ⟨rfl, _, rfl⟩
    | ok k => exact ih (fun k hk => h k (List.mem_cons_of_mem _ hk)) _

theorem layout_hash_loop_fold (C : Collaborators) (T : DataModel) (vm : RubyVM)
    (layout : MessageLayout) (storage : Nat) (st : Storage) (l : List upb_fielddef) :
    ∀ (ks : List Int) (h0 : Nat),
      l.map (fun f => (layout_get T vm layout storage f st).map
        (fun v => NUM2LONG T (C.method_hash vm v))) = ks.map (fun k => some (.ok k)) →
      layout_hash_loop C T vm layout storage st l h0 =
        some (.ok (ks.foldl (fun h k => C.rb_hash_uint h (k % 2 ^ SIZE_WIDTH T).toNat) h0)) := by
  induction l with
  | nil =>
    intro ks h0 h
    cases ks with
    | nil => rfl
    | cons k rest => simp at h
  | cons g rest ih =>
    intro ks h0 h
    cases ks with
    | nil => simp at h
    | cons k ks1 =>
      simp only [List.map_cons, List.cons.injEq] at h
      obtain ⟨hg, hrest⟩ := h
      cases hv : layout_get T vm layout storage g st with
      | none => simp [hv] at hg
      | some v =>
        simp only [hv, Option.map_some', Option.some.injEq] at hg
        simp only [layout_hash_loop, hv, hg, List.foldl_cons]
        exact ih ks1 _ hrest

theorem content_hash_same_object (vm : RubyVM) (x y : VALUE)
    (h : same_object vm x y ≠ .Qfalse) : content_hash vm x = content_hash vm y := by
  unfold same_object at h
  by_cases hxy : x = y
  · rw [hxy]
  · rw [if_neg hxy] at h
    cases x <;> cases y <;> simp only [ne_eq, not_true_eq_false] at h
    rename_i p q
    by_cases hpq : vm.heap[p]? = vm.heap[q]?
    · simp only [content_hash, string_bytes, hpq]
    · simp [hpq] at h

theorem content_hash_funcall_eq (T : DataModel) (vm : RubyVM) (x y : VALUE)
    (h : rb_funcall_eq collab_structural T vm x y = .Qtrue) :
    content_hash vm x = content_hash vm y := by
  unfold rb_funcall_eq at h
  by_cases hx : x = .Qnil
  · rw [if_pos hx] at h
    by_cases hy : y = .Qnil
    · rw [hx, hy]
    · simp [hy] at h
  · rw [if_neg hx] at h
    by_cases hc : CLASS_OF T vm x = rb_cString
    · rw [if_pos hc] at h
      unfold rb_str_equal at h
      by_cases hxy : x = y
      · rw [hxy]
      · rw [if_neg hxy] at h
        by_cases hty : TYPE T vm y ≠ ruby_value_type.T_STRING
        · simp [hty] at h
        · rw [if_neg hty] at h
          by_cases hb : string_bytes vm x = string_bytes vm y
          · have hxo : ∃ p, x = .object p := by
              cases x <;> first
                | exact ⟨_, rfl⟩
                | (simp only [CLASS_OF, rb_cString, rb_cFalseClass, rb_cTrueClass, rb_cNilClass,
                    rb_cFloat, rb_cSymbol, rb_cFixnum, rb_cBignum] at hc
                   first
                     | exact absurd hc (by decide)
                     | (split at hc <;> exact absurd hc (by decide)))
            have hyo : ∃ q, y = .object q := by
              cases y <;> first
                | exact ⟨_, rfl⟩
                | (simp only [TYPE, ne_eq, not_not] at hty
                   first
                     | exact absurd hty (by decide)
                     | (split at hty <;> exact absurd hty (by decide)))
            obtain ⟨p, rfl⟩ := hxo
            obtain ⟨q, rfl⟩ := hyo
            simp only [content_hash, hb]
          · simp [hb] at h
    · rw [if_neg hc] at h
      exact content_hash_same_object vm x y (by
        show same_object vm x y ≠ .Qfalse
        have h2 : same_object vm x y = .Qtrue := h
        rw [h2]
        decide)

/-- C20: two buffers of one layout that `layout_eq` reports equal have the same
`layout_hash`, and the hash is defined or an exception of a `hash` method,
provided that values equal under `==` and containers equal under the container
equality have equal hashes. The hash is the left fold, in field order and from
the seed `rb_hash_start(0)`, of the combiner `rb_hash_uint` over the `long` of
the `hash` of the value that `layout_get` reads for each field, finished by
`rb_hash_end` and made a Fixnum. -/
theorem layout_hash_respects_layout_eq (C : Collaborators) (T : DataModel) (vm : RubyVM)
    (layout : MessageLayout) (a : Nat) (st_a : Storage) (b : Nat) (st_b : Storage)
    (heq : layout_eq C T vm layout a st_a b st_b = some .Qtrue)
    (hhash : ∀ x y, rb_funcall_eq C T vm x y = .Qtrue → C.method_hash vm x = C.method_hash vm y)
    (hrhash : ∀ x y, C.RepeatedField_eq vm x y ≠ .Qfalse →
      C.method_hash vm x = C.method_hash vm y) :
    layout_hash C T vm layout a st_a = layout_hash C T vm layout b st_b ∧
    (∃ r, layout_hash C T vm layout a st_a = some r) ∧
    (∀ ks : List Int,
      layout.msgdef.fields.map (fun f => (layout_get T vm layout a f st_a).map
        (fun v => NUM2LONG T (C.method_hash vm v))) = ks.map (fun k => some (.ok k)) →
      layout_hash C T vm layout a st_a =
        some (.ok (INT2FIX T (C.rb_hash_end
          (ks.foldl (fun h k => C.rb_hash_uint h (k % 2 ^ SIZE_WIDTH T).toNat)
            (C.rb_hash_start 0)))))) := by
  have hfields := (layout_eq_loop_true_iff C T vm layout a st_a b st_b _).mp heq
  obtain ⟨h1, r, h2⟩ := layout_hash_loop_congr C T vm layout a st_a b st_b
    layout.msgdef.fields
    (fun f hf => layout_eq_field_hash C T vm layout a st_a b st_b f (hfields f hf) hhash hrhash)
    (C.rb_hash_start 0)
  refine ⟨?_, ?_, fun ks hks => ?_⟩
  · unfold layout_hash
    rw [h1]
  · unfold layout_hash
    rw [h2]
    cases r with
    | error e => exact ⟨_, rfl⟩
    | ok h => exact ⟨_, rfl⟩
  · unfold layout_hash
    rw [layout_hash_loop_fold C T vm layout a st_a _ ks _ hks]

/-- Witness of C20 on `{sub: message, text: string, n: int32, tags}`: two buffers
whose `text` are two String objects with the same bytes have the same hash. -/
theorem layout_hash_respects_layout_eq_witness :
    layout_hash collab_structural .LP64 vm_note (create_layout .LP64 msgdef_note)
        0 (buffer_note .Qnil (.object 15) 7) =
      layout_hash collab_structural .LP64 vm_note (create_layout .LP64 msgdef_note)
        0 (buffer_note .Qnil (.object 16) 7) ∧
    layout_hash collab_structural .LP64 vm_note (create_layout .LP64 msgdef_note)
        0 (buffer_note .Qnil (.object 15) 7) = some (.ok (.integer 9448776)) :=
  ⟨(layout_hash_respects_layout_eq collab_structural .LP64 vm_note
      (create_layout .LP64 msgdef_note) 0 (buffer_note .Qnil (.object 15) 7)
      0 (buffer_note .Qnil (.object 16) 7) (by decide)
      (content_hash_funcall_eq .LP64 vm_note) (content_hash_same_object vm_note)).1,
    (layout_hash_respects_layout_eq collab_structural .LP64 vm_note
      (create_layout .LP64 msgdef_note) 0 (buffer_note .Qnil (.object 15) 7)
      0 (buffer_note .Qnil (.object 16) 7) (by decide)
      (content_hash_funcall_eq .LP64 vm_note) (content_hash_same_object vm_note)).2.2
      [0, 9832, 7, 7] rfl⟩

/-! ## Copies of a buffer: the loops -/

theorem allocate_nil (vm : RubyVM) : allocate vm [] = vm := by
  cases vm
  simp [allocate]

theorem allocate_allocate (vm : RubyVM) (a b : List RObject) :
    allocate (allocate vm a) b = allocate vm (a ++ b) := by
  simp [allocate, List.append_assoc]

theorem load_cells_length (st : Storage) (addr n : Nat) : (load_cells st addr n).length = n := by
  simp [load_cells]

theorem copy_fold_frame (T : DataModel) (layout : MessageLayout) (to_ : Nat)
    (step : RubyVM × Storage → upb_fielddef → Option (RubyVM × Storage))
    (hstep : ∀ s f s', step s f = some s' →
      (∃ new, s'.1 = allocate s.1 new) ∧
      ∃ cells, cells.length = field_size T f ∧
        s'.2 = store_cells s.2 (to_ + layout_offset layout f) cells) :
    ∀ (l : List upb_fielddef) (s s' : RubyVM × Storage), l.foldlM step s = some s' →
      (∃ new, s'.1 = allocate s.1 new) ∧
      ∀ a, (∀ g ∈ l, a < to_ + layout_offset layout g ∨
          to_ + layout_offset layout g + field_size T g ≤ a) → s'.2 a = s.2 a := by
  intro l
  induction l with
  | nil =>
    intro s s' h
    simp only [List.foldlM_nil, Option.pure_def, Option.some.injEq] at h
    subst h
    exact ⟨⟨[], (allocate_nil _).symm⟩, fun _ _ => rfl⟩
  | cons g rest ih =>
    intro s s' h
    simp only [List.foldlM_cons, Option.bind_eq_bind, Option.bind_eq_some] at h
    obtain ⟨s1, h1, h2⟩ := h
    obtain ⟨⟨new1, hn1⟩, cells, hlen, hst⟩ := hstep s g s1 h1
    obtain ⟨⟨new2, hn2⟩, hframe⟩ := ih s1 s' h2
    refine ⟨⟨new1 ++ new2, by rw [hn2, hn1, allocate_allocate]⟩, fun a ha => ?_⟩
    rw [hframe a (fun k hk => ha k (List.mem_cons_of_mem _ hk)), hst]
    apply store_cells_outside
    rw [hlen]
    exact ha g (List.mem_cons_self _ _)

theorem copy_fold_slot (T : DataModel) (layout : MessageLayout) (to_ : Nat)
    (step : RubyVM × Storage → upb_fielddef → Option (RubyVM × Storage))
    (hstep : ∀ s f s', step s f = some s' →
      (∃ new, s'.1 = allocate s.1 new) ∧
      ∃ cells, cells.length = field_size T f ∧
        s'.2 = store_cells s.2 (to_ + layout_offset layout f) cells) :
    ∀ (l : List upb_fielddef),
      l.Pairwise (fun f g =>
        layout_offset layout f + field_size T f ≤ layout_offset layout g) →
      ∀ (s s' : RubyVM × Storage) (f : upb_fielddef), f ∈ l → l.foldlM step s = some s' →
      ∃ s0 s1, step s0 f = some s1 ∧ (∃ pre, s0.1 = allocate s.1 pre) ∧
        (∃ more, s'.1 = allocate s1.1 more) ∧
        ∀ a, to_ + layout_offset layout f ≤ a →
          a < to_ + layout_offset layout f + field_size T f → s'.2 a = s1.2 a := by
  intro l
  induction l with
  | nil => intro _ s s' f hf; simp at hf
  | cons g rest ih =>
    intro hpw s s' f hf h
    rw [List.pairwise_cons] at hpw
    simp only [List.foldlM_cons, Option.bind_eq_bind, Option.bind_eq_some] at h
    obtain ⟨s1, h1, h2⟩ := h
    rcases List.mem_cons.mp hf with rfl | hmem
    · obtain ⟨hheap, hframe⟩ := copy_fold_frame T layout to_ step hstep rest s1 s' h2
      refine ⟨s, s1, h1, ⟨[], (allocate_nil _).symm⟩, hheap, fun a ha1 ha2 => ?_⟩
      apply hframe
      intro k hk
      have := hpw.1 k hk
      omega
    · obtain ⟨s0, s2, hs, ⟨pre, hpre⟩, hmore, hcells⟩ := ih hpw.2 s1 s' f hmem h2
      obtain ⟨⟨new1, hn1⟩, _⟩ := hstep s g s1 h1
      exact ⟨s0, s2, hs, ⟨new1 ++ pre, by rw [hpre, hn1, allocate_allocate]⟩, hmore, hcells⟩

theorem copy_fold_total (vm : RubyVM)
    (step : RubyVM × Storage → upb_fielddef → Option (RubyVM × Storage))
    (hheap : ∀ s f s', step s f = some s' → ∃ new, s'.1 = allocate s.1 new) :
    ∀ (l : List upb_fielddef),
      (∀ f ∈ l, ∀ new st, ∃ s', step (allocate vm new, st) f = some s') →
      ∀ new st, ∃ s', l.foldlM step (allocate vm new, st) = some s' := by
  intro l
  induction l with
  | nil => intro _ new st; exact ⟨_, rfl⟩
  | cons g rest ih =>
    intro hdef new st
    obtain ⟨s1, h1⟩ := hdef g (List.mem_cons_self _ _) new st
    obtain ⟨new1, hn1⟩ := hheap _ g s1 h1
    have hs1 : s1 = (allocate vm (new ++ new1), s1.2) := by
      rw [← allocate_allocate, ← hn1]
    obtain ⟨s', h2⟩ := ih (fun f hf => hdef f (List.mem_cons_of_mem _ hf)) (new ++ new1) s1.2
    refine ⟨s', ?_⟩
    simp only [List.foldlM_cons, Option.bind_eq_bind, h1, Option.some_bind]
    rw [hs1]
    exact h2

theorem layout_dup_field_step (C : Collaborators) (T : DataModel) (layout : MessageLayout)
    (to_ from_ : Nat) (st_from : Storage) (s : RubyVM × Storage) (f : upb_fielddef)
    (s' : RubyVM × Storage) (h : layout_dup_field C T layout to_ from_ st_from s f = some s') :
    (∃ new, s'.1 = allocate s.1 new) ∧
      ∃ cells, cells.length = field_size T f ∧
        s'.2 = store_cells s.2 (to_ + layout_offset layout f) cells := by
  unfold layout_dup_field at h
  unfold field_size
  by_cases hl : f.label = .UPB_LABEL_REPEATED
  · simp only [hl, if_true] at h ⊢
    cases hc : load_VALUE T st_from (from_ + layout_offset layout f) with
    | none => simp [hc] at h
    | some c =>
      simp only [hc, Option.some.injEq] at h
      subst h
      exact ⟨⟨_, rfl⟩, _, encode_VALUE_length T _, rfl⟩
  · simp only [hl, if_false, Option.some.injEq] at h ⊢
    subst h
    exact ⟨⟨[], (allocate_nil _).symm⟩, _, load_cells_length _ _ _, rfl⟩

theorem native_slot_clone_step (C : Collaborators) (T : DataModel) (type : upb_fieldtype_t)
    (to_ from_ : Nat) (st_from : Storage) (s s' : RubyVM × Storage)
    (h : native_slot_clone C T type to_ from_ st_from s = some s') :
    (∃ new, s'.1 = allocate s.1 new) ∧
      ∃ cells, cells.length = native_slot_size T type ∧ s'.2 = store_cells s.2 to_ cells := by
  cases type <;> simp only [native_slot_clone] at h
  case UPB_TYPE_STRING | UPB_TYPE_BYTES | UPB_TYPE_MESSAGE =>
    cases hv : load_VALUE T st_from from_ with
    | none => simp [hv] at h
    | some v =>
      simp only [hv] at h
      by_cases hn : v ≠ .Qnil
      · rw [if_pos hn] at h
        first
          | (cases hd : rb_funcall_dup s.1 v with
             | none => simp [hd] at h
             | some r =>
               simp only [hd, Option.some.injEq] at h
               subst h
               exact ⟨⟨_, rfl⟩, _, encode_VALUE_length T _, rfl⟩)
          | (simp only [Option.some.injEq] at h
             subst h
             exact ⟨⟨_, rfl⟩, _, encode_VALUE_length T _, rfl⟩)
      · rw [if_neg hn] at h
        simp only [Option.some.injEq] at h
        subst h
        exact ⟨⟨[], (allocate_nil _).symm⟩, _, encode_VALUE_length T _, rfl⟩
  all_goals
    simp only [Option.some.injEq] at h
    subst h
    exact ⟨⟨[], (allocate_nil _).symm⟩, _, load_cells_length _ _ _, rfl⟩

theorem layout_clone_field_step (C : Collaborators) (T : DataModel) (layout : MessageLayout)
    (to_ from_ : Nat) (st_from : Storage) (s : RubyVM × Storage) (f : upb_fielddef)
    (s' : RubyVM × Storage) (h : layout_clone_field C T layout to_ from_ st_from s f = some s') :
    (∃ new, s'.1 = allocate s.1 new) ∧
      ∃ cells, cells.length = field_size T f ∧
        s'.2 = store_cells s.2 (to_ + layout_offset layout f) cells := by
  unfold layout_clone_field at h
  unfold field_size
  by_cases hl : f.label = .UPB_LABEL_REPEATED
  · simp only [hl, if_true] at h ⊢
    cases hc : load_VALUE T st_from (from_ + layout_offset layout f) with
    | none => simp [hc] at h
    | some c =>
      simp only [hc, Option.some.injEq] at h
      subst h
      exact ⟨⟨_, rfl⟩, _, encode_VALUE_length T _, rfl⟩
  · simp only [hl, if_false] at h ⊢
    exact native_slot_clone_step C T f.type _ _ st_from s s' h

/-! ## Duplicate of a buffer -/

theorem layout_dup_slot (C : Collaborators) (T : DataModel) (m : upb_msgdef) (vm : RubyVM)
    (to_ from_ : Nat) (st_from st_to : Storage) (s' : RubyVM × Storage)
    (h : layout_dup C T (create_layout T m) to_ from_ st_from (vm, st_to) = some s')
    (f : upb_fielddef) (hf : f ∈ m.fields) :
    (f.label = .UPB_LABEL_REPEATED →
      ∃ c vm1 more,
        load_VALUE T st_from (from_ + layout_offset (create_layout T m) f) = some c ∧
        load_VALUE T s'.2 (to_ + layout_offset (create_layout T m) f) =
          some (C.RepeatedField_dup vm1 c).2 ∧
        s'.1 = allocate (allocate vm1 (C.RepeatedField_dup vm1 c).1) more) ∧
    (f.label ≠ .UPB_LABEL_REPEATED →
      load_cells s'.2 (to_ + layout_offset (create_layout T m) f) (native_slot_size T f.type) =
        load_cells st_from (from_ + layout_offset (create_layout T m) f)
          (native_slot_size T f.type)) := by
  obtain ⟨s0, s1, hstep, _, ⟨more, hmore⟩, hcells⟩ :=
    copy_fold_slot T (create_layout T m) to_ _
      (layout_dup_field_step C T (create_layout T m) to_ from_ st_from)
      m.fields (create_layout_slots_ordered T m) (vm, st_to) s' f hf h
  unfold layout_dup_field at hstep
  constructor
  · intro hl
    simp only [hl, if_true] at hstep
    have hsize : field_size T f = sizeof_VALUE T := by simp [field_size, hl]
    rw [hsize] at hcells
    cases hc : load_VALUE T st_from (from_ + layout_offset (create_layout T m) f) with
    | none => simp [hc] at hstep
    | some c =>
      simp only [hc, Option.some.injEq] at hstep
      subst hstep
      refine ⟨c, s0.1, more, rfl, ?_, hmore⟩
      rw [load_VALUE_congr T _ _ _ hcells]
      exact load_store_VALUE T _ _ _
  · intro hl
    simp only [hl, if_false, Option.some.injEq] at hstep
    subst hstep
    have hsize : field_size T f = native_slot_size T f.type := by simp [field_size, hl]
    rw [hsize] at hcells
    rw [load_cells_congr _ _ _ _ hcells]
    have hls := load_store_cells s0.2 (to_ + layout_offset (create_layout T m) f)
      (load_cells st_from (from_ + layout_offset (create_layout T m) f)
        (native_slot_size T f.type))
    rw [load_cells_length] at hls
    exact hls

theorem slot_populated_value (T : DataModel) (vm : RubyVM) (f : upb_fielddef) (memory : Nat)
    (st : Storage) (h : slot_populated T vm f memory st)
    (hl : f.label ≠ .UPB_LABEL_REPEATED)
    (ht : f.type ≠ .UPB_TYPE_STRING ∧ f.type ≠ .UPB_TYPE_BYTES ∧ f.type ≠ .UPB_TYPE_MESSAGE) :
    ∃ x, decode_int (load_cells st memory (native_slot_size T f.type)) = some x := by
  unfold slot_populated at h
  rw [if_neg hl] at h
  obtain ⟨h3, h4, h5⟩ := ht
  cases hty : f.type <;> rw [hty] at h h3 h4 h5 <;> first
    | exact absurd rfl h3
    | exact absurd rfl h4
    | exact absurd rfl h5
    | exact h

theorem slot_populated_VALUE (T : DataModel) (vm : RubyVM) (f : upb_fielddef) (memory : Nat)
    (st : Storage) (h : slot_populated T vm f memory st)
    (ht : f.label = .UPB_LABEL_REPEATED ∨ f.type = .UPB_TYPE_STRING ∨
      f.type = .UPB_TYPE_BYTES ∨ f.type = .UPB_TYPE_MESSAGE) :
    ∃ v, load_VALUE T st memory = some v := by
  unfold slot_populated at h
  by_cases hl : f.label = .UPB_LABEL_REPEATED
  · rw [if_pos hl] at h
    exact h
  · rw [if_neg hl] at h
    rcases ht with ht | ht | ht | ht
    · exact absurd ht hl
    all_goals
      rw [ht] at h
      obtain ⟨v, hv, _⟩ := h
      exact ⟨v, hv⟩

theorem native_slot_size_ref (T : DataModel) (type : upb_fieldtype_t)
    (ht : type = .UPB_TYPE_STRING ∨ type = .UPB_TYPE_BYTES ∨ type = .UPB_TYPE_MESSAGE) :
    native_slot_size T type = sizeof_VALUE T := by
  rcases ht with rfl | rfl | rfl <;> rfl

theorem type_value_or_ref (type : upb_fieldtype_t) :
    (type ≠ .UPB_TYPE_STRING ∧ type ≠ .UPB_TYPE_BYTES ∧ type ≠ .UPB_TYPE_MESSAGE) ∨
      (type = .UPB_TYPE_STRING ∨ type = .UPB_TYPE_BYTES ∨ type = .UPB_TYPE_MESSAGE) := by
  cases type <;> simp

theorem layout_dup_total (C : Collaborators) (T : DataModel) (vm : RubyVM)
    (layout : MessageLayout) (to_ from_ : Nat) (st_from st_to : Storage)
    (hpop : buffer_populated T vm layout from_ st_from) :
    ∃ s', layout_dup C T layout to_ from_ st_from (vm, st_to) = some s' := by
  have h := copy_fold_total vm (layout_dup_field C T layout to_ from_ st_from)
    (fun s f s' hs => (layout_dup_field_step C T layout to_ from_ st_from s f s' hs).1)
    layout.msgdef.fields
    (fun f hf new st => by
      unfold layout_dup_field
      by_cases hl : f.label = .UPB_LABEL_REPEATED
      · obtain ⟨v, hv⟩ := slot_populated_VALUE T vm f _ st_from (hpop f hf) (Or.inl hl)
        simp only [hl, if_true, hv]
        exact ⟨_, rfl⟩
      · simp only [hl, if_false]
        exact ⟨_, rfl⟩)
    [] st_to
  rw [allocate_nil] at h
  exact h

/-- C16: from a populated source buffer, `layout_dup` returns and leaves a
destination buffer in which every singular slot holds the bytes of the source
slot, so that a string, bytes or message slot holds the very reference of the
source, and every repeated slot holds the result of `RepeatedField_dup`.
`layout_eq` reports the destination equal to the source, provided that a
message equals itself and that a container equals its duplicate, also after
later allocations. -/
theorem layout_dup_equal_and_aliasing (C : Collaborators) (T : DataModel) (m : upb_msgdef)
    (vm : RubyVM) (to_ from_ : Nat) (st_from st_to : Storage)
    (hpop : buffer_populated T vm (create_layout T m) from_ st_from) :
    ∃ vm' st_to',
      layout_dup C T (create_layout T m) to_ from_ st_from (vm, st_to) = some (vm', st_to') ∧
      ((∀ vm1 v, C.method_eq vm1 v v = .Qtrue) →
        (∀ vm1 c more,
          C.RepeatedField_eq (allocate (allocate vm1 (C.RepeatedField_dup vm1 c).1) more) c
            (C.RepeatedField_dup vm1 c).2 ≠ .Qfalse) →
        layout_eq C T vm' (create_layout T m) from_ st_from to_ st_to' = some .Qtrue) ∧
      (∀ f ∈ m.fields, f.label ≠ .UPB_LABEL_REPEATED →
        load_cells st_to' (to_ + layout_offset (create_layout T m) f)
            (native_slot_size T f.type) =
          load_cells st_from (from_ + layout_offset (create_layout T m) f)
            (native_slot_size T f.type)) ∧
      (∀ f ∈ m.fields, f.label ≠ .UPB_LABEL_REPEATED →
        f.type = .UPB_TYPE_STRING ∨ f.type = .UPB_TYPE_BYTES ∨ f.type = .UPB_TYPE_MESSAGE →
        ∃ v, load_VALUE T st_from (from_ + layout_offset (create_layout T m) f) = some v ∧
          load_VALUE T st_to' (to_ + layout_offset (create_layout T m) f) = some v) ∧
      (∀ f ∈ m.fields, f.label = .UPB_LABEL_REPEATED →
        ∃ c vm1, load_VALUE T st_from (from_ + layout_offset (create_layout T m) f) = some c ∧
          load_VALUE T st_to' (to_ + layout_offset (create_layout T m) f) =
            some (C.RepeatedField_dup vm1 c).2) := by
  obtain ⟨s', hs'⟩ := layout_dup_total C T vm (create_layout T m) to_ from_ st_from st_to hpop
  have hslot := layout_dup_slot C T m vm to_ from_ st_from st_to s' hs'
  have hrefs : ∀ f ∈ m.fields, f.label ≠ .UPB_LABEL_REPEATED →
      f.type = .UPB_TYPE_STRING ∨ f.type = .UPB_TYPE_BYTES ∨ f.type = .UPB_TYPE_MESSAGE →
      ∃ v, load_VALUE T st_from (from_ + layout_offset (create_layout T m) f) = some v ∧
        load_VALUE T s'.2 (to_ + layout_offset (create_layout T m) f) = some v := by
    intro f hf hl ht
    obtain ⟨v, hv⟩ := slot_populated_VALUE T vm f _ st_from (hpop f hf) (Or.inr ht)
    refine ⟨v, hv, ?_⟩
    have hc := (hslot f hf).2 hl
    rw [native_slot_size_ref T f.type ht] at hc
    rw [load_VALUE_cells T _ _ _ _ hc]
    exact hv
  refine ⟨s'.1, s'.2, hs', fun hrefl hdup => ?_, fun f hf hl => (hslot f hf).2 hl, hrefs,
    fun f hf hl => ?_⟩
  · refine (layout_eq_loop_true_iff C T s'.1 (create_layout T m) from_ st_from to_ s'.2 _).mpr
      (fun f hf => ?_)
    unfold layout_eq_field
    by_cases hl : f.label = .UPB_LABEL_REPEATED
    · obtain ⟨c, vm1, more, h1, h2, h3⟩ := (hslot f hf).1 hl
      simp only [hl, if_true, h1, h2, h3]
      simpa using hdup vm1 c more
    · simp only [hl, if_false]
      rcases type_value_or_ref f.type with ht | ht
      · obtain ⟨x, hx⟩ := slot_populated_value T vm f _ st_from (hpop f hf) hl ht
        have hc := (hslot f hf).2 hl
        rw [native_slot_eq_bytes C T s'.1 f.type _ st_from _ s'.2 x x ht hx (hc ▸ hx), hc]
        simp
      · obtain ⟨v, h1, h2⟩ := hrefs f hf hl ht
        rw [native_slot_eq_refs C T s'.1 f.type _ st_from _ s'.2 v v ht h1 h2,
          rb_funcall_eq_self C T s'.1 v (hrefl s'.1 v)]
        rfl
  · obtain ⟨c, vm1, more, h1, h2, _⟩ := (hslot f hf).1 hl
    exact ⟨c, vm1, h1, h2⟩

theorem heap_get_lt (vm : RubyVM) (x : Nat) (o : RObject) (h : vm.heap[x]? = some o) :
    x < vm.heap.length := by
  by_contra hc
  rw [List.getElem?_eq_none (by omega)] at h
  cases h

theorem heap_get_allocate (vm : RubyVM) (new : List RObject) (x : Nat) (o : RObject)
    (h : vm.heap[x]? = some o) : (allocate vm new).heap[x]? = some o := by
  have hlt := heap_get_lt vm x o h
  show (vm.heap ++ new)[x]? = some o
  rw [List.getElem?_append_left hlt]
  exact h

theorem heap_get_allocate_new (vm : RubyVM) (o : RObject) (rest : List RObject) :
    (allocate vm (o :: rest)).heap[vm.heap.length]? = some o := by
  show (vm.heap ++ o :: rest)[vm.heap.length]? = some o
  rw [List.getElem?_append_right (le_refl _)]
  simp

theorem same_object_copy (vm1 : RubyVM) (v : VALUE) (more : List RObject) :
    same_object (allocate (allocate vm1 (copy_object vm1 v).1) more) v (copy_object vm1 v).2 =
      .Qtrue := by
  cases v with
  | object x =>
    cases hx : vm1.heap[x]? with
    | none => simp [copy_object, rb_funcall_dup, hx, same_object]
    | some o =>
      have hlt := heap_get_lt vm1 x o hx
      have h1 : (allocate (allocate vm1 [o]) more).heap[x]? = some o :=
        heap_get_allocate _ _ _ _ (heap_get_allocate _ _ _ _ hx)
      have h2 : (allocate (allocate vm1 [o]) more).heap[vm1.heap.length]? = some o :=
        heap_get_allocate _ _ _ _ (heap_get_allocate_new vm1 o [])
      simp only [copy_object, rb_funcall_dup, hx, Option.getD_some, same_object, h1, h2,
        if_true]
      split <;> rfl
  | _ => simp [copy_object, rb_funcall_dup, same_object]

/-- Witness of C16 on `{sub: message, text: string, n: int32, tags}`: the
duplicate of a buffer that holds a submessage, a String, the number 7 and a
container is reported equal to it, and its `text` is the same String object. -/
theorem layout_dup_equal_and_aliasing_witness :
    ∃ vm' st_to',
      layout_dup collab_structural .LP64 (create_layout .LP64 msgdef_note) 0 0
          (buffer_note (.object 12) (.object 15) 7) (vm_note, st_fresh) = some (vm', st_to') ∧
      layout_eq collab_structural .LP64 vm' (create_layout .LP64 msgdef_note)
          0 (buffer_note (.object 12) (.object 15) 7) 0 st_to' = some .Qtrue ∧
      load_VALUE .LP64 st_to' 8 = some (.object 15) := by
  obtain ⟨vm', st_to', h1, h2, _, h4, _⟩ :=
    layout_dup_equal_and_aliasing collab_structural .LP64 msgdef_note vm_note 0 0
      (buffer_note (.object 12) (.object 15) 7) st_fresh
      (buffer_note_populated _ _ (Or.inr rfl) (Or.inl rfl))
  refine ⟨vm', st_to', h1, h2 (fun vm1 v => same_object_self vm1 v) (fun vm1 c more => ?_), ?_⟩
  · intro hq
    exact absurd ((same_object_copy vm1 c more).symm.trans hq) (by decide)
  · obtain ⟨v, hv1, hv2⟩ := h4 (mk_field "text" UPB_TYPE_STRING 1) (by decide) (by decide)
      (Or.inl rfl)
    have hv : v = .object 15 := by
      have h15 : load_VALUE .LP64 (buffer_note (.object 12) (.object 15) 7)
          (0 + layout_offset (create_layout .LP64 msgdef_note)
            (mk_field "text" UPB_TYPE_STRING 1)) = some (.object 15) := by decide
      rw [h15] at hv1
      exact (Option.some.inj hv1).symm
    rw [hv] at hv2
    exact hv2

/-! ## Clone of a buffer -/

theorem string_object_of_class_type (T : DataModel) (vm : RubyVM) (v : VALUE)
    (hc : CLASS_OF T vm v = rb_cString) (ht : TYPE T vm v = ruby_value_type.T_STRING) :
    ∃ addr bytes, v = .object addr ∧
      vm.heap[addr]? = some { klass := rb_cString, body := .string bytes } := by
  cases v with
  | object addr =>
    cases ho : vm.heap[addr]? with
    | none => simp [TYPE, ho] at ht
    | some o =>
      obtain ⟨k, body⟩ := o
      simp only [CLASS_OF, ho] at hc
      simp only [TYPE, ho] at ht
      cases body with
      | string bytes => exact ⟨addr, bytes, rfl, by rw [ho, hc]⟩
      | module_ is_class consts => cases is_class <;> simp at ht
      | _ => simp at ht
  | integer n => simp only [TYPE] at ht; split at ht <;> simp at ht
  | _ => simp [TYPE] at ht

theorem CLASS_OF_allocate (T : DataModel) (vm : RubyVM) (new : List RObject) (v : VALUE)
    (h : CLASS_OF T vm v ≠ .Qfalse) : CLASS_OF T (allocate vm new) v = CLASS_OF T vm v := by
  cases v with
  | object x =>
    cases ho : vm.heap[x]? with
    | none => simp [CLASS_OF, ho] at h
    | some o => simp only [CLASS_OF, ho, heap_get_allocate vm new x o ho]
  | _ => rfl

theorem rb_funcall_eq_string_copy (C : Collaborators) (T : DataModel) (vm : RubyVM)
    (a addr : Nat) (bytes : List Nat)
    (h1 : vm.heap[a]? = some { klass := rb_cString, body := .string bytes })
    (h2 : vm.heap[addr]? = some { klass := rb_cString, body := .string bytes }) :
    rb_funcall_eq C T vm (.object a) (.object addr) = .Qtrue := by
  simp [rb_funcall_eq, CLASS_OF, h1, rb_str_equal, TYPE, h2, string_bytes]

theorem layout_clone_slot (C : Collaborators) (T : DataModel) (m : upb_msgdef) (vm : RubyVM)
    (to_ from_ : Nat) (st_from st_to : Storage) (s' : RubyVM × Storage)
    (h : layout_clone C T (create_layout T m) to_ from_ st_from (vm, st_to) = some s')
    (f : upb_fielddef) (hf : f ∈ m.fields) :
    (f.label = .UPB_LABEL_REPEATED →
      ∃ c vm1 more,
        load_VALUE T st_from (from_ + layout_offset (create_layout T m) f) = some c ∧
        load_VALUE T s'.2 (to_ + layout_offset (create_layout T m) f) =
          some (C.RepeatedField_clone vm1 c).2 ∧
        s'.1 = allocate (allocate vm1 (C.RepeatedField_clone vm1 c).1) more) ∧
    (f.label ≠ .UPB_LABEL_REPEATED →
      f.type ≠ .UPB_TYPE_STRING ∧ f.type ≠ .UPB_TYPE_BYTES ∧ f.type ≠ .UPB_TYPE_MESSAGE →
      load_cells s'.2 (to_ + layout_offset (create_layout T m) f) (native_slot_size T f.type) =
        load_cells st_from (from_ + layout_offset (create_layout T m) f)
          (native_slot_size T f.type)) ∧
    (f.label ≠ .UPB_LABEL_REPEATED →
      f.type = .UPB_TYPE_STRING ∨ f.type = .UPB_TYPE_BYTES →
      ∃ v, load_VALUE T st_from (from_ + layout_offset (create_layout T m) f) = some v ∧
        (v = .Qnil →
          load_VALUE T s'.2 (to_ + layout_offset (create_layout T m) f) = some .Qnil) ∧
        (v ≠ .Qnil → ∃ vm1 r more, (∃ new, vm1 = allocate vm new) ∧
          rb_funcall_dup vm1 v = some r ∧
          load_VALUE T s'.2 (to_ + layout_offset (create_layout T m) f) = some r.2 ∧
          s'.1 = allocate (allocate vm1 r.1) more)) ∧
    (f.label ≠ .UPB_LABEL_REPEATED → f.type = .UPB_TYPE_MESSAGE →
      ∃ v, load_VALUE T st_from (from_ + layout_offset (create_layout T m) f) = some v ∧
        (v = .Qnil →
          load_VALUE T s'.2 (to_ + layout_offset (create_layout T m) f) = some .Qnil) ∧
        (v ≠ .Qnil → ∃ vm1 more, (∃ new, vm1 = allocate vm new) ∧
          load_VALUE T s'.2 (to_ + layout_offset (create_layout T m) f) =
            some (C.Message_clone vm1 v).2 ∧
          s'.1 = allocate (allocate vm1 (C.Message_clone vm1 v).1) more)) := by
  obtain ⟨s0, s1, hstep, ⟨pre, hpre⟩, ⟨more, hmore⟩, hcells⟩ :=
    copy_fold_slot T (create_layout T m) to_ _
      (layout_clone_field_step C T (create_layout T m) to_ from_ st_from)
      m.fields (create_layout_slots_ordered T m) (vm, st_to) s' f hf h
  unfold layout_clone_field at hstep
  refine ⟨fun hl => ?_, fun hl ht => ?_, fun hl ht => ?_, fun hl ht => ?_⟩
  · simp only [hl, if_true] at hstep
    have hsize : field_size T f = sizeof_VALUE T := by simp [field_size, hl]
    rw [hsize] at hcells
    cases hc : load_VALUE T st_from (from_ + layout_offset (create_layout T m) f) with
    | none => simp [hc] at hstep
    | some c =>
      simp only [hc, Option.some.injEq] at hstep
      subst hstep
      refine ⟨c, s0.1, more, rfl, ?_, hmore⟩
      rw [load_VALUE_congr T _ _ _ hcells]
      exact load_store_VALUE T _ _ _
  · simp only [hl, if_false] at hstep
    have hsize : field_size T f = native_slot_size T f.type := by simp [field_size, hl]
    rw [hsize] at hcells
    rw [load_cells_congr _ _ _ _ hcells]
    have hs1 : s1 = (s0.1, store_cells s0.2 (to_ + layout_offset (create_layout T m) f)
        (load_cells st_from (from_ + layout_offset (create_layout T m) f)
          (native_slot_size T f.type))) := by
      obtain ⟨h3, h4, h5⟩ := ht
      cases hty : f.type <;> rw [hty] at h3 h4 h5 hstep <;> first
        | exact absurd rfl h3
        | exact absurd rfl h4
        | exact absurd rfl h5
        | (simp only [native_slot_clone, Option.some.injEq] at hstep
           exact hstep.symm)
    rw [hs1]
    have hls := load_store_cells s0.2 (to_ + layout_offset (create_layout T m) f)
      (load_cells st_from (from_ + layout_offset (create_layout T m) f)
        (native_slot_size T f.type))
    rw [load_cells_length] at hls
    exact hls
  · simp only [hl, if_false] at hstep
    have hsize : field_size T f = sizeof_VALUE T := by
      rcases ht with ht | ht <;> simp [field_size, hl, ht, native_slot_size]
    rw [hsize] at hcells
    have hstep2 : (match load_VALUE T st_from (from_ + layout_offset (create_layout T m) f) with
        | none => none
        | some from_val =>
          if from_val ≠ .Qnil then
            match rb_funcall_dup s0.1 from_val with
            | none => none
            | some r => some (allocate s0.1 r.1,
                store_VALUE T s0.2 (to_ + layout_offset (create_layout T m) f) r.2)
          else some (s0.1,
            store_VALUE T s0.2 (to_ + layout_offset (create_layout T m) f) .Qnil)) =
        some s1 := by
      rcases ht with ht | ht <;> rw [ht] at hstep <;> exact hstep
    cases hv : load_VALUE T st_from (from_ + layout_offset (create_layout T m) f) with
    | none => simp [hv] at hstep2
    | some v =>
      simp only [hv] at hstep2
      refine ⟨v, rfl, fun hn => ?_, fun hn => ?_⟩
      · rw [if_neg (not_not.mpr hn)] at hstep2
        simp only [Option.some.injEq] at hstep2
        subst hstep2
        rw [load_VALUE_congr T _ _ _ hcells]
        exact load_store_VALUE T _ _ _
      · rw [if_pos hn] at hstep2
        cases hd : rb_funcall_dup s0.1 v with
        | none => simp [hd] at hstep2
        | some r =>
          simp only [hd, Option.some.injEq] at hstep2
          subst hstep2
          refine ⟨s0.1, r, more, ⟨pre, hpre⟩, hd, ?_, hmore⟩
          rw [load_VALUE_congr T _ _ _ hcells]
          exact load_store_VALUE T _ _ _
  · simp only [hl, if_false, ht, native_slot_clone] at hstep
    have hsize : field_size T f = sizeof_VALUE T := by
      simp [field_size, hl, ht, native_slot_size]
    rw [hsize] at hcells
    cases hv : load_VALUE T st_from (from_ + layout_offset (create_layout T m) f) with
    | none => simp [hv] at hstep
    | some v =>
      simp only [hv] at hstep
      refine ⟨v, rfl, fun hn => ?_, fun hn => ?_⟩
      · rw [if_neg (not_not.mpr hn)] at hstep
        simp only [Option.some.injEq] at hstep
        subst hstep
        rw [load_VALUE_congr T _ _ _ hcells]
        exact load_store_VALUE T _ _ _
      · rw [if_pos hn] at hstep
        simp only [Option.some.injEq] at hstep
        subst hstep
        refine ⟨s0.1, more, ⟨pre, hpre⟩, ?_, hmore⟩
        rw [load_VALUE_congr T _ _ _ hcells]
        exact load_store_VALUE T _ _ _

theorem slot_populated_string (T : DataModel) (vm : RubyVM) (f : upb_fielddef) (memory : Nat)
    (st : Storage) (h : slot_populated T vm f memory st)
    (hl : f.label ≠ .UPB_LABEL_REPEATED)
    (ht : f.type = .UPB_TYPE_STRING ∨ f.type = .UPB_TYPE_BYTES) :
    ∃ addr bytes, load_VALUE T st memory = some (.object addr) ∧
      vm.heap[addr]? = some { klass := rb_cString, body := .string bytes } := by
  unfold slot_populated at h
  rw [if_neg hl] at h
  have h2 : ∃ v, load_VALUE T st memory = some v ∧ CLASS_OF T vm v = rb_cString ∧
      TYPE T vm v = ruby_value_type.T_STRING := by
    rcases ht with ht | ht <;> rw [ht] at h <;> exact h
  obtain ⟨v, hv, hc, hty⟩ := h2
  obtain ⟨addr, bytes, rfl, ho⟩ := string_object_of_class_type T vm v hc hty
  exact ⟨addr, bytes, hv, ho⟩

theorem slot_populated_message (T : DataModel) (vm : RubyVM) (f : upb_fielddef) (memory : Nat)
    (st : Storage) (h : slot_populated T vm f memory st)
    (hl : f.label ≠ .UPB_LABEL_REPEATED) (ht : f.type = .UPB_TYPE_MESSAGE) :
    ∃ v, load_VALUE T st memory = some v ∧
      (v = .Qnil ∨ CLASS_OF T vm v = get_type_class vm f) := by
  unfold slot_populated at h
  rw [if_neg hl, ht] at h
  exact h

theorem layout_clone_total (C : Collaborators) (T : DataModel) (vm : RubyVM)
    (layout : MessageLayout) (to_ from_ : Nat) (st_from st_to : Storage)
    (hpop : buffer_populated T vm layout from_ st_from) :
    ∃ s', layout_clone C T layout to_ from_ st_from (vm, st_to) = some s' := by
  have h := copy_fold_total vm (layout_clone_field C T layout to_ from_ st_from)
    (fun s f s' hs => (layout_clone_field_step C T layout to_ from_ st_from s f s' hs).1)
    layout.msgdef.fields
    (fun f hf new st => by
      unfold layout_clone_field
      by_cases hl : f.label = .UPB_LABEL_REPEATED
      · obtain ⟨v, hv⟩ := slot_populated_VALUE T vm f _ st_from (hpop f hf) (Or.inl hl)
        simp only [hl, if_true, hv]
        exact ⟨_, rfl⟩
      · simp only [hl, if_false]
        cases hty : f.type
        case neg.UPB_TYPE_STRING =>
          obtain ⟨addr, bytes, hv, ho⟩ := slot_populated_string T vm f _ st_from (hpop f hf) hl
            (Or.inl hty)
          simp only [native_slot_clone, hv, rb_funcall_dup, heap_get_allocate vm new addr _ ho]
          rw [if_pos (by simp)]
          exact ⟨_, rfl⟩
        case neg.UPB_TYPE_BYTES =>
          obtain ⟨addr, bytes, hv, ho⟩ := slot_populated_string T vm f _ st_from (hpop f hf) hl
            (Or.inr hty)
          simp only [native_slot_clone, hv, rb_funcall_dup, heap_get_allocate vm new addr _ ho]
          rw [if_pos (by simp)]
          exact ⟨_, rfl⟩
        case neg.UPB_TYPE_MESSAGE =>
          obtain ⟨v, hv, _⟩ := slot_populated_message T vm f _ st_from (hpop f hf) hl hty
          simp only [native_slot_clone, hv]
          by_cases hn : v ≠ .Qnil
          · rw [if_pos hn]
            exact ⟨_, rfl⟩
          · rw [if_neg hn]
            exact ⟨_, rfl⟩
        all_goals exact ⟨_, rfl⟩)
    [] st_to
  rw [allocate_nil] at h
  exact h

/-- C17: from a populated source buffer, `layout_clone` returns and leaves a
destination buffer in which every singular value-type slot holds the bytes of
the source slot, as `native_slot_dup` copies them; every string or bytes slot
holds a reference to a String object that did not exist before, is not the
source's object and has the source's bytes; every message slot holds `nil`
where the source holds `nil` and else the result of `Message_clone`; and every
repeated slot holds the result of `RepeatedField_clone`. `layout_eq` reports the
destination equal to the source, provided that the class of every message field
is a class other than `String`, that a message equals its clone under `==` and
that a container equals its clone, also after later allocations. -/
theorem layout_clone_equal_and_independent (C : Collaborators) (T : DataModel)
    (m : upb_msgdef) (vm : RubyVM) (to_ from_ : Nat) (st_from st_to : Storage)
    (hpop : buffer_populated T vm (create_layout T m) from_ st_from) :
    ∃ vm' st_to',
      layout_clone C T (create_layout T m) to_ from_ st_from (vm, st_to) =
        some (vm', st_to') ∧
      ((∀ f ∈ m.fields, f.type = .UPB_TYPE_MESSAGE →
          get_type_class vm f ≠ rb_cString ∧ get_type_class vm f ≠ .Qfalse) →
        (∀ vm1 v more,
          C.method_eq (allocate (allocate vm1 (C.Message_clone vm1 v).1) more) v
            (C.Message_clone vm1 v).2 = .Qtrue) →
        (∀ vm1 c more,
          C.RepeatedField_eq (allocate (allocate vm1 (C.RepeatedField_clone vm1 c).1) more) c
            (C.RepeatedField_clone vm1 c).2 ≠ .Qfalse) →
        layout_eq C T vm' (create_layout T m) from_ st_from to_ st_to' = some .Qtrue) ∧
      (∀ f ∈ m.fields, f.label ≠ .UPB_LABEL_REPEATED →
        f.type ≠ .UPB_TYPE_STRING ∧ f.type ≠ .UPB_TYPE_BYTES ∧ f.type ≠ .UPB_TYPE_MESSAGE →
        ∀ st : Storage,
          load_cells st_to' (to_ + layout_offset (create_layout T m) f)
              (native_slot_size T f.type) =
            load_cells st_from (from_ + layout_offset (create_layout T m) f)
              (native_slot_size T f.type) ∧
          load_cells st_to' (to_ + layout_offset (create_layout T m) f)
              (native_slot_size T f.type) =
            load_cells
              (native_slot_dup T f.type (to_ + layout_offset (create_layout T m) f) st
                (from_ + layout_offset (create_layout T m) f) st_from)
              (to_ + layout_offset (create_layout T m) f) (native_slot_size T f.type)) ∧
      (∀ f ∈ m.fields, f.label ≠ .UPB_LABEL_REPEATED →
        f.type = .UPB_TYPE_STRING ∨ f.type = .UPB_TYPE_BYTES →
        ∃ v addr,
          load_VALUE T st_from (from_ + layout_offset (create_layout T m) f) = some v ∧
          load_VALUE T st_to' (to_ + layout_offset (create_layout T m) f) =
            some (.object addr) ∧
          .object addr ≠ v ∧ vm.heap.length ≤ addr ∧
          CLASS_OF T vm' (.object addr) = rb_cString ∧
          string_bytes vm' (.object addr) = string_bytes vm v) ∧
      (∀ f ∈ m.fields, f.label ≠ .UPB_LABEL_REPEATED → f.type = .UPB_TYPE_MESSAGE →
        ∃ v, load_VALUE T st_from (from_ + layout_offset (create_layout T m) f) = some v ∧
          (v = .Qnil →
            load_VALUE T st_to' (to_ + layout_offset (create_layout T m) f) = some .Qnil) ∧
          (v ≠ .Qnil → ∃ vm1, (∃ new, vm1 = allocate vm new) ∧
            load_VALUE T st_to' (to_ + layout_offset (create_layout T m) f) =
              some (C.Message_clone vm1 v).2)) ∧
      (∀ f ∈ m.fields, f.label = .UPB_LABEL_REPEATED →
        ∃ c vm1, load_VALUE T st_from (from_ + layout_offset (create_layout T m) f) = some c ∧
          load_VALUE T st_to' (to_ + layout_offset (create_layout T m) f) =
            some (C.RepeatedField_clone vm1 c).2) := by
  obtain ⟨s', hs'⟩ := layout_clone_total C T vm (create_layout T m) to_ from_ st_from st_to hpop
  have hslot := layout_clone_slot C T m vm to_ from_ st_from st_to s' hs'
  -- the copy of a String: a new object with the same class and bytes
  have hstr : ∀ f ∈ m.fields, f.label ≠ .UPB_LABEL_REPEATED →
      f.type = .UPB_TYPE_STRING ∨ f.type = .UPB_TYPE_BYTES →
      ∃ a addr bytes,
        load_VALUE T st_from (from_ + layout_offset (create_layout T m) f) =
          some (.object a) ∧
        load_VALUE T s'.2 (to_ + layout_offset (create_layout T m) f) = some (.object addr) ∧
        vm.heap[a]? = some { klass := rb_cString, body := .string bytes } ∧
        s'.1.heap[a]? = some { klass := rb_cString, body := .string bytes } ∧
        s'.1.heap[addr]? = some { klass := rb_cString, body := .string bytes } ∧
        vm.heap.length ≤ addr := by
    intro f hf hl ht
    obtain ⟨a, bytes, hv, ho⟩ := slot_populated_string T vm f _ st_from (hpop f hf) hl ht
    obtain ⟨v, hv2, _, hcopy⟩ := (hslot f hf).2.2.1 hl ht
    rw [hv] at hv2
    have hva : v = .object a := (Option.some.inj hv2).symm
    subst hva
    obtain ⟨vm1, r, more, ⟨new, hnew⟩, hd, hload, hheap⟩ := hcopy (by simp)
    have ho1 : vm1.heap[a]? = some { klass := rb_cString, body := .string bytes } := by
      rw [hnew]
      exact heap_get_allocate vm new a _ ho
    simp only [rb_funcall_dup, ho1, Option.some.injEq] at hd
    subst hd
    refine ⟨a, vm1.heap.length, bytes, hv, hload, ho, ?_, ?_, ?_⟩
    · rw [hheap]
      exact heap_get_allocate _ _ _ _ (heap_get_allocate _ _ _ _ ho1)
    · rw [hheap]
      exact heap_get_allocate _ _ _ _ (heap_get_allocate_new vm1 _ [])
    · rw [hnew]
      show vm.heap.length ≤ (vm.heap ++ new).length
      rw [List.length_append]
      omega
  refine ⟨s'.1, s'.2, hs', fun hcls hclone hrclone => ?_, fun f hf hl ht st => ?_,
    fun f hf hl ht => ?_, fun f hf hl ht => ?_, fun f hf hl => ?_⟩
  · refine (layout_eq_loop_true_iff C T s'.1 (create_layout T m) from_ st_from to_ s'.2 _).mpr
      (fun f hf => ?_)
    unfold layout_eq_field
    by_cases hl : f.label = .UPB_LABEL_REPEATED
    · obtain ⟨c, vm1, more, h1, h2, h3⟩ := (hslot f hf).1 hl
      simp only [hl, if_true, h1, h2, h3]
      simpa using hrclone vm1 c more
    · simp only [hl, if_false]
      rcases type_value_or_ref f.type with ht | ht
      · obtain ⟨x, hx⟩ := slot_populated_value T vm f _ st_from (hpop f hf) hl ht
        have hc := (hslot f hf).2.1 hl ht
        rw [native_slot_eq_bytes C T s'.1 f.type _ st_from _ s'.2 x x ht hx (hc ▸ hx), hc]
        simp
      · by_cases hm : f.type = .UPB_TYPE_MESSAGE
        · obtain ⟨v, hv, hcl⟩ := slot_populated_message T vm f _ st_from (hpop f hf) hl hm
          obtain ⟨v2, hv2, hnil, hcopy⟩ := (hslot f hf).2.2.2 hl hm
          rw [hv] at hv2
          have hvv : v2 = v := (Option.some.inj hv2).symm
          subst hvv
          by_cases hn : v2 = .Qnil
          · rw [native_slot_eq_refs C T s'.1 f.type _ st_from _ s'.2 v2 .Qnil ht hv (hnil hn),
              hn]
            simp [rb_funcall_eq]
          · obtain ⟨vm1, more, ⟨new, hnew⟩, hload, hheap⟩ := hcopy hn
            rw [native_slot_eq_refs C T s'.1 f.type _ st_from _ s'.2 v2 _ ht hv hload]
            have hclass : CLASS_OF T vm v2 = get_type_class vm f := by
              rcases hcl with hcl | hcl
              · exact absurd hcl hn
              · exact hcl
            have hc1 : CLASS_OF T s'.1 v2 = get_type_class vm f := by
              rw [hheap, hnew, allocate_allocate, allocate_allocate,
                CLASS_OF_allocate T vm _ v2 (by rw [hclass]; exact (hcls f hf hm).2), hclass]
            have heq : rb_funcall_eq C T s'.1 v2 (C.Message_clone vm1 v2).2 = .Qtrue := by
              unfold rb_funcall_eq
              rw [if_neg hn, if_neg (by rw [hc1]; exact (hcls f hf hm).1), hheap]
              exact hclone vm1 v2 more
            rw [heq]
            rfl
        · have hs : f.type = .UPB_TYPE_STRING ∨ f.type = .UPB_TYPE_BYTES := by
            rcases ht with ht | ht | ht
            · exact Or.inl ht
            · exact Or.inr ht
            · exact absurd ht hm
          obtain ⟨a, addr, bytes, h1, h2, _, h4, h5, _⟩ := hstr f hf hl hs
          rw [native_slot_eq_refs C T s'.1 f.type _ st_from _ s'.2 _ _ ht h1 h2,
            rb_funcall_eq_string_copy C T s'.1 a addr bytes h4 h5]
          rfl
  · have hc := (hslot f hf).2.1 hl ht
    refine ⟨hc, ?_⟩
    rw [hc]
    have hls := load_store_cells st (to_ + layout_offset (create_layout T m) f)
      (load_cells st_from (from_ + layout_offset (create_layout T m) f)
        (native_slot_size T f.type))
    rw [load_cells_length] at hls
    exact hls.symm
  · obtain ⟨a, addr, bytes, h1, h2, h3, _, h5, h6⟩ := hstr f hf hl ht
    have hlt := heap_get_lt vm a _ h3
    refine ⟨.object a, addr, h1, h2, ?_, h6, ?_, ?_⟩
    · intro he
      injection he with he
      omega
    · simp [CLASS_OF, h5]
    · simp [string_bytes, h5, h3]
  · obtain ⟨v, hv, hnil, hcopy⟩ := (hslot f hf).2.2.2 hl ht
    refine ⟨v, hv, hnil, fun hn => ?_⟩
    obtain ⟨vm1, more, hnew, hload, _⟩ := hcopy hn
    exact ⟨vm1, hnew, hload⟩
  · obtain ⟨c, vm1, more, h1, h2, _⟩ := (hslot f hf).1 hl
    exact ⟨c, vm1, h1, h2⟩

/-- Witness of C17 on `{sub: message, text: string, n: int32, tags}`: the clone
of a buffer that holds a submessage, a String, the number 7 and a container is
reported equal to it, and its `text` is a String object that did not exist
before, not the source's object 15, with the same bytes. -/
theorem layout_clone_equal_and_independent_witness :
    ∃ vm' st_to',
      layout_clone collab_structural .LP64 (create_layout .LP64 msgdef_note) 0 0
          (buffer_note (.object 12) (.object 15) 7) (vm_note, st_fresh) = some (vm', st_to') ∧
      layout_eq collab_structural .LP64 vm' (create_layout .LP64 msgdef_note)
          0 (buffer_note (.object 12) (.object 15) 7) 0 st_to' = some .Qtrue ∧
      ∃ addr, load_VALUE .LP64 st_to' 8 = some (.object addr) ∧ 18 ≤ addr ∧
        string_bytes vm' (.object addr) = [97, 98] := by
  obtain ⟨vm', st_to', h1, h2, _, h4, _⟩ :=
    layout_clone_equal_and_independent collab_structural .LP64 msgdef_note vm_note 0 0
      (buffer_note (.object 12) (.object 15) 7) st_fresh
      (buffer_note_populated _ _ (Or.inr rfl) (Or.inl rfl))
  refine ⟨vm', st_to', h1, h2 (fun f hf ht => ?_) (fun vm1 v more => same_object_copy vm1 v more)
    (fun vm1 c more hq => absurd ((same_object_copy vm1 c more).symm.trans hq) (by decide)), ?_⟩
  · have hfs : f = mk_field "sub" UPB_TYPE_MESSAGE 0 ∨
        f = mk_field "text" UPB_TYPE_STRING 1 ∨ f = mk_field "n" UPB_TYPE_INT32 2 ∨
        f = field_tags := by
      simpa [msgdef_note] using hf
    rcases hfs with rfl | rfl | rfl | rfl <;> decide
  · obtain ⟨v, addr, hv1, hv2, _, hge, _, hbytes⟩ :=
      h4 (mk_field "text" UPB_TYPE_STRING 1) (by decide) (by decide) (Or.inl rfl)
    have hv : v = .object 15 := by
      have h15 : load_VALUE .LP64 (buffer_note (.object 12) (.object 15) 7)
          (0 + layout_offset (create_layout .LP64 msgdef_note)
            (mk_field "text" UPB_TYPE_STRING 1)) = some (.object 15) := by decide
      rw [h15] at hv1
      exact (Option.some.inj hv1).symm
    rw [hv] at hbytes
    exact ⟨addr, hv2, hge, hbytes⟩

/-! ## Populated buffers: layout_init and layout_set -/

theorem decode_int_load_store (st : Storage) (mem n x : Nat) :
    decode_int (load_cells (store_cells st mem (encode_int n x)) mem n) = some (x % 256 ^ n) := by
  have h := load_store_cells st mem (encode_int n x)
  rw [encode_int_length] at h
  rw [h, decode_encode_int]

theorem slot_populated_congr (T : DataModel) (vm : RubyVM) (f : upb_fielddef) (memory : Nat)
    (st1 st2 : Storage)
    (h : ∀ a, memory ≤ a → a < memory + field_size T f → st1 a = st2 a) :
    slot_populated T vm f memory st1 = slot_populated T vm f memory st2 := by
  unfold slot_populated
  unfold field_size at h
  by_cases hl : f.label = .UPB_LABEL_REPEATED
  · simp only [hl, if_true] at h ⊢
    rw [load_VALUE_congr T st1 st2 memory h]
  · simp only [hl, if_false] at h ⊢
    cases hty : f.type <;> rw [hty] at h <;> simp only [native_slot_size] at h ⊢ <;> first
      | rw [load_VALUE_congr T st1 st2 memory h]
      | rw [load_cells_congr st1 st2 memory _ h]

theorem native_slot_init_populated (T : DataModel) (type : upb_fieldtype_t) (memory : Nat)
    (s : RubyVM × Storage) (f : upb_fielddef) (hl : f.label ≠ .UPB_LABEL_REPEATED)
    (hty : f.type = type) (vm' : RubyVM) (new : List RObject)
    (hheap : vm'.heap = (native_slot_init T type memory s).1.heap ++ new) :
    slot_populated T vm' f memory (native_slot_init T type memory s).2 := by
  unfold slot_populated
  rw [if_neg hl, hty]
  cases type <;> simp only [native_slot_init, native_slot_size, store_float, store_double,
    store_signed, store_unsigned]
  case UPB_TYPE_STRING | UPB_TYPE_BYTES =>
    have ho : vm'.heap[s.1.heap.length]? = some { klass := rb_cString, body := .string [] } := by
      rw [hheap]
      exact heap_get_allocate _ new _ _ (heap_get_allocate_new s.1 _ [])
    refine ⟨.object s.1.heap.length, load_store_VALUE T _ _ _, ?_, ?_⟩
    · simp only [CLASS_OF, ho]
    · simp only [TYPE, ho]
  case UPB_TYPE_MESSAGE => exact ⟨.Qnil, load_store_VALUE T _ _ _, Or.inl rfl⟩
  all_goals exact ⟨_, decode_int_load_store _ _ _ _⟩

theorem layout_init_populated (T : DataModel) (m : upb_msgdef) (storage : Nat) (vm : RubyVM)
    (st : Storage) :
    buffer_populated T (layout_init T (create_layout T m) storage (vm, st)).1
      (create_layout T m) storage (layout_init T (create_layout T m) storage (vm, st)).2 := by
  intro f hf
  obtain ⟨s0, hcells, new, hheap⟩ :=
    layout_init_fold_slot T (create_layout T m) storage m.fields
      (create_layout_slots_ordered T m) (vm, st) f hf
  have hfold : layout_init T (create_layout T m) storage (vm, st) =
      m.fields.foldl (layout_init_field T (create_layout T m) storage) (vm, st) := rfl
  rw [hfold]
  generalize m.fields.foldl (layout_init_field T (create_layout T m) storage) (vm, st) = sf
    at hcells hheap ⊢
  rw [slot_populated_congr T sf.1 f _ sf.2
    (layout_init_field T (create_layout T m) storage s0 f).2 hcells]
  by_cases hl : f.label = .UPB_LABEL_REPEATED
  · unfold slot_populated
    rw [if_pos hl]
    obtain ⟨cells, _, _⟩ := layout_init_field_storage T (create_layout T m) storage s0 f
    unfold layout_init_field
    simp only [hl, if_true]
    exact ⟨_, load_store_VALUE T _ _ _⟩
  · have hinit : layout_init_field T (create_layout T m) storage s0 f =
        native_slot_init T f.type (storage + layout_offset (create_layout T m) f) s0 := by
      simp [layout_init_field, hl]
    rw [hinit] at hheap ⊢
    exact native_slot_init_populated T f.type _ s0 f hl rfl sf.1 new hheap

theorem create_layout_slots_disjoint (T : DataModel) (m : upb_msgdef) (f g : upb_fielddef)
    (hf : f ∈ m.fields) (hg : g ∈ m.fields) (hne : f ≠ g) :
    layout_offset (create_layout T m) f + field_size T f ≤ layout_offset (create_layout T m) g ∨
      layout_offset (create_layout T m) g + field_size T g ≤
        layout_offset (create_layout T m) f := by
  have hpw : m.fields.Pairwise (fun a b =>
      layout_offset (create_layout T m) a + field_size T a ≤
          layout_offset (create_layout T m) b ∨
        layout_offset (create_layout T m) b + field_size T b ≤
          layout_offset (create_layout T m) a) :=
    (create_layout_slots_ordered T m).imp (fun h => Or.inl h)
  exact hpw.forall (fun a b h => h.symm) hf hg hne

theorem native_slot_set_returned_cells (T : DataModel) (vm : RubyVM) (type : upb_fieldtype_t)
    (type_class : VALUE) (memory : Nat) (value : VALUE) (st st' : Storage)
    (h : native_slot_set T vm type type_class memory value st = .returned st') :
    ∃ cells, cells.length = native_slot_size T type ∧ st' = store_cells st memory cells := by
  cases type <;> simp only [native_slot_set] at h <;> (repeat' split at h) <;> cases h <;>
    first
      | exact ⟨_, encode_int_length _ _, rfl⟩
      | exact ⟨_, encode_VALUE_length T _, rfl⟩

theorem native_slot_set_returned_populated (T : DataModel) (vm : RubyVM) (f : upb_fielddef)
    (memory : Nat) (value : VALUE) (st st' : Storage)
    (hwf : ∀ v, CLASS_OF T vm v = rb_cString → TYPE T vm v = ruby_value_type.T_STRING)
    (hl : f.label ≠ .UPB_LABEL_REPEATED)
    (h : native_slot_set T vm f.type (get_type_class vm f) memory value st = .returned st') :
    slot_populated T vm f memory st' := by
  unfold slot_populated
  rw [if_neg hl]
  cases hty : f.type <;> rw [hty] at h <;> simp only [native_slot_set] at h <;>
    (repeat' split at h) <;> cases h <;> simp only []
  case UPB_TYPE_STRING.isFalse hc | UPB_TYPE_BYTES.isFalse hc =>
    simp only [ne_eq, not_not] at hc
    exact ⟨value, load_store_VALUE T _ _ _, hc, hwf value hc⟩
  case UPB_TYPE_MESSAGE.isFalse hc =>
    simp only [ne_eq, not_not] at hc
    exact ⟨value, load_store_VALUE T _ _ _, Or.inr hc⟩
  all_goals
    simp only [native_slot_size, store_float, store_double, store_signed, store_unsigned]
    exact ⟨_, decode_int_load_store _ _ _ _⟩

theorem layout_set_populated (T : DataModel) (m : upb_msgdef) (vm : RubyVM) (storage : Nat)
    (f : upb_fielddef) (val : VALUE) (st st' : Storage)
    (hwf : ∀ v, CLASS_OF T vm v = rb_cString → TYPE T vm v = ruby_value_type.T_STRING)
    (hf : f ∈ m.fields)
    (hpop : buffer_populated T vm (create_layout T m) storage st)
    (hset : layout_set T vm (create_layout T m) storage f val st = .returned st') :
    buffer_populated T vm (create_layout T m) storage st' := by
  have hcells : ∃ cells, cells.length = field_size T f ∧
      st' = store_cells st (storage + layout_offset (create_layout T m) f) cells ∧
      slot_populated T vm f (storage + layout_offset (create_layout T m) f) st' := by
    unfold layout_set at hset
    unfold field_size
    by_cases hl : f.label = .UPB_LABEL_REPEATED
    · simp only [hl, if_true] at hset ⊢
      split at hset
      · cases hset
      · cases hset
        refine ⟨_, encode_VALUE_length T val, rfl, ?_⟩
        unfold slot_populated
        rw [if_pos hl]
        exact ⟨val, load_store_VALUE T _ _ _⟩
    · simp only [hl, if_false] at hset ⊢
      obtain ⟨cells, hlen, hst⟩ := native_slot_set_returned_cells T vm _ _ _ _ _ _ hset
      exact ⟨cells, hlen, hst, native_slot_set_returned_populated T vm f _ val st st' hwf hl hset⟩
  obtain ⟨cells, hlen, hst, hslot⟩ := hcells
  intro g hg
  by_cases hgf : g = f
  · rw [hgf]
    exact hslot
  · have hd := create_layout_slots_disjoint T m g f hg hf hgf
    rw [slot_populated_congr T vm g _ st' st (fun a h1 h2 => by
      rw [hst]
      apply store_cells_outside
      rw [hlen]
      omega)]
    exact hpop g hg

/-! ## Frame property of layout_set -/

theorem encode_int_written (n x : Nat) : ∀ c ∈ encode_int n x, c ≠ memval.Uninit := by
  induction n generalizing x with
  | zero => intro c hc; simp [encode_int] at hc
  | succ k ih =>
    intro c hc
    simp only [encode_int, List.mem_cons] at hc
    rcases hc with rfl | hc
    · simp
    · exact ih _ c hc

theorem encode_VALUE_written (T : DataModel) (v : VALUE) :
    ∀ c ∈ encode_VALUE T v, c ≠ memval.Uninit := by
  intro c hc
  simp only [encode_VALUE, List.mem_map] at hc
  obtain ⟨i, _, rfl⟩ := hc
  simp

theorem native_slot_set_writes_slot (T : DataModel) (vm : RubyVM) (type : upb_fieldtype_t)
    (type_class : VALUE) (memory : Nat) (value : VALUE) (st st' : Storage)
    (h : native_slot_set T vm type type_class memory value st = .returned st') :
    ∃ cells, cells.length = native_slot_size T type ∧ st' = store_cells st memory cells ∧
      ∀ c ∈ cells, c ≠ memval.Uninit := by
  cases type <;> simp only [native_slot_set] at h <;> (repeat' split at h) <;> cases h <;>
    first
      | exact ⟨_, encode_int_length _ _, rfl, encode_int_written _ _⟩
      | exact ⟨_, encode_VALUE_length T _, rfl, encode_VALUE_written T _⟩

theorem layout_set_writes_slot (T : DataModel) (vm : RubyVM) (layout : MessageLayout)
    (storage : Nat) (f : upb_fielddef) (val : VALUE) (st st' : Storage)
    (h : layout_set T vm layout storage f val st = .returned st') :
    ∃ cells, cells.length = field_size T f ∧
      st' = store_cells st (storage + layout_offset layout f) cells ∧
      ∀ c ∈ cells, c ≠ memval.Uninit := by
  unfold layout_set at h
  unfold field_size
  by_cases hl : f.label = .UPB_LABEL_REPEATED
  · simp only [hl, if_true] at h ⊢
    split at h
    · cases h
    · cases h
      exact ⟨_, encode_VALUE_length T val, rfl, encode_VALUE_written T val⟩
  · simp only [hl, if_false] at h ⊢
    exact native_slot_set_writes_slot T vm _ _ _ _ _ _ h

theorem layout_set_raised (T : DataModel) (vm : RubyVM) (layout : MessageLayout)
    (storage : Nat) (f : upb_fielddef) (val : VALUE) (st st' : Storage) (e : ruby_exception)
    (h : layout_set T vm layout storage f val st = .raised e st') : st' = st := by
  unfold layout_set at h
  simp only at h
  split at h
  · split at h
    · cases h
      rfl
    · cases h
  · exact native_slot_set_raised T vm _ _ _ val st st' e h

theorem layout_set_state_outside (T : DataModel) (vm : RubyVM) (layout : MessageLayout)
    (storage : Nat) (f : upb_fielddef) (val : VALUE) (st : Storage) (a : Nat)
    (ha : a < storage + layout_offset layout f ∨
      storage + layout_offset layout f + field_size T f ≤ a) :
    (layout_set T vm layout storage f val st).state a = st a := by
  cases h : layout_set T vm layout storage f val st with
  | returned st' =>
    obtain ⟨cells, hlen, hst, _⟩ := layout_set_writes_slot T vm layout storage f val st st' h
    show st' a = st a
    rw [hst]
    apply store_cells_outside
    rw [hlen]
    exact ha
  | raised e st' =>
    show st' a = st a
    rw [layout_set_raised T vm layout storage f val st st' e h]

theorem layout_get_congr (T : DataModel) (vm : RubyVM) (layout : MessageLayout)
    (storage : Nat) (g : upb_fielddef) (st1 st2 : Storage)
    (h : ∀ a, storage + layout_offset layout g ≤ a →
      a < storage + layout_offset layout g + field_size T g → st1 a = st2 a) :
    layout_get T vm layout storage g st1 = layout_get T vm layout storage g st2 := by
  unfold layout_get
  unfold field_size at h
  by_cases hl : g.label = .UPB_LABEL_REPEATED
  · simp only [hl, if_true] at h ⊢
    exact load_VALUE_congr T st1 st2 _ h
  · simp only [hl, if_false] at h ⊢
    exact native_slot_get_cells T vm g.type _ st1 _ st2 _ (load_cells_congr st1 st2 _ _ h)

/-- C22: frame property of `layout_set`. For two distinct fields `f` and `g` of
a schema laid out by `create_layout`, a `layout_set` on `f`, returned or
raised, leaves every byte outside the slot of `f` as it was, so `layout_get` on
`g` reads the same before and after; the slot of `f` lies within the buffer. A
`layout_set` that returns has written exactly the cells of the slot of `f`, and
a store of `native_slot_set` writes exactly `native_slot_size` cells at the slot
address, each of them with data; one that raises has written nothing. -/
theorem layout_set_frame (T : DataModel) (m : upb_msgdef) (vm : RubyVM) (storage : Nat)
    (f g : upb_fielddef) (val : VALUE) (st : Storage)
    (hf : f ∈ m.fields) (hg : g ∈ m.fields) (hfg : f ≠ g) :
    (∀ a, a < storage + layout_offset (create_layout T m) f ∨
        storage + layout_offset (create_layout T m) f + field_size T f ≤ a →
      (layout_set T vm (create_layout T m) storage f val st).state a = st a) ∧
    layout_get T vm (create_layout T m) storage g
        (layout_set T vm (create_layout T m) storage f val st).state =
      layout_get T vm (create_layout T m) storage g st ∧
    storage + layout_offset (create_layout T m) f + field_size T f ≤
      storage + (create_layout T m).size ∧
    (∀ st', layout_set T vm (create_layout T m) storage f val st = .returned st' →
      ∃ cells, cells.length = field_size T f ∧
        st' = store_cells st (storage + layout_offset (create_layout T m) f) cells ∧
        ∀ c ∈ cells, c ≠ memval.Uninit) ∧
    (∀ e st', layout_set T vm (create_layout T m) storage f val st = .raised e st' →
      st' = st) ∧
    (∀ (type : upb_fieldtype_t) (type_class : VALUE) (memory : Nat) (value : VALUE)
        (st0 st' : Storage),
      native_slot_set T vm type type_class memory value st0 = .returned st' →
      ∃ cells, cells.length = native_slot_size T type ∧
        st' = store_cells st0 memory cells ∧ ∀ c ∈ cells, c ≠ memval.Uninit) := by
  have hout := layout_set_state_outside T vm (create_layout T m) storage f val st
  refine ⟨hout, ?_, ?_,
    fun st' h => layout_set_writes_slot T vm (create_layout T m) storage f val st st' h,
    fun e st' h => layout_set_raised T vm (create_layout T m) storage f val st st' e h,
    fun type type_class memory value st0 st' h =>
      native_slot_set_writes_slot T vm type type_class memory value st0 st' h⟩
  · apply layout_get_congr
    intro a h1 h2
    apply hout
    have hd := create_layout_slots_disjoint T m f g hf hg hfg
    omega
  · have hsz := (create_layout_eq_spec T m).2
    obtain ⟨_, ha⟩ := spec_layout_geometry T m.fields 0 _ (create_layout_eq_spec T m).1
    have h3 := (ha f hf).2.2
    rw [hsz]
    omega

/-- Witness of C22 on `{sub: message, text: string, n: int32, tags}`: after the
number 9 is set for `n`, and after the rejected assignment of `nil` to `n`, the
field `text` reads the String object 15 as before. -/
theorem layout_set_frame_witness :
    layout_get .LP64 vm_note (create_layout .LP64 msgdef_note) 0
        (mk_field "text" UPB_TYPE_STRING 1)
        (layout_set .LP64 vm_note (create_layout .LP64 msgdef_note) 0
          (mk_field "n" UPB_TYPE_INT32 2) (.integer 9)
          (buffer_note .Qnil (.object 15) 7)).state =
      layout_get .LP64 vm_note (create_layout .LP64 msgdef_note) 0
        (mk_field "text" UPB_TYPE_STRING 1) (buffer_note .Qnil (.object 15) 7) ∧
    layout_get .LP64 vm_note (create_layout .LP64 msgdef_note) 0
        (mk_field "text" UPB_TYPE_STRING 1)
        (layout_set .LP64 vm_note (create_layout .LP64 msgdef_note) 0
          (mk_field "n" UPB_TYPE_INT32 2) .Qnil
          (buffer_note .Qnil (.object 15) 7)).state =
      layout_get .LP64 vm_note (create_layout .LP64 msgdef_note) 0
        (mk_field "text" UPB_TYPE_STRING 1) (buffer_note .Qnil (.object 15) 7) :=
  ⟨(layout_set_frame .LP64 msgdef_note vm_note 0 (mk_field "n" UPB_TYPE_INT32 2)
      (mk_field "text" UPB_TYPE_STRING 1) (.integer 9) (buffer_note .Qnil (.object 15) 7)
      (by decide) (by decide) (by decide)).2.1,
    (layout_set_frame .LP64 msgdef_note vm_note 0 (mk_field "n" UPB_TYPE_INT32 2)
      (mk_field "text" UPB_TYPE_STRING 1) .Qnil (buffer_note .Qnil (.object 15) 7)
      (by decide) (by decide) (by decide)).2.1⟩

/-! ## Debug string -/

theorem heap_extends_refl (vm : RubyVM) : heap_extends vm vm :=
  ⟨rfl, fun _ _ h => h⟩

theorem heap_extends_allocate (vm vm1 : RubyVM) (new : List RObject)
    (h : heap_extends vm vm1) : heap_extends vm (allocate vm1 new) :=
  ⟨h.1, fun a o ho => heap_get_allocate vm1 new a o (h.2 a o ho)⟩

theorem rb_str_cat2_map (vm : RubyVM) (str : VALUE) (ptr : List Nat) :
    (rb_str_cat2 vm str ptr).upb_def_to_ruby_obj_map = vm.upb_def_to_ruby_obj_map := by
  unfold rb_str_cat2
  split
  · split <;> rfl
  · rfl

theorem rb_str_cat2_other (vm : RubyVM) (addr a : Nat) (ptr : List Nat) (h : a ≠ addr) :
    (rb_str_cat2 vm (.object addr) ptr).heap[a]? = vm.heap[a]? := by
  simp only [rb_str_cat2]
  split
  · simp only [List.getElem?_set]
    rw [if_neg (fun e => h e.symm)]
  · rfl

theorem rb_str_cat2_string (vm : RubyVM) (addr : Nat) (k : VALUE) (bytes ptr : List Nat)
    (h : vm.heap[addr]? = some { klass := k, body := .string bytes }) :
    (rb_str_cat2 vm (.object addr) ptr).heap[addr]? =
      some { klass := k, body := .string (bytes ++ ptr) } := by
  have hlt := heap_get_lt vm addr _ h
  simp only [rb_str_cat2, h, List.getElem?_set, if_true, hlt]

theorem heap_extends_cat2 (vm vm1 : RubyVM) (addr : Nat) (ptr : List Nat)
    (h : heap_extends vm vm1) (haddr : vm.heap.length ≤ addr) :
    heap_extends vm (rb_str_cat2 vm1 (.object addr) ptr) := by
  refine ⟨by rw [rb_str_cat2_map]; exact h.1, fun a o ho => ?_⟩
  have hlt := heap_get_lt vm a o ho
  rw [rb_str_cat2_other vm1 addr a ptr (by omega)]
  exact h.2 a o ho

theorem const_table_extends (vm vm1 : RubyVM) (tc : VALUE) (h : heap_extends vm vm1)
    (hc : const_table vm tc ≠ none) : const_table vm1 tc = const_table vm tc := by
  cases tc with
  | object b =>
    cases ho : vm.heap[b]? with
    | none => simp [const_table, ho] at hc
    | some o => simp only [const_table, ho, h.2 b o ho]
  | _ => simp [const_table] at hc

theorem EnumDescriptor_enummodule_extends (vm vm1 : RubyVM) (d : VALUE)
    (h : heap_extends vm vm1) (hd : EnumDescriptor_enummodule vm d ≠ .Qnil) :
    EnumDescriptor_enummodule vm1 d = EnumDescriptor_enummodule vm d := by
  cases d with
  | object a =>
    cases ho : vm.heap[a]? with
    | none => simp [EnumDescriptor_enummodule, ho] at hd
    | some o => simp only [EnumDescriptor_enummodule, ho, h.2 a o ho]
  | _ => simp [EnumDescriptor_enummodule] at hd

theorem layout_get_extends (T : DataModel) (vm vm1 : RubyVM) (layout : MessageLayout)
    (storage : Nat) (f : upb_fielddef) (st : Storage) (h : heap_extends vm vm1)
    (henum : f.label ≠ .UPB_LABEL_REPEATED → f.type = .UPB_TYPE_ENUM →
      const_table vm (get_type_class vm f) ≠ none) :
    layout_get T vm1 layout storage f st = layout_get T vm layout storage f st := by
  unfold layout_get
  by_cases hl : f.label = .UPB_LABEL_REPEATED
  · simp only [hl, if_true]
  · simp only [hl, if_false]
    cases hty : f.type <;> try rfl
    have hc := henum hl hty
    have hne : EnumDescriptor_enummodule vm (get_def_obj vm f.subdef) ≠ .Qnil := by
      intro hq
      apply hc
      simp [get_type_class, hty, hq, const_table]
    have htc : get_type_class vm1 f = get_type_class vm f := by
      simp only [get_type_class, hty]
      simp only [get_def_obj, h.1]
      exact EnumDescriptor_enummodule_extends vm vm1 _ h hne
    simp only [native_slot_get, htc, enum_lookup, const_table_extends vm vm1 _ h hc]

theorem intercalate_cons_flatten (sep x : List Nat) (xs : List (List Nat)) :
    List.intercalate sep (x :: xs) = x ++ (xs.map (fun y => sep ++ y)).flatten := by
  induction xs generalizing x with
  | nil => simp [List.intercalate]
  | cons y ys ih =>
    have h := ih y
    simp only [List.intercalate, List.intersperse, List.flatten_cons, List.map_cons,
      List.append_assoc] at h ⊢
    rw [h]

theorem layout_inspect_loop_renders (inspect : RubyVM → VALUE → List RObject × VALUE)
    (T : DataModel) (vm : RubyVM) (layout : MessageLayout) (storage : Nat) (st : Storage)
    (addr : Nat) (val : upb_fielddef → VALUE) (text : VALUE → List Nat)
    (haddr : vm.heap.length ≤ addr) :
    ∀ (l : List upb_fielddef) (first : Bool) (vm1 : RubyVM) (acc : List Nat),
      (∀ f ∈ l, layout_get T vm layout storage f st = some (val f)) →
      (∀ f ∈ l, f.label ≠ .UPB_LABEL_REPEATED → f.type = .UPB_TYPE_ENUM →
        const_table vm (get_type_class vm f) ≠ none) →
      (∀ f ∈ l, ∀ vm2, heap_extends vm vm2 →
        TYPE T (allocate vm2 (inspect vm2 (val f)).1) (inspect vm2 (val f)).2 =
            ruby_value_type.T_STRING ∧
          string_bytes (allocate vm2 (inspect vm2 (val f)).1) (inspect vm2 (val f)).2 =
            text (val f)) →
      heap_extends vm vm1 →
      vm1.heap[addr]? = some { klass := rb_cString, body := .string acc } →
      ∃ vm', layout_inspect_loop inspect T layout storage st (.object addr) l first vm1 =
          some (.ok vm') ∧
        heap_extends vm vm' ∧
        vm'.heap[addr]? = some (RObject.mk rb_cString (.string (acc ++
          (if first then
            List.intercalate (c_string ", ")
              (l.map (fun f => c_string f.name ++ c_string ": " ++ text (val f)))
          else
            ((l.map (fun f => c_string f.name ++ c_string ": " ++ text (val f))).map
              (fun y => c_string ", " ++ y)).flatten)))) := by
  intro l
  induction l with
  | nil =>
    intro first vm1 acc _ _ _ hext hstr
    refine ⟨vm1, rfl, hext, ?_⟩
    cases first <;> simpa [List.intercalate] using hstr
  | cons f rest ih =>
    intro first vm1 acc hget henum hinspect hext hstr
    have hg : layout_get T vm1 layout storage f st = some (val f) := by
      rw [layout_get_extends T vm vm1 layout storage f st hext (henum f (List.mem_cons_self _ _))]
      exact hget f (List.mem_cons_self _ _)
    -- the separator
    obtain ⟨vma, hexta, hstra, hvma⟩ : ∃ vma, heap_extends vm vma ∧
        vma.heap[addr]? = some (RObject.mk rb_cString
          (.string (acc ++ (if first then [] else c_string ", ")))) ∧
        vma = (if !first then rb_str_cat2 vm1 (.object addr) (c_string ", ") else vm1) := by
      cases first
      · exact ⟨_, heap_extends_cat2 vm vm1 addr _ hext haddr,
          rb_str_cat2_string vm1 addr _ _ _ hstr, rfl⟩
      · exact ⟨vm1, hext, by simpa using hstr, rfl⟩
    -- the name and the colon
    have hextb := heap_extends_cat2 vm vma addr (c_string f.name) hexta haddr
    have hstrb := rb_str_cat2_string vma addr _ _ (c_string f.name) hstra
    have hextc := heap_extends_cat2 vm _ addr (c_string ": ") hextb haddr
    have hstrc := rb_str_cat2_string _ addr _ _ (c_string ": ") hstrb
    -- the rendering of the value
    obtain ⟨hty, hbytes⟩ := hinspect f (List.mem_cons_self _ _) _ hextc
    have hextd := heap_extends_allocate vm _
      (inspect (rb_str_cat2 (rb_str_cat2 vma (.object addr) (c_string f.name)) (.object addr)
        (c_string ": ")) (val f)).1 hextc
    have hstrd := heap_get_allocate _
      (inspect (rb_str_cat2 (rb_str_cat2 vma (.object addr) (c_string f.name)) (.object addr)
        (c_string ": ")) (val f)).1 addr _ hstrc
    have hexte := heap_extends_cat2 vm _ addr (text (val f)) hextd haddr
    have hstre := rb_str_cat2_string _ addr _ _ (text (val f)) hstrd
    obtain ⟨vm', hloop, hext', hstr'⟩ := ih false _ _
      (fun g hg => hget g (List.mem_cons_of_mem _ hg))
      (fun g hg => henum g (List.mem_cons_of_mem _ hg))
      (fun g hg => hinspect g (List.mem_cons_of_mem _ hg)) hexte hstre
    refine ⟨vm', ?_, hext', ?_⟩
    · simp only [layout_inspect_loop, hg, rb_str_append, ← hvma, hty, if_true, hbytes]
      exact hloop
    · rw [hstr']
      cases first
      · simp [List.append_assoc]
      · simp [intercalate_cons_flatten, List.append_assoc]

theorem inspect_new_string (T : DataModel) (vm : RubyVM) (v : VALUE) :
    TYPE T (allocate vm (inspect_new vm v).1) (inspect_new vm v).2 =
        ruby_value_type.T_STRING ∧
      string_bytes (allocate vm (inspect_new vm v).1) (inspect_new vm v).2 =
        inspect_text vm v := by
  have ho := heap_get_allocate_new vm
    { klass := rb_cString, body := .string (inspect_text vm v) } []
  constructor
  · simp only [inspect_new, TYPE, ho]
  · simp only [inspect_new, string_bytes, ho]

theorem inspect_text_extends (vm vm1 : RubyVM) (v : VALUE) (h : heap_extends vm vm1)
    (hv : (match v with
      | .object x => decide (x < vm.heap.length)
      | _ => true) = true) : inspect_text vm1 v = inspect_text vm v := by
  cases v with
  | object x =>
    have hlt : x < vm.heap.length := by simpa using hv
    have ho : vm.heap[x]? = some (vm.heap.get ⟨x, hlt⟩) := by
      simp [List.getElem?_eq_getElem hlt]
    simp only [inspect_text, string_bytes, ho, h.2 x _ ho]
  | _ => rfl

/-- C21: with every field readable by `layout_get` and every `inspect` yielding
a String, `layout_inspect` returns a new String object whose bytes are the
renderings `name: text` of the fields in field order, joined by `", "`: the
text of a field is the text that `inspect` yields for the value that
`layout_get` reads. There is no separator before the first rendering and none
after the last; a schema without fields gives the empty String and a schema
with one field the rendering of that field alone. No object that existed
before is changed. -/
theorem layout_inspect_renders_fields (inspect : RubyVM → VALUE → List RObject × VALUE)
    (T : DataModel) (vm : RubyVM) (layout : MessageLayout) (storage : Nat) (st : Storage)
    (val : upb_fielddef → VALUE) (text : VALUE → List Nat)
    (hget : ∀ f ∈ layout.msgdef.fields, layout_get T vm layout storage f st = some (val f))
    (henum : ∀ f ∈ layout.msgdef.fields, f.label ≠ .UPB_LABEL_REPEATED →
      f.type = .UPB_TYPE_ENUM → const_table vm (get_type_class vm f) ≠ none)
    (hinspect : ∀ f ∈ layout.msgdef.fields, ∀ vm1, heap_extends vm vm1 →
      TYPE T (allocate vm1 (inspect vm1 (val f)).1) (inspect vm1 (val f)).2 =
          ruby_value_type.T_STRING ∧
        string_bytes (allocate vm1 (inspect vm1 (val f)).1) (inspect vm1 (val f)).2 =
          text (val f)) :
    ∃ vm', layout_inspect inspect T vm layout storage st =
        some (.ok (vm', .object vm.heap.length)) ∧
      heap_extends vm vm' ∧
      CLASS_OF T vm' (.object vm.heap.length) = rb_cString ∧
      string_bytes vm' (.object vm.heap.length) =
        List.intercalate (c_string ", ")
          (layout.msgdef.fields.map
            (fun f => c_string f.name ++ c_string ": " ++ text (val f))) ∧
      (layout.msgdef.fields = [] → string_bytes vm' (.object vm.heap.length) = []) ∧
      (∀ f, layout.msgdef.fields = [f] →
        string_bytes vm' (.object vm.heap.length) =
          c_string f.name ++ c_string ": " ++ text (val f)) ∧
      (∀ f rest, layout.msgdef.fields = f :: rest →
        string_bytes vm' (.object vm.heap.length) =
          c_string f.name ++ c_string ": " ++ text (val f) ++
            (rest.map (fun g =>
              c_string ", " ++ (c_string g.name ++ c_string ": " ++ text (val g)))).flatten) := by
  obtain ⟨vm', hloop, hext, hstr⟩ :=
    layout_inspect_loop_renders inspect T vm layout storage st vm.heap.length val text
      (le_refl _) layout.msgdef.fields true (rb_str_new2 vm []).1 [] hget henum hinspect
      (heap_extends_allocate vm vm _ (heap_extends_refl vm))
      (heap_get_allocate_new vm _ [])
  simp only [if_true, List.nil_append] at hstr
  have hbytes : string_bytes vm' (.object vm.heap.length) =
      List.intercalate (c_string ", ")
        (layout.msgdef.fields.map
          (fun f => c_string f.name ++ c_string ": " ++ text (val f))) := by
    simp only [string_bytes, hstr]
  refine ⟨vm', ?_, hext, ?_, hbytes, fun h0 => ?_, fun f h1 => ?_, fun f rest h2 => ?_⟩
  · unfold layout_inspect
    have h2 : (rb_str_new2 vm []).2 = VALUE.object vm.heap.length := rfl
    simp only [h2, hloop]
  · simp only [CLASS_OF, hstr]
  · rw [hbytes, h0]
    rfl
  · rw [hbytes, h1]
    simp [List.intercalate]
  · rw [hbytes, h2, List.map_cons, intercalate_cons_flatten, List.map_map]
    rfl

/-- Witness of C21 on `{sub: message, text: string, n: int32, tags}`: the text
of a buffer with a null `sub`, the String "ab", the number 7 and a container is
`sub: nil, text: "ab", n: 7, tags: ""`. -/
theorem layout_inspect_renders_fields_witness :
    ∃ vm', layout_inspect inspect_new .LP64 vm_note (create_layout .LP64 msgdef_note) 0
        (buffer_note .Qnil (.object 15) 7) = some (.ok (vm', .object 18)) ∧
      string_bytes vm' (.object 18) =
        c_string "sub: nil, text: " ++ [34] ++ c_string "ab" ++ [34] ++
          c_string ", n: 7, tags: " ++ [34, 34] := by
  obtain ⟨vm', h1, _, _, h4, _⟩ :=
    layout_inspect_renders_fields inspect_new .LP64 vm_note (create_layout .LP64 msgdef_note) 0
      (buffer_note .Qnil (.object 15) 7)
      (fun f => (layout_get .LP64 vm_note (create_layout .LP64 msgdef_note) 0 f
        (buffer_note .Qnil (.object 15) 7)).getD .Qnil)
      (inspect_text vm_note)
      (fun f hf => by
        have hfs : f = mk_field "sub" UPB_TYPE_MESSAGE 0 ∨
            f = mk_field "text" UPB_TYPE_STRING 1 ∨ f = mk_field "n" UPB_TYPE_INT32 2 ∨
            f = field_tags := by
          simpa [create_layout, msgdef_note] using hf
        rcases hfs with rfl | rfl | rfl | rfl <;> decide)
      (fun f hf hl ht => by
        have hfs : f = mk_field "sub" UPB_TYPE_MESSAGE 0 ∨
            f = mk_field "text" UPB_TYPE_STRING 1 ∨ f = mk_field "n" UPB_TYPE_INT32 2 ∨
            f = field_tags := by
          simpa [create_layout, msgdef_note] using hf
        rcases hfs with rfl | rfl | rfl | rfl <;> exact absurd ht (by decide))
      (fun f hf vm1 hext => by
        have hfs : f = mk_field "sub" UPB_TYPE_MESSAGE 0 ∨
            f = mk_field "text" UPB_TYPE_STRING 1 ∨ f = mk_field "n" UPB_TYPE_INT32 2 ∨
            f = field_tags := by
          simpa [create_layout, msgdef_note] using hf
        have hin := inspect_new_string .LP64 vm1
        refine ⟨(hin _).1, ?_⟩
        rw [(hin _).2]
        apply inspect_text_extends vm_note vm1 _ hext
        rcases hfs with rfl | rfl | rfl | rfl <;> decide)
  exact ⟨vm', h1, h4.trans (by decide)⟩

end ProtobufC
